import Mathlib

/-!
# Arrange My List: kanban board, calendar aggregation and notes list

A shallow embedding of the client state code in `public/js/kanban.js`,
`public/js/calendar.js`, `public/js/notes.js` and `public/js/app.js`, together
with the route handlers of `routes/tasks.js`, `routes/notes.js` and
`routes/calendar.js` over a store of table rows.

Conventions of the embedding:

* JavaScript arrays are lists; a mutating array method is the function that
  returns the array after the call.
* Module level `let` variables are fields of an explicit state record.
* `await apiRequest(..)` takes its outcome as an argument of type
  `Except String α`: `.ok data` is a 2xx response with body `data`,
  `.error msg` is the error that `apiRequest` throws, given by its message.
* Timestamps are instants, written with the UTC calendar fields that
  `Date.prototype.toISOString` prints.
-/

namespace Todolist

/-! ## Data model -/

/-- The three kanban status keys, the keys of the `tasks` object in `kanban.js`. -/
inductive Status where
  | todo
  | in_progress
  | done
  deriving DecidableEq, Repr

/-- An instant, given by the UTC calendar fields printed by `toISOString`
(`month` is 1-based as printed, years are years of the common era). -/
structure Timestamp where
  year : Nat
  month : Nat
  day : Nat
  hour : Nat
  minute : Nat
  second : Nat
  ms : Nat
  deriving DecidableEq, Repr

/-- A row of the `tasks` table as the client receives it. -/
structure Task where
  id : Nat
  title : String
  description : Option String
  status : Status
  priority : String
  due_date : Option Timestamp
  position : Int
  created_at : Timestamp
  deriving DecidableEq, Repr

/-- The `tasks` object of `kanban.js`: one array per status key. -/
structure Board where
  todo : List Task
  in_progress : List Task
  done : List Task
  deriving DecidableEq, Repr

/-- Property read `tasks[status]`. -/
def Board.get (b : Board) : Status → List Task
  | .todo => b.todo
  | .in_progress => b.in_progress
  | .done => b.done

/-- The board after the array stored under `status` has become `l`. -/
def Board.set (b : Board) (status : Status) (l : List Task) : Board :=
  match status with
  | .todo => { b with todo := l }
  | .in_progress => { b with in_progress := l }
  | .done => { b with done := l }

/-! ## JavaScript array helpers -/

/-- `Array.prototype.findIndex`: the index of the first element satisfying `p`;
`none` stands for the result `-1`. -/
def findIndex {α : Type} (p : α → Bool) : List α → Option Nat
  | [] => none
  | x :: xs => if p x then some 0 else (findIndex p xs).map (· + 1)

/-- `Array.prototype.find`: the first element satisfying `p`. -/
def find {α : Type} (p : α → Bool) : List α → Option α
  | [] => none
  | x :: xs => if p x then some x else find p xs

/-- `arr.splice(index, 1)`: the removed elements and the array afterwards. -/
def splice1 {α : Type} (arr : List α) (index : Nat) : List α × List α :=
  ((arr.drop index).take 1, arr.take index ++ arr.drop (index + 1))

/-! ## kanban.js -/

/-- A toast shown by `showToast(message, type)`. -/
structure Toast where
  message : String
  type : String
  deriving DecidableEq, Repr

/-- The API requests the kanban code issues through `apiRequest`. -/
inductive Request where
  | getTasks
  | reorder (taskId : Nat) (status : Status) (position : Nat)
  | deleteTask (taskId : Nat)
  | updateTask (taskId : Nat)
  | createTask
  deriving DecidableEq, Repr

/-- Client state of the kanban view together with its observable trace. -/
structure Kanban where
  tasks : Board
  toasts : List Toast
  requests : List Request
  deriving DecidableEq, Repr

/-- The function `showToast` as far as the trace is concerned. -/
def Kanban.showToast (st : Kanban) (message type : String) : Kanban :=
  { st with toasts := st.toasts ++ [⟨message, type⟩] }

/-- The continuation of `loadTasks` after `await apiRequest('/api/tasks')`. -/
def loadTasksResume (st : Kanban) (resp : Except String Board) : Kanban :=
  match resp with
  | .ok data => { st with tasks := data }
  | .error _ => st.showToast "Failed to load tasks" "error"

/-- The function `loadTasks`: issue the request, then resume with its outcome. -/
def loadTasks (st : Kanban) (resp : Except String Board) : Kanban :=
  loadTasksResume { st with requests := st.requests ++ [.getTasks] } resp

/-- The block under `// Optimistic update` in `handleDrop`. -/
def optimisticUpdate (tasks : Board) (taskId : Nat) (oldStatus newStatus : Status) : Board :=
  match findIndex (fun t => t.id == taskId) (tasks.get oldStatus) with
  | some taskIndex =>
    let (removed, rest) := splice1 (tasks.get oldStatus) taskIndex
    match removed with
    | task :: _ =>
      let tasks1 := tasks.set oldStatus rest
      tasks1.set newStatus (tasks1.get newStatus ++ [{ task with status := newStatus }])
    | [] => tasks
  | none => tasks

/-- The dragged card: `draggedTask.dataset.id` and `draggedTask.dataset.status`. -/
structure DraggedTask where
  id : Nat
  status : Status
  deriving DecidableEq, Repr

/-- The handler `handleDrop`, run until the reload it may start has settled.
`reorderResp` is the outcome of the reorder request, `reloadResp` the outcome of
the `/api/tasks` request of the `loadTasks()` call in the `catch` block. That
call is not awaited: its request is issued, the toast of `handleDrop` is shown,
and the reload resumes afterwards. -/
def handleDrop (st : Kanban) (draggedTask : Option DraggedTask) (newStatus : Status)
    (reorderResp : Except String Unit) (reloadResp : Except String Board) : Kanban :=
  match draggedTask with
  | none => st
  | some dragged =>
    let taskId := dragged.id
    let oldStatus := dragged.status
    if oldStatus = newStatus then st
    else
      let tasks1 := optimisticUpdate st.tasks taskId oldStatus newStatus
      let st1 : Kanban :=
        { st with
          tasks := tasks1
          requests := st.requests ++ [.reorder taskId newStatus (tasks1.get newStatus).length] }
      match reorderResp with
      | .ok _ => st1.showToast "Task moved successfully" "success"
      | .error _ =>
        let st2 : Kanban := { st1 with requests := st1.requests ++ [.getTasks] }
        let st3 := st2.showToast "Failed to move task" "error"
        loadTasksResume st3 reloadResp

/-! ## JavaScript strings, number formatting and `toISOString` -/

/-- The decimal digit character of `n % 10`. -/
def digitChar (n : Nat) : Char :=
  match n % 10 with
  | 0 => '0'
  | 1 => '1'
  | 2 => '2'
  | 3 => '3'
  | 4 => '4'
  | 5 => '5'
  | 6 => '6'
  | 7 => '7'
  | 8 => '8'
  | _ => '9'

/-- Decimal printing with an explicit recursion bound. -/
def decimalAux : Nat → Nat → List Char
  | 0, _ => []
  | fuel + 1, n =>
    if n < 10 then [digitChar n] else decimalAux fuel (n / 10) ++ [digitChar n]

/-- `String(n)` for a natural number `n`, as a sequence of characters. -/
def decimal (n : Nat) : List Char := decimalAux (n + 1) n

/-- `s.padStart(targetLength, padChar)`. -/
def padStart (targetLength : Nat) (padChar : Char) (s : List Char) : List Char :=
  List.replicate (targetLength - s.length) padChar ++ s

/-- `s.split(sep)[0]`: the part of `s` before the first occurrence of `sep`. -/
def splitHead (sep : Char) (s : List Char) : List Char :=
  s.takeWhile (fun c => c != sep)

/-- JavaScript `a < b` on strings: lexicographic comparison of code units (a
character of the basic plane is one code unit). -/
def strLt : List Char → List Char → Bool
  | _, [] => false
  | [], _ :: _ => true
  | a :: as, b :: bs =>
    if a.toNat < b.toNat then true
    else if b.toNat < a.toNat then false
    else strLt as bs

/-- JavaScript `a <= b` on strings, which is evaluated as `!(b < a)`. -/
def strLe (a b : List Char) : Bool := !strLt b a

/-- JavaScript `a >= b` on strings, which is evaluated as `!(a < b)`. -/
def strGe (a b : List Char) : Bool := !strLt a b

/-- The year field of `toISOString`: four digits for the years 0 to 9999,
otherwise a sign and six digits. -/
def isoYear (year : Nat) : List Char :=
  if year ≤ 9999 then padStart 4 '0' (decimal year)
  else '+' :: padStart 6 '0' (decimal year)

/-- `Date.prototype.toISOString`: `YYYY-MM-DDTHH:mm:ss.sssZ`. -/
def toISOString (t : Timestamp) : List Char :=
  isoYear t.year ++ '-' :: padStart 2 '0' (decimal t.month) ++ '-' ::
    padStart 2 '0' (decimal t.day) ++ 'T' :: padStart 2 '0' (decimal t.hour) ++ ':' ::
    padStart 2 '0' (decimal t.minute) ++ ':' :: padStart 2 '0' (decimal t.second) ++ '.' ::
    padStart 3 '0' (decimal t.ms) ++ ['Z']

/-- The expression `new Date(x).toISOString().split('T')[0]`. -/
def isoDate (t : Timestamp) : List Char := splitHead 'T' (toISOString t)

/-- JavaScript `x || fallback` for a nullable string: `null` and `''` are falsy. -/
def orDefault (x : Option String) (fallback : String) : String :=
  match x with
  | some s => if s = "" then fallback else s
  | none => fallback

/-! ## calendar.js -/

/-- A row of the `calendar_events` table as the client receives it. -/
structure CalendarEvent where
  id : Nat
  title : String
  description : Option String
  start_time : Timestamp
  end_time : Timestamp
  color : Option String
  all_day : Bool
  deriving DecidableEq, Repr

/-- A row of the `notes` table. -/
structure Note where
  id : Nat
  user_id : Nat
  title : String
  content : String
  color : String
  is_pinned : Bool
  created_at : Timestamp
  updated_at : Timestamp
  deriving DecidableEq, Repr

/-- The `type` tag of a day view item. -/
inductive ItemType where
  | event
  | task
  | note
  deriving DecidableEq, Repr

/-- An entry of the day view built by `getItemsForDate`. -/
structure Item where
  type : ItemType
  id : Nat
  title : String
  color : String
  icon : String
  onClick : String
  deriving DecidableEq, Repr

/-- The object literal `priorityColors` (own properties only). -/
def priorityColors : String → Option String
  | "low" => some "#22c55e"
  | "medium" => some "#eab308"
  | "high" => some "#ef4444"
  | _ => none

/-- The object literal `noteColors` (own properties only). -/
def noteColors : String → Option String
  | "yellow" => some "#fbbf24"
  | "green" => some "#22c55e"
  | "blue" => some "#3b82f6"
  | "pink" => some "#ec4899"
  | "purple" => some "#8b5cf6"
  | "default" => some "#6b7280"
  | _ => none

/-- The value of `currentDate` and of `new Date()` as far as the calendar reads
it: local year, zero-based month and day of the month. -/
structure LocalDate where
  year : Nat
  month : Nat
  date : Nat
  deriving DecidableEq, Repr

/-- Module state of `calendar.js` together with the toasts it has shown. -/
structure Calendar where
  events : List CalendarEvent
  calendarTasks : List Task
  calendarNotes : List Note
  currentDate : LocalDate
  toasts : List Toast
  deriving DecidableEq, Repr

/-- The item pushed for an event. -/
def eventItem (event : CalendarEvent) : Item :=
  { type := .event
    id := event.id
    title := event.title
    color := orDefault event.color "#4285f4"
    icon := "📅"
    onClick := "editEvent(" ++ toString event.id ++ ")" }

/-- The item pushed for a task. -/
def taskItem (task : Task) : Item :=
  { type := .task
    id := task.id
    title := task.title
    color := orDefault (priorityColors task.priority) "#eab308"
    icon := if task.status = .done then "✅" else "📌"
    onClick := "viewTaskFromCalendar(" ++ toString task.id ++ ")" }

/-- The item pushed for a note. -/
def noteItem (note : Note) : Item :=
  { type := .note
    id := note.id
    title := note.title
    color := orDefault (noteColors note.color) "#6b7280"
    icon := "📝"
    onClick := "viewNoteFromCalendar(" ++ toString note.id ++ ")" }

/-- Body of `events.forEach(event => ..)` in `getItemsForDate`. -/
def pushEvent (dateStr : List Char) (items : List Item) (event : CalendarEvent) : List Item :=
  let startDate := isoDate event.start_time
  let endDate := isoDate event.end_time
  if strGe dateStr startDate && strLe dateStr endDate then items ++ [eventItem event]
  else items

/-- Body of `calendarTasks.forEach(task => ..)` in `getItemsForDate`. -/
def pushTask (dateStr : List Char) (items : List Item) (task : Task) : List Item :=
  match task.due_date with
  | some due_date =>
    let taskDate := isoDate due_date
    if taskDate = dateStr then items ++ [taskItem task] else items
  | none => items

/-- Body of `calendarNotes.forEach(note => ..)` in `getItemsForDate`. -/
def pushNote (dateStr : List Char) (items : List Item) (note : Note) : List Item :=
  let noteDate := isoDate note.created_at
  if noteDate = dateStr then items ++ [noteItem note] else items

/-- The function `getItemsForDate`: three `forEach` loops pushing onto `items`. -/
def getItemsForDate (st : Calendar) (dateStr : List Char) : List Item :=
  let items : List Item := []
  let items := st.events.foldl (pushEvent dateStr) items
  let items := st.calendarTasks.foldl (pushTask dateStr) items
  let items := st.calendarNotes.foldl (pushNote dateStr) items
  items

/-- The continuation of `loadCalendarData` after `await Promise.all([..])`, which
rejects as soon as one of the three requests is rejected. -/
def loadCalendarData (st : Calendar) (eventsResp : Except String (List CalendarEvent))
    (tasksResp : Except String Board) (notesResp : Except String (List Note)) : Calendar :=
  match eventsResp, tasksResp, notesResp with
  | .ok eventsData, .ok tasksData, .ok notesData =>
    { st with
      events := eventsData
      calendarTasks := tasksData.todo ++ tasksData.in_progress ++ tasksData.done
      calendarNotes := notesData }
  | _, _, _ => { st with toasts := st.toasts ++ [⟨"Failed to load calendar data", "error"⟩] }

/-- A rendered `calendar-event` element of a day cell. -/
structure Entry where
  background : String
  onclick : String
  title : String
  text : String
  deriving DecidableEq, Repr

/-- A rendered day cell of the viewed month. The field `more` is the number `N`
of the `+N more` element, `none` when that element is not rendered. -/
structure DayCell where
  dateStr : List Char
  day : Nat
  isToday : Bool
  entries : List Entry
  more : Option Nat
  deriving DecidableEq, Repr

/-- The elements `renderCalendar` writes into the grid. -/
inductive Cell where
  | header (name : String)
  | otherMonth (day : Int)
  | currentMonth (cell : DayCell)
  deriving DecidableEq, Repr

/-- The template mapped over `dayItems.slice(0, 4)`; HTML escaping of the title
is left out. -/
def renderItem (item : Item) : Entry :=
  { background := orDefault (some item.color) "#4285f4"
    onclick := "event.stopPropagation(); " ++ item.onClick
    title := item.title
    text := item.icon ++ " " ++ item.title }

/-- The date key built in the day loop of `renderCalendar`; `month` is zero-based. -/
def dateStrOf (year month day : Nat) : List Char :=
  decimal year ++ '-' :: padStart 2 '0' (decimal (month + 1)) ++ '-' ::
    padStart 2 '0' (decimal day)

/-- Body of the loop over the days of the viewed month in `renderCalendar`. -/
def renderDay (st : Calendar) (today : LocalDate) (day : Nat) : DayCell :=
  let year := st.currentDate.year
  let month := st.currentDate.month
  let isCurrentMonth := today.month == month && today.year == year
  let isToday := isCurrentMonth && today.date == day
  let dateStr := dateStrOf year month day
  let dayItems := getItemsForDate st dateStr
  { dateStr := dateStr
    day := day
    isToday := isToday
    entries := (dayItems.take 4).map renderItem
    more := if dayItems.length > 4 then some (dayItems.length - 4) else none }

/-- The function `renderCalendar`. The values the `Date` object computes for the
viewed month are arguments: `startDay` is the weekday of its first day,
`daysInMonth` its number of days and `prevMonthLastDay` the number of days of
the month before. -/
def renderCalendar (st : Calendar) (today : LocalDate)
    (startDay daysInMonth prevMonthLastDay : Nat) : List Cell :=
  let dayNames := ["Sun", "Mon", "Tue", "Wed", "Thu", "Fri", "Sat"]
  let headers := dayNames.map Cell.header
  let prevCells := (List.range startDay).reverse.map
    (fun (i : Nat) => Cell.otherMonth ((prevMonthLastDay : Int) - (i : Int)))
  let dayCells := (List.range daysInMonth).map
    (fun k => Cell.currentMonth (renderDay st today (k + 1)))
  let totalCells := (startDay + daysInMonth + 6) / 7 * 7
  let remainingCells := totalCells - (startDay + daysInMonth)
  let nextCells := (List.range remainingCells).map
    (fun (k : Nat) => Cell.otherMonth ((k : Int) + 1))
  headers ++ prevCells ++ dayCells ++ nextCells

/-! ## notes.js and `GET /api/notes` -/

/-- `Array.prototype.sort(cmp)`, a stable sort: insertion of `a` in front of the
first element that does not have to precede it. -/
def insertSorted {α : Type} (cmp : α → α → Int) (a : α) : List α → List α
  | [] => [a]
  | b :: l => if cmp a b ≤ 0 then a :: b :: l else b :: insertSorted cmp a l

/-- `Array.prototype.sort(cmp)`, a stable sort. -/
def sort {α : Type} (cmp : α → α → Int) : List α → List α
  | [] => []
  | a :: l => insertSorted cmp a (sort cmp l)

/-- The comparator of `togglePin`:
`(a, b) => (b.is_pinned ? 1 : 0) - (a.is_pinned ? 1 : 0)`. -/
def pinCompare (a b : Note) : Int :=
  (if b.is_pinned then 1 else 0) - (if a.is_pinned then 1 else 0)

/-- Chronological rank of a timestamp whose fields are in their calendar ranges. -/
def Timestamp.rank (t : Timestamp) : Nat :=
  ((((((t.year * 13 + t.month) * 32 + t.day) * 24 + t.hour) * 60 + t.minute) * 60
    + t.second) * 1000) + t.ms

/-- The ordering `ORDER BY is_pinned DESC, updated_at DESC` as a comparator. -/
def notesOrder (a b : Note) : Int :=
  if a.is_pinned != b.is_pinned then (if a.is_pinned then -1 else 1)
  else (b.updated_at.rank : Int) - (a.updated_at.rank : Int)

/-- The route `GET /api/notes` on the rows of the `notes` table:
`SELECT * FROM notes WHERE user_id = ? ORDER BY is_pinned DESC, updated_at DESC`.
Rows with equal keys keep the order of the table. -/
def getNotes (rows : List Note) (userId : Nat) : List Note :=
  sort notesOrder (rows.filter (fun n => n.user_id == userId))

/-- Module state of `notes.js` together with the toasts it has shown. -/
structure Notes where
  notes : List Note
  toasts : List Toast
  deriving DecidableEq, Repr

/-- The function `showToast` as far as the trace is concerned. -/
def Notes.showToast (st : Notes) (message type : String) : Notes :=
  { st with toasts := st.toasts ++ [⟨message, type⟩] }

/-- The function `loadNotes`. -/
def loadNotes (st : Notes) (resp : Except String (List Note)) : Notes :=
  match resp with
  | .ok data => { st with notes := data }
  | .error _ => st.showToast "Failed to load notes" "error"

/-- The function `deleteNote`; `confirmed` is the answer to the `confirm` dialog. -/
def deleteNote (st : Notes) (id : Nat) (confirmed : Bool) (resp : Except String Unit) : Notes :=
  if !confirmed then st
  else
    match resp with
    | .ok _ =>
      let notes :=
        match findIndex (fun n => n.id == id) st.notes with
        | some index => (splice1 st.notes index).2
        | none => st.notes
      ({ st with notes := notes } : Notes).showToast "Note deleted" "success"
    | .error _ => st.showToast "Failed to delete note" "error"

/-- The function `togglePin`; `resp` carries `result.isPinned`. The note that
`notes.find` returns, the first with the given id, is updated in place and the
array is sorted again. -/
def togglePin (st : Notes) (id : Nat) (resp : Except String Bool) : Notes :=
  match resp with
  | .ok isPinned =>
    let notes :=
      match findIndex (fun n => n.id == id) st.notes with
      | some index =>
        sort pinCompare
          (st.notes.modify (fun note => { note with is_pinned := isPinned }) index)
      | none => st.notes
    ({ st with notes := notes } : Notes).showToast
      (if isPinned then "Note pinned" else "Note unpinned") "success"
  | .error _ => st.showToast "Failed to toggle pin" "error"

/-- The submit handler of `noteForm`. `id` is the value of the hidden `noteId`
field (`none` when it is empty); `resp` is the note the server returns. -/
def submitNoteForm (st : Notes) (id : Option Nat) (resp : Except String Note) : Notes :=
  match resp with
  | .ok note =>
    match id with
    | some id =>
      let notes :=
        match findIndex (fun n => n.id == id) st.notes with
        | some index => st.notes.set index note
        | none => st.notes
      ({ st with notes := notes } : Notes).showToast "Note updated" "success"
    | none => ({ st with notes := note :: st.notes } : Notes).showToast "Note created" "success"
  | .error message =>
    st.showToast (if message = "" then "Failed to save note" else message) "error"

/-! ## kanban.js: rendering of a column -/

/-- `arr.map((x, index) => f(x, index))`, the indices starting at `start`. -/
def mapIndexed {α β : Type} (f : α → Nat → β) : Nat → List α → List β
  | _, [] => []
  | start, x :: xs => f x start :: mapIndexed f (start + 1) xs

/-- The card `createTaskCard(task, index)` writes; the formatted due date and
HTML escaping are left out. -/
structure TaskCard where
  stagger : Nat
  id : Nat
  status : Status
  title : String
  description : Option String
  priorityClass : String
  due_date : Option Timestamp
  deriving DecidableEq, Repr

/-- The function `createTaskCard`. -/
def createTaskCard (task : Task) (index : Nat) : TaskCard :=
  { stagger := index + 1
    id := task.id
    status := task.status
    title := task.title
    description :=
      match task.description with
      | some d => if d = "" then none else some d
      | none => none
    priorityClass := orDefault (some task.priority) "medium"
    due_date := task.due_date }

/-- What `renderColumn` writes: the count element and the cards of the container
(no cards stands for the empty state). -/
structure ColumnView where
  count : Nat
  cards : List TaskCard
  deriving DecidableEq, Repr

/-- The function `renderColumn` for the column `status`. -/
def renderColumn (tasks : Board) (status : Status) : ColumnView :=
  let taskList := tasks.get status
  { count := taskList.length
    cards := mapIndexed createTaskCard 0 taskList }

/-! ## calendar.js: month navigation -/

/-- Leap years of the Gregorian calendar. -/
def isLeapYear (year : Nat) : Bool :=
  (year % 4 == 0 && year % 100 != 0) || year % 400 == 0

/-- Number of days of a month; `month` is zero-based. -/
def daysInMonth (year month : Nat) : Nat :=
  match month with
  | 1 => if isLeapYear year then 29 else 28
  | 3 => 30
  | 5 => 30
  | 8 => 30
  | 10 => 30
  | _ => 31

/-- `currentDate.setMonth(month)` on the local fields, for a day of the month of
at most 31: the year and month are normalised, the day of the month is kept, and
days beyond the end of the month run into the following month. Years before the
common era are not represented. -/
def LocalDate.setMonth (d : LocalDate) (month : Int) : LocalDate :=
  let total : Int := (d.year : Int) * 12 + month
  let year := (total / 12).toNat
  let mn := (total % 12).toNat
  if d.date ≤ daysInMonth year mn then ⟨year, mn, d.date⟩
  else if mn = 11 then ⟨year + 1, 0, d.date - daysInMonth year mn⟩
  else ⟨year, mn + 1, d.date - daysInMonth year mn⟩

/-- The function `prevMonth`: move the cursor, then `loadEvents()`. -/
def prevMonth (st : Calendar) (eventsResp : Except String (List CalendarEvent))
    (tasksResp : Except String Board) (notesResp : Except String (List Note)) : Calendar :=
  loadCalendarData
    { st with currentDate := st.currentDate.setMonth ((st.currentDate.month : Int) - 1) }
    eventsResp tasksResp notesResp

/-- The function `nextMonth`: move the cursor, then `loadEvents()`. -/
def nextMonth (st : Calendar) (eventsResp : Except String (List CalendarEvent))
    (tasksResp : Except String Board) (notesResp : Except String (List Note)) : Calendar :=
  loadCalendarData
    { st with currentDate := st.currentDate.setMonth ((st.currentDate.month : Int) + 1) }
    eventsResp tasksResp notesResp

/-- The function `goToToday`; `today` is the value of `new Date()`. -/
def goToToday (st : Calendar) (today : LocalDate)
    (eventsResp : Except String (List CalendarEvent))
    (tasksResp : Except String Board) (notesResp : Except String (List Note)) : Calendar :=
  loadCalendarData { st with currentDate := today } eventsResp tasksResp notesResp

/-! ## app.js: `apiRequest` -/

/-- A number of a JSON text as far as the code reads it: whether it is zero, the
one number of a JSON text that is falsy, and the text `String(n)` gives for it. -/
structure JsonNumber where
  isZero : Bool
  text : String
  deriving DecidableEq, Repr

/-- A value that `response.json()` resolves to. The members of an object are in
the order of the text. -/
inductive Json where
  | null
  | bool (b : Bool)
  | number (n : JsonNumber)
  | string (s : String)
  | array (items : List Json)
  | object (members : List (String × Json))

/-- What a call of `apiRequest` throws. -/
inductive Thrown where
  /-- The object `new Error(message)`. -/
  | error (message : String)
  /-- The `TypeError` of reading a property of `null`. -/
  | typeError
  /-- What `fetch` or `response.json()` rejected with. -/
  | rejection (reason : String)
  deriving DecidableEq, Repr

/-- The property read `data.error`. It throws a `TypeError` for `null`. A parsed
object has the members of the text as own properties, the last one of those with
the same key; every other value answers `undefined`, here `none`. -/
def Json.error : Json → Except Thrown (Option Json)
  | .null => .error .typeError
  | .object members => .ok ((members.reverse.find? (fun m => m.1 == "error")).map Prod.snd)
  | _ => .ok none

/-- The conversion to a boolean that `||` applies: `null`, `false`, zero and the
empty string are falsy. -/
def Json.truthy : Json → Bool
  | .null => false
  | .bool b => b
  | .number n => !n.isZero
  | .string s => s != ""
  | .array _ => true
  | .object _ => true

mutual
/-- The conversion to a string that `new Error(message)` applies to its argument. -/
def Json.toJsString : Json → String
  | .null => "null"
  | .bool b => if b then "true" else "false"
  | .number n => n.text
  | .string s => s
  | .array items => Json.join items
  | .object _ => "[object Object]"
/-- The method `join` with the separator `,`, which is what the conversion of an
array to a string calls: `null` elements give the empty string. -/
def Json.join : List Json → String
  | [] => ""
  | [x] =>
    (match x with
    | .null => ""
    | v => Json.toJsString v)
  | x :: y :: rest =>
    (match x with
    | .null => ""
    | v => Json.toJsString v) ++ "," ++ Json.join (y :: rest)
end

/-- What `fetch` resolves to: the status code and the outcome of
`response.json()`, which rejects on a body that is not JSON. -/
structure FetchResponse where
  status : Nat
  json : Except String Json

/-- The property `response.ok`: the status is in the range 200 to 299. -/
def FetchResponse.ok (response : FetchResponse) : Bool :=
  decide (200 ≤ response.status) && decide (response.status ≤ 299)

/-- Outcome of a call of `apiRequest`: what it returns or throws, the URLs it has
passed to `fetch`, and what it has written with `console.error`. -/
structure ApiOutcome where
  result : Except Thrown Json
  fetched : List String
  logged : List Thrown

/-- The expression `data.error || 'Request failed'` converted to the message of
`new Error(..)`, for the value `error` of `data.error`. -/
def errorMessage (error : Option Json) : String :=
  match error with
  | some v => if v.truthy then v.toJsString else "Request failed"
  | none => "Request failed"

/-- The function `apiRequest`; `fetchResult` is the outcome of `await fetch(url, ..)`,
an error when the request itself fails. Whatever is thrown inside the `try` block
is logged and thrown again by the `catch` block. -/
def apiRequest (url : String) (fetchResult : Except String FetchResponse) : ApiOutcome :=
  match fetchResult with
  | .error e => { result := .error (.rejection e), fetched := [url], logged := [.rejection e] }
  | .ok response =>
    match response.json with
    | .error e => { result := .error (.rejection e), fetched := [url], logged := [.rejection e] }
    | .ok data =>
      if !response.ok then
        match data.error with
        | .error thrown => { result := .error thrown, fetched := [url], logged := [thrown] }
        | .ok error =>
          { result := .error (.error (errorMessage error))
            fetched := [url]
            logged := [.error (errorMessage error)] }
      else { result := .ok data, fetched := [url], logged := [] }

/-! ## Server: tables, request bodies and responses

The route handlers of `routes/tasks.js`, `routes/notes.js` and `routes/calendar.js`
run behind `requireAuth`; `userId` is `req.session.userId`. The tables are lists
of rows, and a handler returns its response together with the store afterwards.
A body field is `none` when the property is `undefined`. Statements are executed
as written; the one failure that is modelled is the driver's rejection of an
`undefined` bind parameter, which the handler reports as status 500. The time the
database assigns to `created_at` and `updated_at` is the argument `now`. -/

/-- A row of the `tasks` table; `status` is whatever string the column holds. -/
structure TaskRow where
  id : Nat
  user_id : Nat
  title : String
  description : Option String
  status : String
  priority : String
  due_date : Option Timestamp
  position : Int
  created_at : Timestamp
  deriving DecidableEq, Repr

/-- A row of the `calendar_events` table. -/
structure EventRow extends CalendarEvent where
  user_id : Nat
  deriving DecidableEq, Repr

/-- The three tables with their `AUTO_INCREMENT` counters. -/
structure Store where
  tasks : List TaskRow
  notes : List Note
  calendar_events : List EventRow
  nextTaskId : Nat
  nextNoteId : Nat
  nextEventId : Nat
  deriving DecidableEq, Repr

/-- The status string of a kanban column. -/
def Status.key : Status → String
  | .todo => "todo"
  | .in_progress => "in_progress"
  | .done => "done"

/-- A row as the client holds it in the column `status` of its board. -/
def TaskRow.toTask (status : Status) (row : TaskRow) : Task :=
  { id := row.id
    title := row.title
    description := row.description
    status := status
    priority := row.priority
    due_date := row.due_date
    position := row.position
    created_at := row.created_at }

/-- JSON bodies of the responses. -/
inductive Body where
  | error (error : String)
  | message (message : String)
  | groupedTasks (tasks : Board)
  | task (row : Option TaskRow)
  | notes (rows : List Note)
  | note (row : Option Note)
  | isPinned (isPinned : Bool)
  | events (rows : List EventRow)
  | event (row : Option EventRow)
  deriving DecidableEq, Repr

/-- A response: `res.status(status).json(body)`. -/
structure Response where
  status : Nat
  body : Body
  deriving DecidableEq, Repr

/-- JavaScript `x || null` for a string property: `undefined` and `''` are falsy. -/
def truthy (x : Option String) : Option String :=
  match x with
  | some s => if s = "" then none else some s
  | none => none

/-- `SELECT COALESCE(MAX(position), 0)` over the selected positions. -/
def maxPosition : List Int → Int
  | [] => 0
  | p :: ps => ps.foldl max p

/-! ## routes/tasks.js -/

/-- The ordering `ORDER BY status, position, created_at DESC` as a comparator. The
declaration of the `status` column is not part of the sources; the order of its
values is the argument `statusKey`, a key into a linear order. -/
def tasksOrder {κ : Type} [LinearOrder κ] (statusKey : String → κ) (a b : TaskRow) : Int :=
  if statusKey a.status < statusKey b.status then -1
  else if statusKey b.status < statusKey a.status then 1
  else if a.position < b.position then -1
  else if b.position < a.position then 1
  else (b.created_at.rank : Int) - (a.created_at.rank : Int)

/-- The route `GET /api/tasks`: the rows of the user in the order of the query,
grouped by `tasks.filter(t => t.status === ..)`. -/
def getTasks {κ : Type} [LinearOrder κ] (statusKey : String → κ) (rows : List TaskRow)
    (userId : Nat) : Board :=
  let tasks := sort (tasksOrder statusKey) (rows.filter (fun t => t.user_id == userId))
  { todo := (tasks.filter (fun t => t.status == "todo")).map (TaskRow.toTask .todo)
    in_progress :=
      (tasks.filter (fun t => t.status == "in_progress")).map (TaskRow.toTask .in_progress)
    done := (tasks.filter (fun t => t.status == "done")).map (TaskRow.toTask .done) }

/-- Body of `POST /api/tasks` and `PUT /api/tasks/:id`. The client sends `dueDate`
as `null` when the field is empty: `some none`. -/
structure TaskBody where
  title : Option String
  description : Option String
  status : Option String
  priority : Option String
  dueDate : Option (Option Timestamp)
  position : Option Int
  deriving DecidableEq, Repr

/-- The route `POST /api/tasks`. -/
def postTasks (db : Store) (now : Timestamp) (userId : Nat) (body : TaskBody) :
    Response × Store :=
  match truthy body.title with
  | none => (⟨400, .error "Title is required"⟩, db)
  | some title =>
    let status := orDefault body.status "todo"
    let maxPos := maxPosition
      ((db.tasks.filter (fun t => t.user_id == userId && t.status == status)).map
        TaskRow.position)
    let position := maxPos + 1
    let insertId := db.nextTaskId
    let row : TaskRow :=
      { id := insertId
        user_id := userId
        title := title
        description := truthy body.description
        status := status
        priority := orDefault body.priority "medium"
        due_date := body.dueDate.join
        position := position
        created_at := now }
    let tasks := db.tasks ++ [row]
    (⟨201, .task (tasks.find? (fun t => t.id == insertId))⟩,
      { db with tasks := tasks, nextTaskId := insertId + 1 })

/-- The assignments `PUT /api/tasks/:id` collects for the fields that are not
`undefined`, applied to a row. -/
def TaskBody.apply (body : TaskBody) (row : TaskRow) : TaskRow :=
  { row with
    title := body.title.getD row.title
    description := match body.description with
      | some d => some d
      | none => row.description
    status := body.status.getD row.status
    priority := body.priority.getD row.priority
    due_date := body.dueDate.getD row.due_date
    position := body.position.getD row.position }

/-- The condition `updates.length === 0` of `PUT /api/tasks/:id`. -/
def TaskBody.isEmpty (body : TaskBody) : Bool :=
  body.title.isNone && body.description.isNone && body.status.isNone &&
    body.priority.isNone && body.dueDate.isNone && body.position.isNone

/-- The route `PUT /api/tasks/:id`. -/
def putTasksId (db : Store) (userId id : Nat) (body : TaskBody) : Response × Store :=
  let existing := db.tasks.filter (fun t => t.id == id && t.user_id == userId)
  if existing.length = 0 then (⟨404, .error "Task not found"⟩, db)
  else if body.isEmpty then (⟨400, .error "No fields to update"⟩, db)
  else
    let tasks := db.tasks.map (fun t => if t.id == id then body.apply t else t)
    (⟨200, .task (tasks.find? (fun t => t.id == id))⟩, { db with tasks := tasks })

/-- The route `PUT /api/tasks/reorder/:id`. There is no check of the body: with
`status` or `position` undefined the `UPDATE` is rejected by the driver and the
`catch` block answers. -/
def putTasksReorderId (db : Store) (userId id : Nat) (status : Option String)
    (position : Option Int) : Response × Store :=
  let existing := db.tasks.filter (fun t => t.id == id && t.user_id == userId)
  if existing.length = 0 then (⟨404, .error "Task not found"⟩, db)
  else
    match status, position with
    | some status, some position =>
      let tasks := db.tasks.map
        (fun t => if t.id == id then { t with status := status, position := position } else t)
      (⟨200, .message "Task reordered successfully"⟩, { db with tasks := tasks })
    | _, _ => (⟨500, .error "Failed to reorder task"⟩, db)

/-- The route `DELETE /api/tasks/:id`. -/
def deleteTasksId (db : Store) (userId id : Nat) : Response × Store :=
  let existing := db.tasks.filter (fun t => t.id == id && t.user_id == userId)
  if existing.length = 0 then (⟨404, .error "Task not found"⟩, db)
  else
    (⟨200, .message "Task deleted successfully"⟩,
      { db with tasks := db.tasks.filter (fun t => !(t.id == id)) })

/-! ## routes/notes.js -/

/-- Modelled from the spec: the column default of `notes.is_pinned`, set in the
table declaration that is not part of the sources; the spec names the default
`is_pinned = false`. -/
def notesIsPinnedDefault : Bool := false

/-- Body of `POST /api/notes` and `PUT /api/notes/:id`. -/
structure NoteBody where
  title : Option String
  content : Option String
  color : Option String
  isPinned : Option Bool
  deriving DecidableEq, Repr

/-- The route `POST /api/notes`. -/
def postNotes (db : Store) (now : Timestamp) (userId : Nat) (body : NoteBody) :
    Response × Store :=
  match truthy body.title with
  | none => (⟨400, .error "Title is required"⟩, db)
  | some title =>
    let insertId := db.nextNoteId
    let row : Note :=
      { id := insertId
        user_id := userId
        title := title
        content := orDefault body.content ""
        color := orDefault body.color "#ffffff"
        is_pinned := notesIsPinnedDefault
        created_at := now
        updated_at := now }
    let notes := db.notes ++ [row]
    (⟨201, .note (notes.find? (fun n => n.id == insertId))⟩,
      { db with notes := notes, nextNoteId := insertId + 1 })

/-- The assignments `PUT /api/notes/:id` collects, applied to a row. -/
def NoteBody.apply (body : NoteBody) (now : Timestamp) (row : Note) : Note :=
  { row with
    title := body.title.getD row.title
    content := body.content.getD row.content
    color := body.color.getD row.color
    is_pinned := body.isPinned.getD row.is_pinned
    updated_at := now }

/-- The condition `updates.length === 0` of `PUT /api/notes/:id`. -/
def NoteBody.isEmpty (body : NoteBody) : Bool :=
  body.title.isNone && body.content.isNone && body.color.isNone && body.isPinned.isNone

/-- The route `PUT /api/notes/:id`. -/
def putNotesId (db : Store) (now : Timestamp) (userId id : Nat) (body : NoteBody) :
    Response × Store :=
  let existing := db.notes.filter (fun n => n.id == id && n.user_id == userId)
  if existing.length = 0 then (⟨404, .error "Note not found"⟩, db)
  else if body.isEmpty then (⟨400, .error "No fields to update"⟩, db)
  else
    let notes := db.notes.map (fun n => if n.id == id then body.apply now n else n)
    (⟨200, .note (notes.find? (fun n => n.id == id))⟩, { db with notes := notes })

/-- The route `PATCH /api/notes/:id/pin`. -/
def patchNotesIdPin (db : Store) (now : Timestamp) (userId id : Nat) : Response × Store :=
  let existing := db.notes.filter (fun n => n.id == id && n.user_id == userId)
  match existing with
  | [] => (⟨404, .error "Note not found"⟩, db)
  | first :: _ =>
    let newPinStatus := !first.is_pinned
    let notes := db.notes.map
      (fun n => if n.id == id then { n with is_pinned := newPinStatus, updated_at := now } else n)
    (⟨200, .isPinned newPinStatus⟩, { db with notes := notes })

/-- The route `DELETE /api/notes/:id`. -/
def deleteNotesId (db : Store) (userId id : Nat) : Response × Store :=
  let existing := db.notes.filter (fun n => n.id == id && n.user_id == userId)
  if existing.length = 0 then (⟨404, .error "Note not found"⟩, db)
  else
    (⟨200, .message "Note deleted successfully"⟩,
      { db with notes := db.notes.filter (fun n => !(n.id == id)) })

/-! ## routes/calendar.js -/

/-- Body of `POST /api/calendar` and `PUT /api/calendar/:id`; the time strings are
given by the instants they denote. -/
structure EventBody where
  title : Option String
  description : Option String
  startTime : Option Timestamp
  endTime : Option Timestamp
  color : Option String
  allDay : Option Bool
  deriving DecidableEq, Repr

/-- The route `POST /api/calendar`. -/
def postCalendar (db : Store) (userId : Nat) (body : EventBody) : Response × Store :=
  match truthy body.title, body.startTime, body.endTime with
  | some title, some startTime, some endTime =>
    if endTime.rank < startTime.rank then
      (⟨400, .error "End time must be after start time"⟩, db)
    else
      let insertId := db.nextEventId
      let row : EventRow :=
        { id := insertId
          user_id := userId
          title := title
          description := truthy body.description
          start_time := startTime
          end_time := endTime
          color := some (orDefault body.color "#4285f4")
          all_day := body.allDay.getD false }
      let events := db.calendar_events ++ [row]
      (⟨201, .event (events.find? (fun e => e.id == insertId))⟩,
        { db with calendar_events := events, nextEventId := insertId + 1 })
  | _, _, _ => (⟨400, .error "Title, start time, and end time are required"⟩, db)

/-- The assignments `PUT /api/calendar/:id` collects, applied to a row. -/
def EventBody.apply (body : EventBody) (row : EventRow) : EventRow :=
  { row with
    title := body.title.getD row.title
    description := match body.description with
      | some d => some d
      | none => row.description
    start_time := body.startTime.getD row.start_time
    end_time := body.endTime.getD row.end_time
    color := match body.color with
      | some c => some c
      | none => row.color
    all_day := body.allDay.getD row.all_day }

/-- The condition `updates.length === 0` of `PUT /api/calendar/:id`. -/
def EventBody.isEmpty (body : EventBody) : Bool :=
  body.title.isNone && body.description.isNone && body.startTime.isNone &&
    body.endTime.isNone && body.color.isNone && body.allDay.isNone

/-- The route `PUT /api/calendar/:id`. -/
def putCalendarId (db : Store) (userId id : Nat) (body : EventBody) : Response × Store :=
  let existing := db.calendar_events.filter (fun e => e.id == id && e.user_id == userId)
  if existing.length = 0 then (⟨404, .error "Event not found"⟩, db)
  else if body.isEmpty then (⟨400, .error "No fields to update"⟩, db)
  else
    let events := db.calendar_events.map (fun e => if e.id == id then body.apply e else e)
    (⟨200, .event (events.find? (fun e => e.id == id))⟩, { db with calendar_events := events })

/-- The route `DELETE /api/calendar/:id`. -/
def deleteCalendarId (db : Store) (userId id : Nat) : Response × Store :=
  let existing := db.calendar_events.filter (fun e => e.id == id && e.user_id == userId)
  if existing.length = 0 then (⟨404, .error "Event not found"⟩, db)
  else
    (⟨200, .message "Event deleted successfully"⟩,
      { db with calendar_events := db.calendar_events.filter (fun e => !(e.id == id)) })

/-! ## Requests that change the store -/

/-- The tables. -/
inductive Table where
  | tasks
  | notes
  | calendar_events
  deriving DecidableEq, Repr

/-- A request of an authenticated user to one of the routes that write. -/
inductive ApiCall where
  | postTasks (body : TaskBody)
  | putTasksId (id : Nat) (body : TaskBody)
  | putTasksReorderId (id : Nat) (status : Option String) (position : Option Int)
  | deleteTasksId (id : Nat)
  | postNotes (body : NoteBody)
  | putNotesId (id : Nat) (body : NoteBody)
  | patchNotesIdPin (id : Nat)
  | deleteNotesId (id : Nat)
  | postCalendar (body : EventBody)
  | putCalendarId (id : Nat) (body : EventBody)
  | deleteCalendarId (id : Nat)
  deriving DecidableEq, Repr

/-- The route a request is dispatched to. -/
def handle (db : Store) (now : Timestamp) (userId : Nat) : ApiCall → Response × Store
  | .postTasks body => postTasks db now userId body
  | .putTasksId id body => putTasksId db userId id body
  | .putTasksReorderId id status position => putTasksReorderId db userId id status position
  | .deleteTasksId id => deleteTasksId db userId id
  | .postNotes body => postNotes db now userId body
  | .putNotesId id body => putNotesId db now userId id body
  | .patchNotesIdPin id => patchNotesIdPin db now userId id
  | .deleteNotesId id => deleteNotesId db userId id
  | .postCalendar body => postCalendar db userId body
  | .putCalendarId id body => putCalendarId db userId id body
  | .deleteCalendarId id => deleteCalendarId db userId id

/-- The table and row id an update, reorder, pin or delete request names. -/
def ApiCall.target? : ApiCall → Option (Table × Nat)
  | .putTasksId id _ => some (.tasks, id)
  | .putTasksReorderId id _ _ => some (.tasks, id)
  | .deleteTasksId id => some (.tasks, id)
  | .putNotesId id _ => some (.notes, id)
  | .patchNotesIdPin id => some (.notes, id)
  | .deleteNotesId id => some (.notes, id)
  | .putCalendarId id _ => some (.calendar_events, id)
  | .deleteCalendarId id => some (.calendar_events, id)
  | _ => none

/-- The table holds a row with this id that belongs to the user. -/
def Store.owns (db : Store) (table : Table) (userId id : Nat) : Bool :=
  match table with
  | .tasks => db.tasks.any (fun t => t.id == id && t.user_id == userId)
  | .notes => db.notes.any (fun n => n.id == id && n.user_id == userId)
  | .calendar_events => db.calendar_events.any (fun e => e.id == id && e.user_id == userId)

/-- Row ids are unique within each table (they are primary keys). -/
def Store.UniqueIds (db : Store) : Prop :=
  (db.tasks.map TaskRow.id).Nodup ∧ (db.notes.map Note.id).Nodup ∧
    (db.calendar_events.map (fun e => e.id)).Nodup

/-- The rows of the three tables that belong to other users than `userId`. -/
def Store.rowsOfOthers (db : Store) (userId : Nat) :
    List TaskRow × List Note × List EventRow :=
  (db.tasks.filter (fun t => !(t.user_id == userId)),
    db.notes.filter (fun n => !(n.user_id == userId)),
    db.calendar_events.filter (fun e => !(e.user_id == userId)))

/-! ## kanban.js: deleting and saving a task -/

/-- The loop `for (const status of [..]) { .. splice(index, 1); break; }` of
`deleteTask`: the first task with the id is taken out of the first column that
has one. -/
def removeFromBoard (tasks : Board) (id : Nat) : List Status → Board
  | [] => tasks
  | status :: rest =>
    match findIndex (fun t => t.id == id) (tasks.get status) with
    | some index => tasks.set status (splice1 (tasks.get status) index).2
    | none => removeFromBoard tasks id rest

/-- The loop `for (const status of [..]) { .. tasks[status][index] = updatedTask;
break; }` of the submit handler of `taskForm`. -/
def replaceOnBoard (tasks : Board) (id : Nat) (updatedTask : Task) : List Status → Board
  | [] => tasks
  | status :: rest =>
    match findIndex (fun t => t.id == id) (tasks.get status) with
    | some index => tasks.set status ((tasks.get status).set index updatedTask)
    | none => replaceOnBoard tasks id updatedTask rest

/-- The function `deleteTask`; `confirmed` is the answer to the `confirm` dialog. -/
def deleteTask (st : Kanban) (id : Nat) (confirmed : Bool) (resp : Except String Unit) : Kanban :=
  if !confirmed then st
  else
    let st1 : Kanban := { st with requests := st.requests ++ [.deleteTask id] }
    match resp with
    | .ok _ =>
      ({ st1 with tasks := removeFromBoard st1.tasks id [.todo, .in_progress, .done] } :
        Kanban).showToast "Task deleted" "success"
    | .error _ => st1.showToast "Failed to delete task" "error"

/-- The submit handler of `taskForm`. `id` is the value of the hidden `taskId` field
(`none` when it is empty); `resp` is the task the server returns. -/
def submitTaskForm (st : Kanban) (id : Option Nat) (resp : Except String Task) : Kanban :=
  match id with
  | some id =>
    let st1 : Kanban := { st with requests := st.requests ++ [.updateTask id] }
    match resp with
    | .ok updatedTask =>
      ({ st1 with
          tasks := replaceOnBoard st1.tasks id updatedTask [.todo, .in_progress, .done] } :
        Kanban).showToast "Task updated" "success"
    | .error message =>
      st1.showToast (if message = "" then "Failed to save task" else message) "error"
  | none =>
    let st1 : Kanban := { st with requests := st.requests ++ [.createTask] }
    match resp with
    | .ok newTask =>
      ({ st1 with tasks := st1.tasks.set .todo (st1.tasks.todo ++ [newTask]) } :
        Kanban).showToast "Task created" "success"
    | .error message =>
      st1.showToast (if message = "" then "Failed to save task" else message) "error"

/-! ## calendar.js: the month requested by `loadCalendarData` -/

/-- The query `month=${month}&year=${year}` of the events request in
`loadCalendarData`: the month of the cursor, counted from 1, and its year. -/
def calendarRequest (currentDate : LocalDate) : Nat × Nat :=
  (currentDate.month + 1, currentDate.year)

/-! ## routes/calendar.js: `GET /api/calendar` -/

/-- The query parameters of `GET /api/calendar`; `end_` is the parameter `end`. -/
structure CalendarQuery where
  start : Option Timestamp
  end_ : Option Timestamp
  month : Option Nat
  year : Option Nat
  deriving DecidableEq, Repr

/-- `new Date(year, month - 1, 1)` for a month from 1 to 12. -/
def startOfMonth (year month : Nat) : Timestamp :=
  ⟨year, month, 1, 0, 0, 0, 0⟩

/-- `new Date(year, month, 0, 23, 59, 59)` for a month from 1 to 12: the last second
of the last day of the month. -/
def endOfMonth (year month : Nat) : Timestamp :=
  ⟨year, month, daysInMonth year (month - 1), 23, 59, 59, 0⟩

/-- The month condition of the query:
`(start_time >= ? AND start_time <= ?) OR (end_time >= ? AND end_time <= ?) OR
(start_time <= ? AND end_time >= ?)` with the bounds of the month. -/
def monthFilter (startOfMonth endOfMonth : Timestamp) (e : EventRow) : Bool :=
  (decide (startOfMonth.rank ≤ e.start_time.rank) &&
      decide (e.start_time.rank ≤ endOfMonth.rank)) ||
    (decide (startOfMonth.rank ≤ e.end_time.rank) &&
      decide (e.end_time.rank ≤ endOfMonth.rank)) ||
    (decide (e.start_time.rank ≤ startOfMonth.rank) &&
      decide (endOfMonth.rank ≤ e.end_time.rank))

/-- The ordering `ORDER BY start_time ASC` as a comparator. -/
def eventsOrder (a b : EventRow) : Int :=
  (a.start_time.rank : Int) - (b.start_time.rank : Int)

/-- The route `GET /api/calendar`. -/
def getCalendar (db : Store) (userId : Nat) (query : CalendarQuery) : List EventRow :=
  let own := db.calendar_events.filter (fun e => e.user_id == userId)
  let selected :=
    match query.start, query.end_ with
    | some start, some end_ =>
      own.filter (fun e => decide (start.rank ≤ e.start_time.rank) &&
        decide (e.end_time.rank ≤ end_.rank))
    | _, _ =>
      match query.month, query.year with
      | some month, some year =>
        own.filter (monthFilter (startOfMonth year month) (endOfMonth year month))
      | _, _ => own
  sort eventsOrder selected

/-! ## Sequences of requests -/

/-- A request as the server receives it: the time, the user of the session and
the call. -/
structure ServerRequest where
  now : Timestamp
  userId : Nat
  call : ApiCall
  deriving DecidableEq, Repr

/-- The store after a sequence of requests. -/
def runRequests (db : Store) : List ServerRequest → Store
  | [] => db
  | r :: rest => runRequests (handle db r.now r.userId r.call).2 rest

/-! ## Notions used in the statements -/

/-- A calendar date: year, month (1 to 12) and day of the month. -/
structure CalDate where
  year : Nat
  month : Nat
  day : Nat
  deriving DecidableEq, Repr

/-- The calendar date of an instant. -/
def Timestamp.date (t : Timestamp) : CalDate := ⟨t.year, t.month, t.day⟩

/-- An instant whose month and day of the month are in their calendar ranges. -/
def Timestamp.ValidDate (t : Timestamp) : Prop :=
  1 ≤ t.month ∧ t.month ≤ 12 ∧ 1 ≤ t.day ∧ t.day ≤ 31

/-- Chronological order of calendar dates. -/
def CalDate.le (a b : CalDate) : Prop :=
  a.year < b.year ∨ (a.year = b.year ∧ (a.month < b.month ∨ (a.month = b.month ∧ a.day ≤ b.day)))

/-- A calendar date whose key has the shape `YYYY-MM-DD`: a year of at most four
digits, month and day in their calendar ranges. -/
def CalDate.WF (a : CalDate) : Prop :=
  a.year ≤ 9999 ∧ 1 ≤ a.month ∧ a.month ≤ 12 ∧ 1 ≤ a.day ∧ a.day ≤ 31

/-- The date key `YYYY-MM-DD` of a calendar date. -/
def CalDate.key (a : CalDate) : List Char :=
  padStart 4 '0' (decimal a.year) ++ '-' :: padStart 2 '0' (decimal a.month) ++ '-' ::
    padStart 2 '0' (decimal a.day)

/-- The condition under which `getItemsForDate` pushes an event. -/
def eventOnDate (dateStr : List Char) (event : CalendarEvent) : Bool :=
  strGe dateStr (isoDate event.start_time) && strLe dateStr (isoDate event.end_time)

/-- The condition under which `getItemsForDate` pushes a task. -/
def taskOnDate (dateStr : List Char) (task : Task) : Bool :=
  match task.due_date with
  | some due_date => decide (isoDate due_date = dateStr)
  | none => false

/-- The condition under which `getItemsForDate` pushes a note. -/
def noteOnDate (dateStr : List Char) (note : Note) : Bool :=
  decide (isoDate note.created_at = dateStr)

/-- The place of an item type in the day view: events, then tasks, then notes. -/
def ItemType.rank : ItemType → Nat
  | .event => 0
  | .task => 1
  | .note => 2

/-- The day cell of a grid element of the viewed month. -/
def Cell.dayCell? : Cell → Option DayCell
  | .currentMonth cell => some cell
  | _ => none

/-- The `position` values along a column. -/
def positions (l : List Task) : List Int := l.map Task.position

/-- Every pinned note precedes every unpinned note. -/
def pinnedFirst (l : List Note) : Prop :=
  l.Pairwise (fun a b => ¬ (a.is_pinned = false ∧ b.is_pinned = true))

/-- Among notes of equal pin status no note precedes one with a later `updated_at`. -/
def recentFirst (l : List Note) : Prop :=
  l.Pairwise (fun a b => a.is_pinned = b.is_pinned → b.updated_at.rank ≤ a.updated_at.rank)

/-- Every stored event ends no earlier than it starts. -/
def Store.eventsOrdered (db : Store) : Prop :=
  ∀ e ∈ db.calendar_events, e.start_time.rank ≤ e.end_time.rank

/-- A status of the data model: `todo`, `in_progress` or `done`. -/
def validStatus (status : String) : Bool :=
  status == "todo" || status == "in_progress" || status == "done"

/-- A priority of the data model: `low`, `medium` or `high`. -/
def validPriority (priority : String) : Bool :=
  priority == "low" || priority == "medium" || priority == "high"

/-- Every stored task has a status and a priority of the data model. -/
def Store.tasksValid (db : Store) : Prop :=
  ∀ t ∈ db.tasks, validStatus t.status = true ∧ validPriority t.priority = true

/-- The condition on the body of a request under which the routes store only
status and priority values of the data model. On `POST /api/tasks` a supplied
status or priority that is not empty is a value of the data model; the route
replaces a missing or empty one by its default. On `PUT /api/tasks/:id` and
`PUT /api/tasks/reorder/:id` every supplied status or priority, the empty string
included, is a value of the data model; these routes store what is supplied. -/
def ApiCall.valuesValid : ApiCall → Bool
  | .postTasks body =>
    (truthy body.status).all validStatus && (truthy body.priority).all validPriority
  | .putTasksId _ body => body.status.all validStatus && body.priority.all validPriority
  | .putTasksReorderId _ status _ => status.all validStatus
  | _ => true

/-- The interval-overlap condition of an event with the span from `s` to `e`:
`start <= E and end >= S`. -/
def intervalOverlap (s e : Timestamp) (event : EventRow) : Prop :=
  event.start_time.rank ≤ e.rank ∧ s.rank ≤ event.end_time.rank

/-- All tasks of a board, column after column. -/
def Board.all (b : Board) : List Task := b.todo ++ b.in_progress ++ b.done

/-! ## Sample data -/

/-- A sample task with the given id, status and position. -/
def sampleTask (id : Nat) (status : Status) (position : Int) : Task :=
  { id := id
    title := "task"
    description := none
    status := status
    priority := "medium"
    due_date := none
    position := position
    created_at := ⟨2024, 3, 1, 0, 0, 0, 0⟩ }

/-- A sample event with the given id, start and end. -/
def sampleEvent (id : Nat) (start_time end_time : Timestamp) : CalendarEvent :=
  { id := id
    title := "event"
    description := none
    start_time := start_time
    end_time := end_time
    color := none
    all_day := false }

/-- A sample note of user 1 with the given id and pin status, created and last
updated on the given day of March 2024. -/
def sampleNote (id : Nat) (is_pinned : Bool) (day : Nat) : Note :=
  { id := id
    user_id := 1
    title := "note"
    content := ""
    color := "default"
    is_pinned := is_pinned
    created_at := ⟨2024, 3, day, 0, 0, 0, 0⟩
    updated_at := ⟨2024, 3, day, 0, 0, 0, 0⟩ }

/-- A calendar state that views March 2024 and holds the given collections. -/
def sampleCalendar (events : List CalendarEvent) (tasks : List Task) (notes : List Note) :
    Calendar :=
  { events := events
    calendarTasks := tasks
    calendarNotes := notes
    currentDate := ⟨2024, 2, 1⟩
    toasts := [] }

/-- A sample row of the `tasks` table. -/
def sampleTaskRow (id userId : Nat) (status : String) (position : Int) : TaskRow :=
  { id := id
    user_id := userId
    title := "task"
    description := none
    status := status
    priority := "medium"
    due_date := none
    position := position
    created_at := ⟨2024, 3, 1, 0, 0, 0, 0⟩ }

/-- A sample row of the `calendar_events` table. -/
def sampleEventRow (id userId : Nat) (start_time end_time : Timestamp) : EventRow :=
  { toCalendarEvent := sampleEvent id start_time end_time
    user_id := userId }

/-- A store holding the given rows; the next ids are 100. -/
def sampleStore (tasks : List TaskRow) (notes : List Note) (events : List EventRow) : Store :=
  { tasks := tasks
    notes := notes
    calendar_events := events
    nextTaskId := 100
    nextNoteId := 100
    nextEventId := 100 }

/-! # Theorems -/

/-! ## Array helpers -/

theorem findIndex_split {α : Type} (p : α → Bool) (l : List α) (h : ∃ x ∈ l, p x = true) :
    ∃ pre x post, l = pre ++ x :: post ∧ p x = true ∧ (∀ y ∈ pre, p y = false) ∧
      findIndex p l = some pre.length := by
  induction l with
  | nil => simp at h
  | cons a l ih =>
    by_cases ha : p a = true
    · exact ⟨[], a, l, by simp, ha, by simp, by simp [findIndex, ha]⟩
    · have h2 : ∃ x ∈ l, p x = true := by
        obtain ⟨x, hx, hpx⟩ := h
        rcases List.mem_cons.1 hx with rfl | hx
        · exact absurd hpx ha
        · exact ⟨x, hx, hpx⟩
      obtain ⟨pre, x, post, hl, hpx, hpre, hidx⟩ := ih h2
      refine ⟨a :: pre, x, post, by simp [hl], hpx, ?_, ?_⟩
      · intro y hy
        rcases List.mem_cons.1 hy with rfl | hy
        · simpa using ha
        · exact hpre y hy
      · simp [findIndex, ha, hidx]

theorem findIndex_eq_none {α : Type} (p : α → Bool) (l : List α) (h : ∀ x ∈ l, p x = false) :
    findIndex p l = none := by
  induction l with
  | nil => rfl
  | cons a l ih =>
    have ha : p a = false := h a (by simp)
    simp [findIndex, ha, ih (fun x hx => h x (by simp [hx]))]

theorem splice1_append {α : Type} (pre : List α) (x : α) (post : List α) :
    splice1 (pre ++ x :: post) pre.length = ([x], pre ++ post) := by
  simp [splice1]

/-! ## Board -/

theorem Board.get_set_same (b : Board) (s : Status) (l : List Task) :
    (b.set s l).get s = l := by
  cases s <;> rfl

theorem Board.get_set_other (b : Board) (s s2 : Status) (l : List Task) (h : s ≠ s2) :
    (b.set s l).get s2 = b.get s2 := by
  cases s <;> cases s2 <;> first | rfl | exact absurd rfl h

/-- The optimistic update takes the first task with the dragged id out of the
source column and appends it, with the new status, to the destination column. -/
theorem optimisticUpdate_found (tasks : Board) (taskId : Nat) (oldStatus newStatus : Status)
    (hne : oldStatus ≠ newStatus) (hmem : ∃ t ∈ tasks.get oldStatus, t.id = taskId) :
    ∃ pre task post, tasks.get oldStatus = pre ++ task :: post ∧ task.id = taskId ∧
      (∀ t ∈ pre, t.id ≠ taskId) ∧
      optimisticUpdate tasks taskId oldStatus newStatus =
        (tasks.set oldStatus (pre ++ post)).set newStatus
          (tasks.get newStatus ++ [{ task with status := newStatus }]) := by
  have h : ∃ t ∈ tasks.get oldStatus, (fun t : Task => t.id == taskId) t = true := by
    obtain ⟨t, ht, hid⟩ := hmem
    exact ⟨t, ht, by simp [hid]⟩
  obtain ⟨pre, task, post, hl, hp, hpre, hidx⟩ := findIndex_split _ _ h
  refine ⟨pre, task, post, hl, by simpa using hp, ?_, ?_⟩
  · intro t ht
    simpa using hpre t ht
  · unfold optimisticUpdate
    rw [hidx, hl]
    simp only [splice1_append]
    rw [Board.get_set_other _ _ _ _ hne]

/-- When no task of the source column has the dragged id, nothing changes. -/
theorem optimisticUpdate_not_found (tasks : Board) (taskId : Nat) (oldStatus newStatus : Status)
    (h : ∀ t ∈ tasks.get oldStatus, t.id ≠ taskId) :
    optimisticUpdate tasks taskId oldStatus newStatus = tasks := by
  unfold optimisticUpdate
  rw [findIndex_eq_none]
  intro t ht
  simpa using h t ht

/-! ## C1: the optimistic move -/

/-- C1. For every board and every drop of a task whose id occurs in the source
column `tasks[oldStatus]` (ids unique within that column) onto a different column
`newStatus`: after the optimistic update of `handleDrop` no task with that id is
left in `tasks[oldStatus]`, and `tasks[newStatus]` is its former content followed
by the task with `status` set to `newStatus`, so the task is the last element of
the destination column. This is also the board `handleDrop` ends with when the
reorder request succeeds. -/
theorem handleDrop_moves_task (st : Kanban) (taskId : Nat) (oldStatus newStatus : Status)
    (hne : oldStatus ≠ newStatus)
    (hmem : ∃ t ∈ st.tasks.get oldStatus, t.id = taskId)
    (hnodup : ((st.tasks.get oldStatus).map Task.id).Nodup) :
    ∃ task ∈ st.tasks.get oldStatus, task.id = taskId ∧
      (∀ t ∈ (optimisticUpdate st.tasks taskId oldStatus newStatus).get oldStatus,
        t.id ≠ taskId) ∧
      (optimisticUpdate st.tasks taskId oldStatus newStatus).get newStatus =
        st.tasks.get newStatus ++ [{ task with status := newStatus }] ∧
      ((optimisticUpdate st.tasks taskId oldStatus newStatus).get newStatus).getLast? =
        some { task with status := newStatus } ∧
      ({ task with status := newStatus } : Task).status = newStatus ∧
      ∀ reloadResp, (handleDrop st (some ⟨taskId, oldStatus⟩) newStatus (.ok ()) reloadResp).tasks =
        optimisticUpdate st.tasks taskId oldStatus newStatus := by
  obtain ⟨pre, task, post, hl, hid, _, hupd⟩ :=
    optimisticUpdate_found st.tasks taskId oldStatus newStatus hne hmem
  refine ⟨task, by simp [hl], hid, ?_, ?_, ?_, rfl, ?_⟩
  · rw [hupd, Board.get_set_other _ _ _ _ (Ne.symm hne), Board.get_set_same]
    intro t ht hcontra
    rw [hl] at hnodup
    simp only [List.map_append, List.map_cons] at hnodup
    have hnd := List.nodup_middle.1 hnodup
    have hnotin : task.id ∉ (pre ++ post).map Task.id := by
      simpa using (List.nodup_cons.1 hnd).1
    apply hnotin
    rw [hid, ← hcontra]
    exact List.mem_map_of_mem _ ht
  · rw [hupd, Board.get_set_same]
  · rw [hupd, Board.get_set_same]
    simp
  · intro reloadResp
    simp [handleDrop, hne, Kanban.showToast]

/-- Witness for C1: task 7 dragged from `todo` to `in_progress`. -/
theorem handleDrop_moves_task_witness :
    ∃ task ∈ [sampleTask 7 .todo 1, sampleTask 8 .todo 2], task.id = 7 ∧
      (∀ t ∈ (optimisticUpdate ⟨[sampleTask 7 .todo 1, sampleTask 8 .todo 2],
          [sampleTask 3 .in_progress 1], []⟩ 7 .todo .in_progress).get .todo, t.id ≠ 7) ∧
      (optimisticUpdate ⟨[sampleTask 7 .todo 1, sampleTask 8 .todo 2],
          [sampleTask 3 .in_progress 1], []⟩ 7 .todo .in_progress).get .in_progress =
        [sampleTask 3 .in_progress 1] ++ [{ task with status := .in_progress }] := by
  obtain ⟨task, hmem, hid, habsent, happ, _⟩ :=
    handleDrop_moves_task
      ⟨⟨[sampleTask 7 .todo 1, sampleTask 8 .todo 2], [sampleTask 3 .in_progress 1], []⟩, [], []⟩
      7 .todo .in_progress (by decide) ⟨sampleTask 7 .todo 1, by simp [Board.get], rfl⟩
      (by decide)
  exact ⟨task, hmem, hid, habsent, happ⟩

/-! ## C2: position values along the destination column -/

/-- C2, counterexample. The destination column `in_progress` holds positions 1, 2;
the task dragged from `todo` has position 1. The positions of the destination
column are strictly increasing before the move and are 1, 2, 1 after it. -/
theorem handleDrop_positions_counterexample :
    List.Pairwise (· < ·) (positions (Board.get
      ⟨[sampleTask 7 .todo 1], [sampleTask 3 .in_progress 1, sampleTask 4 .in_progress 2], []⟩
      .in_progress)) ∧
    positions ((optimisticUpdate
      ⟨[sampleTask 7 .todo 1], [sampleTask 3 .in_progress 1, sampleTask 4 .in_progress 2], []⟩
      7 .todo .in_progress).get .in_progress) = [1, 2, 1] ∧
    ¬ List.Pairwise (· < ·) (positions ((optimisticUpdate
      ⟨[sampleTask 7 .todo 1], [sampleTask 3 .in_progress 1, sampleTask 4 .in_progress 2], []⟩
      7 .todo .in_progress).get .in_progress)) := by
  refine ⟨by decide, by decide, by decide⟩

/-- C2, amended. A move of a task from column A to a different column B appends
the task to B with its `position` value unchanged. Hence the positions along B
are strictly increasing after the move exactly when they were strictly increasing
before it and the position of the moved task is greater than the position of
every task that was already in B. -/
theorem handleDrop_positions_amended (tasks : Board) (taskId : Nat)
    (oldStatus newStatus : Status) (hne : oldStatus ≠ newStatus)
    (hmem : ∃ t ∈ tasks.get oldStatus, t.id = taskId) :
    ∃ task ∈ tasks.get oldStatus, task.id = taskId ∧
      (optimisticUpdate tasks taskId oldStatus newStatus).get newStatus =
        tasks.get newStatus ++ [{ task with status := newStatus }] ∧
      positions ((optimisticUpdate tasks taskId oldStatus newStatus).get newStatus) =
        positions (tasks.get newStatus) ++ [task.position] ∧
      (List.Pairwise (· < ·)
          (positions ((optimisticUpdate tasks taskId oldStatus newStatus).get newStatus)) ↔
        List.Pairwise (· < ·) (positions (tasks.get newStatus)) ∧
          ∀ t ∈ tasks.get newStatus, t.position < task.position) := by
  obtain ⟨pre, task, post, hl, hid, _, hupd⟩ :=
    optimisticUpdate_found tasks taskId oldStatus newStatus hne hmem
  have hget : (optimisticUpdate tasks taskId oldStatus newStatus).get newStatus =
      tasks.get newStatus ++ [{ task with status := newStatus }] := by
    rw [hupd, Board.get_set_same]
  refine ⟨task, by simp [hl], hid, hget, ?_, ?_⟩
  · rw [hget]
    simp [positions]
  · rw [hget]
    simp only [positions, List.map_append, List.map_cons, List.map_nil, List.pairwise_append,
      List.pairwise_cons, List.mem_singleton, List.mem_map]
    constructor
    · rintro ⟨h1, _, h3⟩
      exact ⟨h1, fun t ht => h3 _ ⟨t, ht, rfl⟩ _ rfl⟩
    · rintro ⟨h1, h2⟩
      refine ⟨h1, ⟨by simp, List.Pairwise.nil⟩, ?_⟩
      rintro a ⟨t, ht, rfl⟩ b rfl
      exact h2 t ht

/-- Witness for the amended C2: the moved task has position 5, above 1 and 2. -/
theorem handleDrop_positions_amended_witness :
    ∃ task ∈ [sampleTask 7 .todo 5], task.id = 7 ∧
      positions ((optimisticUpdate
        ⟨[sampleTask 7 .todo 5], [sampleTask 3 .in_progress 1, sampleTask 4 .in_progress 2], []⟩
        7 .todo .in_progress).get .in_progress) = [1, 2] ++ [task.position] := by
  obtain ⟨task, hmem, hid, _, hpos, _⟩ :=
    handleDrop_positions_amended
      ⟨[sampleTask 7 .todo 5], [sampleTask 3 .in_progress 1, sampleTask 4 .in_progress 2], []⟩
      7 .todo .in_progress (by decide) ⟨sampleTask 7 .todo 5, by simp [Board.get], rfl⟩
  exact ⟨task, hmem, hid, hpos⟩

/-! ## C3: a failed reorder request -/

/-- When the reorder request fails and the reload succeeds, the board is the
grouping the reload has fetched. -/
theorem handleDrop_reload_ok (st : Kanban) (dragged : DraggedTask) (newStatus : Status)
    (hne : dragged.status ≠ newStatus) (err : String) (data : Board) :
    (handleDrop st (some dragged) newStatus (.error err) (.ok data)).tasks = data := by
  simp [handleDrop, hne, loadTasksResume]

/-- When both the reorder request and the reload fail, the board is the one the
optimistic update has produced. -/
theorem handleDrop_reload_failed (st : Kanban) (dragged : DraggedTask) (newStatus : Status)
    (hne : dragged.status ≠ newStatus) (err err2 : String) :
    (handleDrop st (some dragged) newStatus (.error err) (.error err2)).tasks =
      optimisticUpdate st.tasks dragged.id dragged.status newStatus := by
  simp [handleDrop, hne, loadTasksResume, Kanban.showToast]

/-- C3, the code at the failing input. Task 7 is dragged from `todo` to
`in_progress`, the reorder request fails and the request of the reload fails as
well: the board keeps the task in `in_progress`, the column `todo` is empty, and
both failures are reported. The task is not back in its original column, and the
board is not the grouping before the move, which is what the server still holds. -/
theorem handleDrop_failed_reload_keeps_move :
    (handleDrop ⟨⟨[sampleTask 7 .todo 1], [], []⟩, [], []⟩ (some ⟨7, .todo⟩) .in_progress
        (.error "Failed to reorder task") (.error "Failed to get tasks")).tasks =
      ⟨[], [sampleTask 7 .in_progress 1], []⟩ ∧
    (handleDrop ⟨⟨[sampleTask 7 .todo 1], [], []⟩, [], []⟩ (some ⟨7, .todo⟩) .in_progress
        (.error "Failed to reorder task") (.error "Failed to get tasks")).tasks ≠
      ⟨[sampleTask 7 .todo 1], [], []⟩ ∧
    (handleDrop ⟨⟨[sampleTask 7 .todo 1], [], []⟩, [], []⟩ (some ⟨7, .todo⟩) .in_progress
        (.error "Failed to reorder task") (.error "Failed to get tasks")).toasts =
      [⟨"Failed to move task", "error"⟩, ⟨"Failed to load tasks", "error"⟩] ∧
    (handleDrop ⟨⟨[sampleTask 7 .todo 1], [], []⟩, [], []⟩ (some ⟨7, .todo⟩) .in_progress
        (.error "Failed to reorder task") (.error "Failed to get tasks")).requests =
      [.reorder 7 .in_progress 1, .getTasks] := by
  refine ⟨rfl, ?_, rfl, rfl⟩
  intro h
  have h2 := congrArg Board.todo h
  simp [handleDrop, loadTasksResume, Kanban.showToast, optimisticUpdate, findIndex, splice1,
    Board.get, Board.set, sampleTask] at h2

/-! ## Number formatting -/

theorem digitChar_toNat (n : Nat) : (digitChar n).toNat = 48 + n % 10 := by
  have h := Nat.mod_lt n (by decide : 10 > 0)
  unfold digitChar
  generalize n % 10 = k at h ⊢
  interval_cases k <;> rfl

theorem decimalAux_fuel (n : Nat) : ∀ fuel, n < fuel →
    decimalAux fuel n =
      if n < 10 then [digitChar n] else decimalAux (n / 10 + 1) (n / 10) ++ [digitChar n] := by
  induction n using Nat.strong_induction_on with
  | _ n ih =>
    intro fuel hfuel
    cases fuel with
    | zero => omega
    | succ f =>
      by_cases h : n < 10
      · simp [decimalAux, h]
      · have hstep : decimalAux (f + 1) n = decimalAux f (n / 10) ++ [digitChar n] := by
          simp [decimalAux, h]
        have hd : n / 10 < n := by omega
        rw [hstep, if_neg h, ih (n / 10) hd f (by omega), ih (n / 10) hd (n / 10 + 1) (by omega)]

theorem decimal_lt {n : Nat} (h : n < 10) : decimal n = [digitChar n] := by
  unfold decimal
  rw [decimalAux_fuel n (n + 1) (by omega)]
  simp [h]

theorem decimal_ge {n : Nat} (h : 10 ≤ n) : decimal n = decimal (n / 10) ++ [digitChar n] := by
  unfold decimal
  rw [decimalAux_fuel n (n + 1) (by omega)]
  simp [Nat.not_lt.2 h]

theorem padStart2_decimal {n : Nat} (h : n ≤ 99) :
    padStart 2 '0' (decimal n) = [digitChar (n / 10), digitChar n] := by
  by_cases h1 : n < 10
  · have h0 : n / 10 = 0 := by omega
    rw [decimal_lt h1, h0]
    rfl
  · rw [decimal_ge (by omega), decimal_lt (by omega)]
    rfl

theorem padStart4_decimal {n : Nat} (h : n ≤ 9999) :
    padStart 4 '0' (decimal n) =
      [digitChar (n / 1000), digitChar (n / 100), digitChar (n / 10), digitChar n] := by
  by_cases h1 : n < 10
  · have e1 : n / 1000 = 0 := by omega
    have e2 : n / 100 = 0 := by omega
    have e3 : n / 10 = 0 := by omega
    rw [decimal_lt h1, e1, e2, e3]
    rfl
  · by_cases h2 : n < 100
    · have e1 : n / 1000 = 0 := by omega
      have e2 : n / 100 = 0 := by omega
      rw [decimal_ge (by omega), decimal_lt (by omega), e1, e2]
      rfl
    · by_cases h3 : n < 1000
      · have e1 : n / 1000 = 0 := by omega
        have e2 : n / 10 / 10 = n / 100 := by omega
        rw [decimal_ge (by omega), decimal_ge (by omega), decimal_lt (by omega), e1, e2]
        rfl
      · have e2 : n / 10 / 10 = n / 100 := by omega
        have e3 : n / 100 / 10 = n / 1000 := by omega
        rw [decimal_ge (by omega), decimal_ge (by omega), decimal_ge (by omega),
          decimal_lt (by omega), e2, e3]
        rfl

/-- Characters printed for numbers: the decimal digits. -/
theorem decimal_digits (n : Nat) : ∀ c ∈ decimal n, 48 ≤ c.toNat ∧ c.toNat ≤ 57 := by
  induction n using Nat.strong_induction_on with
  | _ n ih =>
    intro c hc
    by_cases h : n < 10
    · rw [decimal_lt h] at hc
      simp only [List.mem_singleton] at hc
      subst hc
      rw [digitChar_toNat]
      omega
    · rw [decimal_ge (by omega)] at hc
      rcases List.mem_append.1 hc with hc | hc
      · exact ih (n / 10) (by omega) c hc
      · simp only [List.mem_singleton] at hc
        subst hc
        rw [digitChar_toNat]
        omega

theorem padStart_digits (k n : Nat) :
    ∀ c ∈ padStart k '0' (decimal n), 48 ≤ c.toNat ∧ c.toNat ≤ 57 := by
  intro c hc
  unfold padStart at hc
  rcases List.mem_append.1 hc with hc | hc
  · have := List.eq_of_mem_replicate hc
    subst this
    decide
  · exact decimal_digits n c hc

theorem splitHead_append (sep : Char) (l r : List Char) (h : ∀ c ∈ l, c ≠ sep) :
    splitHead sep (l ++ sep :: r) = l := by
  unfold splitHead
  induction l with
  | nil => simp
  | cons a l ih =>
    have ha : a ≠ sep := h a (by simp)
    simp only [List.cons_append, List.takeWhile_cons, bne_iff_ne, ne_eq, ha, not_false_eq_true,
      if_true]
    rw [ih (fun c hc => h c (by simp [hc]))]

/-- The date part of `toISOString`. -/
theorem isoDate_eq (t : Timestamp) :
    isoDate t = isoYear t.year ++ '-' :: padStart 2 '0' (decimal t.month) ++ '-' ::
      padStart 2 '0' (decimal t.day) := by
  unfold isoDate toISOString
  simp only [List.append_assoc, List.cons_append]
  have key := splitHead_append 'T'
    (isoYear t.year ++ '-' :: (padStart 2 '0' (decimal t.month) ++ '-' ::
      padStart 2 '0' (decimal t.day)))
  simp only [List.append_assoc, List.cons_append] at key
  apply key
  intro c hc
  have hT : ∀ c : Char, 48 ≤ c.toNat ∧ c.toNat ≤ 57 → c ≠ 'T' := by
    rintro c ⟨_, h2⟩ rfl
    exact absurd h2 (by decide)
  simp only [List.mem_append, List.mem_cons] at hc
  rcases hc with hc | rfl | hc | rfl | hc
  · unfold isoYear at hc
    split at hc
    · exact hT c (padStart_digits _ _ c hc)
    · rcases List.mem_cons.1 hc with rfl | hc
      · decide
      · exact hT c (padStart_digits _ _ c hc)
  · decide
  · exact hT c (padStart_digits _ _ c hc)
  · decide
  · exact hT c (padStart_digits _ _ c hc)

/-! ## Date keys -/

theorem CalDate.key_eq (a : CalDate) (hy : a.year ≤ 9999) (hm : a.month ≤ 99) (hd : a.day ≤ 99) :
    a.key = [digitChar (a.year / 1000), digitChar (a.year / 100), digitChar (a.year / 10),
      digitChar a.year, '-', digitChar (a.month / 10), digitChar a.month, '-',
      digitChar (a.day / 10), digitChar a.day] := by
  unfold CalDate.key
  rw [padStart4_decimal hy, padStart2_decimal hm, padStart2_decimal hd]
  rfl

/-- For years up to 9999 the date part of `toISOString` is the date key. -/
theorem isoDate_eq_key (t : Timestamp) (hy : t.year ≤ 9999) : isoDate t = t.date.key := by
  rw [isoDate_eq]
  unfold isoYear CalDate.key Timestamp.date
  simp [hy]

theorem strLt_cons_iff (a b : Char) (as bs : List Char) :
    strLt (a :: as) (b :: bs) = true ↔
      a.toNat < b.toNat ∨ (a.toNat = b.toNat ∧ strLt as bs = true) := by
  rw [strLt]
  split_ifs with h1 h2
  · simp [h1]
  · constructor
    · intro h
      exact absurd h (by simp)
    · rintro (h | ⟨h, _⟩) <;> omega
  · have : a.toNat = b.toNat := by omega
    simp [this]

theorem strLt_same_head (c : Char) (s t : List Char) :
    strLt (c :: s) (c :: t) = strLt s t := by
  rw [strLt]
  simp

theorem digits2_decomp (m : Nat) (hm : m ≤ 99) : m = 10 * (m / 10 % 10) + m % 10 := by
  omega

theorem digits4_decomp (m : Nat) (hm : m ≤ 9999) :
    m = 1000 * (m / 1000 % 10) + 100 * (m / 100 % 10) + 10 * (m / 10 % 10) + m % 10 := by
  have e1 : m / 100 = m / 10 / 10 := by omega
  have e2 : m / 1000 = m / 10 / 10 / 10 := by omega
  rw [e1, e2]
  omega

theorem lex_digits2 (a1 a0 b1 b0 : Nat) (h1 : a0 < 10) (h2 : b0 < 10) (P : Prop) :
    (48 + a1 < 48 + b1 ∨ 48 + a1 = 48 + b1 ∧ (48 + a0 < 48 + b0 ∨ 48 + a0 = 48 + b0 ∧ P)) ↔
      (10 * a1 + a0 < 10 * b1 + b0 ∨ (10 * a1 + a0 = 10 * b1 + b0 ∧ P)) := by
  by_cases hP : P
  · simp only [hP, and_true]
    omega
  · simp only [hP, and_false, or_false]
    omega

theorem lex_digits4 (a3 a2 a1 a0 b3 b2 b1 b0 : Nat) (h2 : a2 < 10) (h3 : a1 < 10)
    (h4 : a0 < 10) (h6 : b2 < 10) (h7 : b1 < 10) (h8 : b0 < 10) (P : Prop) :
    (48 + a3 < 48 + b3 ∨ 48 + a3 = 48 + b3 ∧ (48 + a2 < 48 + b2 ∨ 48 + a2 = 48 + b2 ∧
      (48 + a1 < 48 + b1 ∨ 48 + a1 = 48 + b1 ∧ (48 + a0 < 48 + b0 ∨ 48 + a0 = 48 + b0 ∧ P)))) ↔
      (1000 * a3 + 100 * a2 + 10 * a1 + a0 < 1000 * b3 + 100 * b2 + 10 * b1 + b0 ∨
        (1000 * a3 + 100 * a2 + 10 * a1 + a0 = 1000 * b3 + 100 * b2 + 10 * b1 + b0 ∧ P)) := by
  by_cases hP : P
  · simp only [hP, and_true]
    omega
  · simp only [hP, and_false, or_false]
    omega

theorem strLt_digits2 (m n : Nat) (hm : m ≤ 99) (hn : n ≤ 99) (s t : List Char) :
    strLt (digitChar (m / 10) :: digitChar m :: s) (digitChar (n / 10) :: digitChar n :: t) = true ↔
      m < n ∨ (m = n ∧ strLt s t = true) := by
  simp only [strLt_cons_iff, digitChar_toNat]
  rw [lex_digits2 _ _ _ _ (Nat.mod_lt _ (by decide)) (Nat.mod_lt _ (by decide)),
    ← digits2_decomp m hm, ← digits2_decomp n hn]

theorem strLt_digits4 (m n : Nat) (hm : m ≤ 9999) (hn : n ≤ 9999) (s t : List Char) :
    strLt (digitChar (m / 1000) :: digitChar (m / 100) :: digitChar (m / 10) :: digitChar m :: s)
      (digitChar (n / 1000) :: digitChar (n / 100) :: digitChar (n / 10) :: digitChar n :: t) = true ↔
      m < n ∨ (m = n ∧ strLt s t = true) := by
  simp only [strLt_cons_iff, digitChar_toNat]
  rw [lex_digits4 _ _ _ _ _ _ _ _ (Nat.mod_lt _ (by decide)) (Nat.mod_lt _ (by decide))
      (Nat.mod_lt _ (by decide)) (Nat.mod_lt _ (by decide)) (Nat.mod_lt _ (by decide))
      (Nat.mod_lt _ (by decide)),
    ← digits4_decomp m hm, ← digits4_decomp n hn]

/-- String comparison of date keys is chronological comparison of the dates. -/
theorem strLt_key (a b : CalDate) (hay : a.year ≤ 9999) (ham : a.month ≤ 99) (had : a.day ≤ 99)
    (hby : b.year ≤ 9999) (hbm : b.month ≤ 99) (hbd : b.day ≤ 99) :
    strLt a.key b.key = true ↔
      (a.year < b.year ∨ (a.year = b.year ∧
        (a.month < b.month ∨ (a.month = b.month ∧ a.day < b.day)))) := by
  rw [CalDate.key_eq a hay ham had, CalDate.key_eq b hby hbm hbd]
  rw [strLt_digits4 _ _ hay hby, strLt_same_head, strLt_digits2 _ _ ham hbm, strLt_same_head,
    strLt_digits2 _ _ had hbd]
  simp [strLt]

theorem strLe_key (a b : CalDate) (ha : a.WF) (hb : b.WF) :
    strLe a.key b.key = true ↔ a.le b := by
  obtain ⟨hay, _, ham, _, had⟩ := ha
  obtain ⟨hby, _, hbm, _, hbd⟩ := hb
  have h := strLt_key b a hby (by omega) (by omega) hay (by omega) (by omega)
  unfold strLe CalDate.le
  rw [Bool.not_eq_true', ← Bool.not_eq_true, h]
  omega

theorem strGe_eq_strLe (a b : List Char) : strGe a b = strLe b a := rfl

theorem strLt_irrefl (s : List Char) : strLt s s = false := by
  induction s with
  | nil => rfl
  | cons a s ih => rw [strLt_same_head, ih]

theorem CalDate.key_inj (a b : CalDate) (ha : a.WF) (hb : b.WF) (h : a.key = b.key) : a = b := by
  have h1 : a.le b := (strLe_key a b ha hb).1 (by unfold strLe; rw [h, strLt_irrefl]; rfl)
  have h2 : b.le a := (strLe_key b a hb ha).1 (by unfold strLe; rw [h, strLt_irrefl]; rfl)
  unfold CalDate.le at h1 h2
  cases a
  cases b
  simp only [CalDate.mk.injEq] at *
  omega

/-- The date part of `toISOString` equals a date key exactly for the instants of
that calendar date (also for years that are printed with six digits). -/
theorem isoDate_eq_key_iff (t : Timestamp) (D : CalDate) (ht : t.ValidDate) (hD : D.WF) :
    isoDate t = D.key ↔ t.date = D := by
  by_cases hy : t.year ≤ 9999
  · rw [isoDate_eq_key t hy]
    constructor
    · intro h
      exact CalDate.key_inj _ _ ⟨hy, ht⟩ hD h
    · intro h
      rw [h]
  · constructor
    · intro h
      rw [isoDate_eq, CalDate.key_eq D hD.1 (by have := hD.2; omega) (by have := hD.2; omega)] at h
      unfold isoYear at h
      rw [if_neg hy] at h
      simp only [List.cons_append, List.cons.injEq] at h
      have h1 := congrArg Char.toNat h.1
      rw [digitChar_toNat] at h1
      exact absurd h1 (by
        have : ('+' : Char).toNat = 43 := rfl
        omega)
    · intro h
      have : t.year = D.year := congrArg CalDate.year h
      have := hD.1
      omega

/-! ## The day view -/

theorem foldl_pushEvent (dateStr : List Char) (events : List CalendarEvent) :
    ∀ items, events.foldl (pushEvent dateStr) items =
      items ++ (events.filter (eventOnDate dateStr)).map eventItem := by
  induction events with
  | nil => simp
  | cons e l ih =>
    intro items
    rw [List.foldl_cons, ih]
    by_cases h : eventOnDate dateStr e = true
    · have h2 : (strGe dateStr (isoDate e.start_time) && strLe dateStr (isoDate e.end_time))
          = true := h
      simp [pushEvent, h, h2]
    · have h2 : ¬ (strGe dateStr (isoDate e.start_time) && strLe dateStr (isoDate e.end_time))
          = true := h
      simp [pushEvent, h, h2]

theorem foldl_pushTask (dateStr : List Char) (tasks : List Task) :
    ∀ items, tasks.foldl (pushTask dateStr) items =
      items ++ (tasks.filter (taskOnDate dateStr)).map taskItem := by
  induction tasks with
  | nil => simp
  | cons t l ih =>
    intro items
    rw [List.foldl_cons, ih]
    unfold pushTask taskOnDate
    cases hdue : t.due_date with
    | none => simp [taskOnDate, hdue]
    | some d =>
      by_cases h : isoDate d = dateStr
      · simp [taskOnDate, hdue, h]
      · simp [taskOnDate, hdue, h]

theorem foldl_pushNote (dateStr : List Char) (notes : List Note) :
    ∀ items, notes.foldl (pushNote dateStr) items =
      items ++ (notes.filter (noteOnDate dateStr)).map noteItem := by
  induction notes with
  | nil => simp
  | cons n l ih =>
    intro items
    rw [List.foldl_cons, ih]
    by_cases h : isoDate n.created_at = dateStr
    · simp [pushNote, noteOnDate, h]
    · simp [pushNote, noteOnDate, h]

/-- The three loops of `getItemsForDate` as filters. -/
theorem getItemsForDate_eq (st : Calendar) (dateStr : List Char) :
    getItemsForDate st dateStr =
      (st.events.filter (eventOnDate dateStr)).map eventItem ++
        (st.calendarTasks.filter (taskOnDate dateStr)).map taskItem ++
        (st.calendarNotes.filter (noteOnDate dateStr)).map noteItem := by
  unfold getItemsForDate
  simp only [foldl_pushEvent, foldl_pushTask, foldl_pushNote, List.nil_append]

theorem eventOnDate_iff (D : CalDate) (e : CalendarEvent) (hD : D.WF)
    (hs : e.start_time.date.WF) (he : e.end_time.date.WF) :
    eventOnDate D.key e = true ↔ e.start_time.date.le D ∧ D.le e.end_time.date := by
  unfold eventOnDate
  rw [isoDate_eq_key _ hs.1, isoDate_eq_key _ he.1, Bool.and_eq_true, strGe_eq_strLe,
    strLe_key _ _ hs hD, strLe_key _ _ hD he]

/-- An item of a given type and id is in the day view exactly when the collection
of that type has a matching row with that id. -/
theorem mem_getItemsForDate_event (st : Calendar) (dateStr : List Char) (id : Nat) :
    (∃ item ∈ getItemsForDate st dateStr, item.type = .event ∧ item.id = id) ↔
      ∃ e ∈ st.events, eventOnDate dateStr e = true ∧ e.id = id := by
  rw [getItemsForDate_eq]
  constructor
  · rintro ⟨item, hmem, htype, hid⟩
    simp only [List.mem_append, List.mem_map, List.mem_filter] at hmem
    rcases hmem with (⟨e, ⟨he, hon⟩, rfl⟩ | ⟨t, _, rfl⟩) | ⟨n, _, rfl⟩
    · exact ⟨e, he, hon, hid⟩
    · exact absurd htype (by simp [taskItem])
    · exact absurd htype (by simp [noteItem])
  · rintro ⟨e, he, hon, hid⟩
    refine ⟨eventItem e, ?_, rfl, hid⟩
    simp only [List.mem_append, List.mem_map, List.mem_filter]
    exact Or.inl (Or.inl ⟨e, ⟨he, hon⟩, rfl⟩)

theorem mem_getItemsForDate_task (st : Calendar) (dateStr : List Char) (id : Nat) :
    (∃ item ∈ getItemsForDate st dateStr, item.type = .task ∧ item.id = id) ↔
      ∃ t ∈ st.calendarTasks, taskOnDate dateStr t = true ∧ t.id = id := by
  rw [getItemsForDate_eq]
  constructor
  · rintro ⟨item, hmem, htype, hid⟩
    simp only [List.mem_append, List.mem_map, List.mem_filter] at hmem
    rcases hmem with (⟨e, _, rfl⟩ | ⟨t, ⟨ht, hon⟩, rfl⟩) | ⟨n, _, rfl⟩
    · exact absurd htype (by simp [eventItem])
    · exact ⟨t, ht, hon, hid⟩
    · exact absurd htype (by simp [noteItem])
  · rintro ⟨t, ht, hon, hid⟩
    refine ⟨taskItem t, ?_, rfl, hid⟩
    simp only [List.mem_append, List.mem_map, List.mem_filter]
    exact Or.inl (Or.inr ⟨t, ⟨ht, hon⟩, rfl⟩)

theorem mem_getItemsForDate_note (st : Calendar) (dateStr : List Char) (id : Nat) :
    (∃ item ∈ getItemsForDate st dateStr, item.type = .note ∧ item.id = id) ↔
      ∃ n ∈ st.calendarNotes, noteOnDate dateStr n = true ∧ n.id = id := by
  rw [getItemsForDate_eq]
  constructor
  · rintro ⟨item, hmem, htype, hid⟩
    simp only [List.mem_append, List.mem_map, List.mem_filter] at hmem
    rcases hmem with (⟨e, _, rfl⟩ | ⟨t, _, rfl⟩) | ⟨n, ⟨hn, hon⟩, rfl⟩
    · exact absurd htype (by simp [eventItem])
    · exact absurd htype (by simp [taskItem])
    · exact ⟨n, hn, hon, hid⟩
  · rintro ⟨n, hn, hon, hid⟩
    refine ⟨noteItem n, ?_, rfl, hid⟩
    simp only [List.mem_append, List.mem_map, List.mem_filter]
    exact Or.inr ⟨n, ⟨hn, hon⟩, rfl⟩

/-! ## C4: events in the day view -/

/-- C4. For every date key `D` (`YYYY-MM-DD`) and every event `e` of the events
collection (ids unique, timestamps in the years that print with four digits),
`getItemsForDate(D)` contains an item of type `event` for `e` if and only if
`date(e.start_time) ≤ D ≤ date(e.end_time)` as calendar dates. In particular an
event from 2024-03-01T00:00 to 2024-03-03T23:59 is included for 2024-03-01,
2024-03-02 and 2024-03-03 and for no other date. -/
theorem getItemsForDate_event_iff (st : Calendar) (D : CalDate) (hD : D.WF)
    (hwf : ∀ e ∈ st.events, e.start_time.date.WF ∧ e.end_time.date.WF)
    (hid : (st.events.map CalendarEvent.id).Nodup)
    (e : CalendarEvent) (he : e ∈ st.events) :
    ((∃ item ∈ getItemsForDate st D.key, item.type = .event ∧ item.id = e.id) ↔
      e.start_time.date.le D ∧ D.le e.end_time.date) ∧
    (e.start_time = ⟨2024, 3, 1, 0, 0, 0, 0⟩ → e.end_time = ⟨2024, 3, 3, 23, 59, 0, 0⟩ →
      ((∃ item ∈ getItemsForDate st D.key, item.type = .event ∧ item.id = e.id) ↔
        D = ⟨2024, 3, 1⟩ ∨ D = ⟨2024, 3, 2⟩ ∨ D = ⟨2024, 3, 3⟩)) := by
  have main : (∃ item ∈ getItemsForDate st D.key, item.type = .event ∧ item.id = e.id) ↔
      e.start_time.date.le D ∧ D.le e.end_time.date := by
    rw [mem_getItemsForDate_event]
    constructor
    · rintro ⟨e2, he2, hon, hid2⟩
      have : e2 = e := List.inj_on_of_nodup_map hid he2 he hid2
      subst this
      exact (eventOnDate_iff D e2 hD (hwf e2 he2).1 (hwf e2 he2).2).1 hon
    · intro h
      exact ⟨e, he, (eventOnDate_iff D e hD (hwf e he).1 (hwf e he).2).2 h, rfl⟩
  refine ⟨main, ?_⟩
  intro hs hend
  rw [main, hs, hend]
  obtain ⟨_, hm1, _, hd1, _⟩ := hD
  cases D with
  | mk y m d =>
    simp only [CalDate.le, Timestamp.date, CalDate.mk.injEq] at *
    omega

/-- Witness for C4: the event of the scenario is in the day view of 2024-03-02
and not in the day view of 2024-03-04. -/
theorem getItemsForDate_event_iff_witness :
    (∃ item ∈ getItemsForDate
        (sampleCalendar [sampleEvent 1 ⟨2024, 3, 1, 0, 0, 0, 0⟩ ⟨2024, 3, 3, 23, 59, 0, 0⟩] [] [])
        (CalDate.key ⟨2024, 3, 2⟩), item.type = .event ∧ item.id = 1) ∧
    ¬ (∃ item ∈ getItemsForDate
        (sampleCalendar [sampleEvent 1 ⟨2024, 3, 1, 0, 0, 0, 0⟩ ⟨2024, 3, 3, 23, 59, 0, 0⟩] [] [])
        (CalDate.key ⟨2024, 3, 4⟩), item.type = .event ∧ item.id = 1) := by
  have hwf : ∀ e ∈ (sampleCalendar
      [sampleEvent 1 ⟨2024, 3, 1, 0, 0, 0, 0⟩ ⟨2024, 3, 3, 23, 59, 0, 0⟩] [] []).events,
      e.start_time.date.WF ∧ e.end_time.date.WF := by
    intro e he
    simp only [sampleCalendar, List.mem_singleton] at he
    subst he
    simp [sampleEvent, Timestamp.date, CalDate.WF]
  constructor
  · exact ((getItemsForDate_event_iff _ ⟨2024, 3, 2⟩ (by simp [CalDate.WF]) hwf
      (by simp [sampleCalendar]) (sampleEvent 1 ⟨2024, 3, 1, 0, 0, 0, 0⟩ ⟨2024, 3, 3, 23, 59, 0, 0⟩)
      (by simp [sampleCalendar])).2 rfl rfl).2 (Or.inr (Or.inl rfl))
  · intro h
    have := ((getItemsForDate_event_iff _ ⟨2024, 3, 4⟩ (by simp [CalDate.WF]) hwf
      (by simp [sampleCalendar]) (sampleEvent 1 ⟨2024, 3, 1, 0, 0, 0, 0⟩ ⟨2024, 3, 3, 23, 59, 0, 0⟩)
      (by simp [sampleCalendar])).2 rfl rfl).1 h
    simp at this

/-! ## C5: tasks in the day view -/

/-- C5. For every date key `D` and every task `t` of `calendarTasks` (ids unique),
`getItemsForDate(D)` contains an item of type `task` for `t` if and only if `t`
has a `due_date` and the calendar date of `t.due_date` equals `D`; a task without
a `due_date` is included for no date. -/
theorem getItemsForDate_task_iff (st : Calendar) (D : CalDate) (hD : D.WF)
    (hwf : ∀ t ∈ st.calendarTasks, ∀ d, t.due_date = some d → d.ValidDate)
    (hid : (st.calendarTasks.map Task.id).Nodup)
    (t : Task) (ht : t ∈ st.calendarTasks) :
    ((∃ item ∈ getItemsForDate st D.key, item.type = .task ∧ item.id = t.id) ↔
      ∃ d, t.due_date = some d ∧ d.date = D) ∧
    (t.due_date = none → ∀ dateStr : List Char,
      ¬ ∃ item ∈ getItemsForDate st dateStr, item.type = .task ∧ item.id = t.id) := by
  have hon : ∀ t2 ∈ st.calendarTasks,
      (taskOnDate D.key t2 = true ↔ ∃ d, t2.due_date = some d ∧ d.date = D) := by
    intro t2 ht2
    unfold taskOnDate
    cases hdue : t2.due_date with
    | none => simp
    | some d =>
      simp only [decide_eq_true_eq, Option.some.injEq, exists_eq_left']
      exact isoDate_eq_key_iff d D (hwf t2 ht2 d hdue) hD
  constructor
  · rw [mem_getItemsForDate_task]
    constructor
    · rintro ⟨t2, ht2, h2, hid2⟩
      have : t2 = t := List.inj_on_of_nodup_map hid ht2 ht hid2
      subst this
      exact (hon t2 ht2).1 h2
    · intro h
      exact ⟨t, ht, (hon t ht).2 h, rfl⟩
  · intro hnone dateStr
    rw [mem_getItemsForDate_task]
    rintro ⟨t2, ht2, h2, hid2⟩
    have : t2 = t := List.inj_on_of_nodup_map hid ht2 ht hid2
    subst this
    simp [taskOnDate, hnone] at h2

/-- Witness for C5: of two tasks, the one due on 2024-03-05 is in the day view of
that date. -/
theorem getItemsForDate_task_iff_witness :
    ∃ item ∈ getItemsForDate
        (sampleCalendar []
          [{ sampleTask 7 .todo 1 with due_date := some ⟨2024, 3, 5, 12, 0, 0, 0⟩ },
            sampleTask 8 .todo 2] [])
        (CalDate.key ⟨2024, 3, 5⟩), item.type = .task ∧ item.id = 7 := by
  have h := (getItemsForDate_task_iff
    (sampleCalendar []
      [{ sampleTask 7 .todo 1 with due_date := some ⟨2024, 3, 5, 12, 0, 0, 0⟩ },
        sampleTask 8 .todo 2] [])
    ⟨2024, 3, 5⟩ (by simp [CalDate.WF])
    (by
      intro t ht d hd
      simp only [sampleCalendar, List.mem_cons, List.mem_singleton, List.not_mem_nil,
        or_false] at ht
      rcases ht with rfl | rfl
      · simp only [Option.some.injEq] at hd
        subst hd
        simp [Timestamp.ValidDate]
      · simp [sampleTask] at hd)
    (by simp [sampleCalendar, sampleTask])
    { sampleTask 7 .todo 1 with due_date := some ⟨2024, 3, 5, 12, 0, 0, 0⟩ }
    (by simp [sampleCalendar])).1
  exact h.2 ⟨_, rfl, rfl⟩

/-! ## C6: notes in the day view -/

/-- C6. For every date key `D` and every note `n` of `calendarNotes` (ids unique),
`getItemsForDate(D)` contains an item of type `note` for `n` if and only if the
calendar date of `n.created_at` equals `D`; replacing the `updated_at` values of
the notes by any others leaves every day view unchanged. -/
theorem getItemsForDate_note_iff (st : Calendar) (D : CalDate) (hD : D.WF)
    (hwf : ∀ n ∈ st.calendarNotes, n.created_at.ValidDate)
    (hid : (st.calendarNotes.map Note.id).Nodup)
    (n : Note) (hn : n ∈ st.calendarNotes) :
    ((∃ item ∈ getItemsForDate st D.key, item.type = .note ∧ item.id = n.id) ↔
      n.created_at.date = D) ∧
    (∀ (f : Note → Timestamp) (dateStr : List Char),
      getItemsForDate
        { st with calendarNotes := st.calendarNotes.map (fun m => { m with updated_at := f m }) }
        dateStr = getItemsForDate st dateStr) := by
  constructor
  · rw [mem_getItemsForDate_note]
    constructor
    · rintro ⟨n2, hn2, h2, hid2⟩
      have : n2 = n := List.inj_on_of_nodup_map hid hn2 hn hid2
      subst this
      unfold noteOnDate at h2
      exact (isoDate_eq_key_iff _ D (hwf n2 hn2) hD).1 (by simpa using h2)
    · intro h
      refine ⟨n, hn, ?_, rfl⟩
      unfold noteOnDate
      simpa using (isoDate_eq_key_iff _ D (hwf n hn) hD).2 h
  · intro f dateStr
    rw [getItemsForDate_eq, getItemsForDate_eq]
    congr 1
    simp only [List.filter_map, List.map_map]
    rfl

/-- Witness for C6: a note created on 2024-03-09 is in the day view of that date. -/
theorem getItemsForDate_note_iff_witness :
    ∃ item ∈ getItemsForDate (sampleCalendar [] [] [sampleNote 4 false 9])
        (CalDate.key ⟨2024, 3, 9⟩), item.type = .note ∧ item.id = 4 := by
  have h := (getItemsForDate_note_iff (sampleCalendar [] [] [sampleNote 4 false 9])
    ⟨2024, 3, 9⟩ (by simp [CalDate.WF])
    (by
      intro n hn
      simp only [sampleCalendar, List.mem_singleton] at hn
      subst hn
      simp [Timestamp.ValidDate, sampleNote])
    (by simp [sampleCalendar])
    (sampleNote 4 false 9) (by simp [sampleCalendar])).1
  exact h.2 rfl

/-! ## C7: order of the day view -/

/-- C7. For every date key, `getItemsForDate` is the concatenation of the items of
the matching events (in the order of `events`), the items of the matching tasks
(in the order of `calendarTasks`) and the items of the matching notes (in the
order of `calendarNotes`). Hence the item types along the day view go from
events over tasks to notes, and its length is the sum of the three match counts.
After a successful `loadCalendarData` the tasks are listed `todo`, then
`in_progress`, then `done`. -/
theorem getItemsForDate_concat (st : Calendar) (dateStr : List Char) :
    getItemsForDate st dateStr =
      (st.events.filter (eventOnDate dateStr)).map eventItem ++
        (st.calendarTasks.filter (taskOnDate dateStr)).map taskItem ++
        (st.calendarNotes.filter (noteOnDate dateStr)).map noteItem ∧
    (getItemsForDate st dateStr).Pairwise (fun a b => a.type.rank ≤ b.type.rank) ∧
    (getItemsForDate st dateStr).length =
      (st.events.filter (eventOnDate dateStr)).length +
        (st.calendarTasks.filter (taskOnDate dateStr)).length +
        (st.calendarNotes.filter (noteOnDate dateStr)).length ∧
    (∀ (eventsData : List CalendarEvent) (tasksData : Board) (notesData : List Note),
      (loadCalendarData st (.ok eventsData) (.ok tasksData) (.ok notesData)).events = eventsData ∧
      (loadCalendarData st (.ok eventsData) (.ok tasksData) (.ok notesData)).calendarTasks =
        tasksData.todo ++ tasksData.in_progress ++ tasksData.done ∧
      (loadCalendarData st (.ok eventsData) (.ok tasksData) (.ok notesData)).calendarNotes =
        notesData) := by
  refine ⟨getItemsForDate_eq st dateStr, ?_, ?_, ?_⟩
  · rw [getItemsForDate_eq]
    simp only [List.pairwise_append, List.pairwise_map, List.mem_append, List.mem_map]
    refine ⟨⟨?_, ?_, ?_⟩, ?_, ?_⟩
    · exact List.pairwise_of_forall (fun _ _ => Nat.le_refl _)
    · exact List.pairwise_of_forall (fun _ _ => Nat.le_refl _)
    · rintro a ⟨e, _, rfl⟩ b ⟨t, _, rfl⟩
      exact Nat.zero_le _
    · exact List.pairwise_of_forall (fun _ _ => Nat.le_refl _)
    · rintro a (⟨e, _, rfl⟩ | ⟨t, _, rfl⟩) b ⟨n, _, rfl⟩
      · exact Nat.zero_le _
      · exact Nat.le_succ 1
  · rw [getItemsForDate_eq]
    simp only [List.length_append, List.length_map]
  · intro eventsData tasksData notesData
    exact ⟨rfl, rfl, rfl⟩

/-! ## C8: the rendering cap -/

theorem filterMap_dayCell_other {α : Type} (f : α → Int) (l : List α) :
    (l.map (fun i => Cell.otherMonth (f i))).filterMap Cell.dayCell? = [] := by
  induction l with
  | nil => rfl
  | cons a l ih => simp [Cell.dayCell?]

theorem filterMap_dayCell_header (l : List String) :
    (l.map Cell.header).filterMap Cell.dayCell? = [] := by
  induction l with
  | nil => rfl
  | cons a l ih => simp [Cell.dayCell?]

theorem filterMap_dayCell_current {α : Type} (f : α → DayCell) (l : List α) :
    (l.map (fun k => Cell.currentMonth (f k))).filterMap Cell.dayCell? = l.map f := by
  induction l with
  | nil => rfl
  | cons a l ih => simpa [Cell.dayCell?] using ih

/-- C8. The day cells `renderCalendar` writes are the cells `renderDay` builds for
the days 1 to `daysInMonth`. For a day whose day view has `n` items the cell
holds exactly `min(n, 4)` item entries, the first `min(n, 4)` items of the day
view in order, and a `+N more` element if and only if `n > 4`, with `N = n - 4`.
The day view itself keeps all `n` items; with five events on one day, four are
rendered next to `+1 more` and the day view has length 5. -/
theorem renderCalendar_cap (st : Calendar) (today : LocalDate)
    (startDay daysInMonth prevMonthLastDay : Nat) :
    (renderCalendar st today startDay daysInMonth prevMonthLastDay).filterMap Cell.dayCell? =
      (List.range daysInMonth).map (fun k => renderDay st today (k + 1)) ∧
    (∀ day : Nat,
      (renderDay st today day).entries =
        ((getItemsForDate st
          (dateStrOf st.currentDate.year st.currentDate.month day)).take 4).map renderItem ∧
      (renderDay st today day).entries.length =
        min (getItemsForDate st
          (dateStrOf st.currentDate.year st.currentDate.month day)).length 4 ∧
      (renderDay st today day).more =
        (if (getItemsForDate st
            (dateStrOf st.currentDate.year st.currentDate.month day)).length > 4
          then some ((getItemsForDate st
            (dateStrOf st.currentDate.year st.currentDate.month day)).length - 4)
          else none)) ∧
    ((renderDay
        (sampleCalendar
          [sampleEvent 1 ⟨2024, 3, 10, 9, 0, 0, 0⟩ ⟨2024, 3, 10, 10, 0, 0, 0⟩,
            sampleEvent 2 ⟨2024, 3, 10, 9, 0, 0, 0⟩ ⟨2024, 3, 10, 10, 0, 0, 0⟩,
            sampleEvent 3 ⟨2024, 3, 10, 9, 0, 0, 0⟩ ⟨2024, 3, 10, 10, 0, 0, 0⟩,
            sampleEvent 4 ⟨2024, 3, 10, 9, 0, 0, 0⟩ ⟨2024, 3, 10, 10, 0, 0, 0⟩,
            sampleEvent 5 ⟨2024, 3, 10, 9, 0, 0, 0⟩ ⟨2024, 3, 10, 10, 0, 0, 0⟩] [] [])
        ⟨2024, 2, 1⟩ 10).entries.map Entry.onclick =
        ["event.stopPropagation(); editEvent(1)", "event.stopPropagation(); editEvent(2)",
          "event.stopPropagation(); editEvent(3)", "event.stopPropagation(); editEvent(4)"] ∧
      (renderDay
        (sampleCalendar
          [sampleEvent 1 ⟨2024, 3, 10, 9, 0, 0, 0⟩ ⟨2024, 3, 10, 10, 0, 0, 0⟩,
            sampleEvent 2 ⟨2024, 3, 10, 9, 0, 0, 0⟩ ⟨2024, 3, 10, 10, 0, 0, 0⟩,
            sampleEvent 3 ⟨2024, 3, 10, 9, 0, 0, 0⟩ ⟨2024, 3, 10, 10, 0, 0, 0⟩,
            sampleEvent 4 ⟨2024, 3, 10, 9, 0, 0, 0⟩ ⟨2024, 3, 10, 10, 0, 0, 0⟩,
            sampleEvent 5 ⟨2024, 3, 10, 9, 0, 0, 0⟩ ⟨2024, 3, 10, 10, 0, 0, 0⟩] [] [])
        ⟨2024, 2, 1⟩ 10).more = some 1 ∧
      (getItemsForDate
        (sampleCalendar
          [sampleEvent 1 ⟨2024, 3, 10, 9, 0, 0, 0⟩ ⟨2024, 3, 10, 10, 0, 0, 0⟩,
            sampleEvent 2 ⟨2024, 3, 10, 9, 0, 0, 0⟩ ⟨2024, 3, 10, 10, 0, 0, 0⟩,
            sampleEvent 3 ⟨2024, 3, 10, 9, 0, 0, 0⟩ ⟨2024, 3, 10, 10, 0, 0, 0⟩,
            sampleEvent 4 ⟨2024, 3, 10, 9, 0, 0, 0⟩ ⟨2024, 3, 10, 10, 0, 0, 0⟩,
            sampleEvent 5 ⟨2024, 3, 10, 9, 0, 0, 0⟩ ⟨2024, 3, 10, 10, 0, 0, 0⟩] [] [])
        (dateStrOf 2024 2 10)).length = 5) := by
  refine ⟨?_, ?_, ?_⟩
  · unfold renderCalendar
    simp only [List.filterMap_append, filterMap_dayCell_other, filterMap_dayCell_header,
      filterMap_dayCell_current, List.nil_append, List.append_nil]
  · intro day
    refine ⟨rfl, ?_, rfl⟩
    simp [renderDay, List.length_take, Nat.min_comm]
  · refine ⟨?_, ?_, ?_⟩
    · rfl
    · rfl
    · rfl

/-! ## Sorting -/

theorem mem_insertSorted {α : Type} (cmp : α → α → Int) (a x : α) (l : List α) :
    x ∈ insertSorted cmp a l ↔ x = a ∨ x ∈ l := by
  induction l with
  | nil => simp [insertSorted]
  | cons b l ih =>
    unfold insertSorted
    split_ifs
    · simp
    · simp only [List.mem_cons, ih]
      tauto

theorem mem_sort {α : Type} (cmp : α → α → Int) (x : α) (l : List α) :
    x ∈ sort cmp l ↔ x ∈ l := by
  induction l with
  | nil => simp [sort]
  | cons b l ih => simp [sort, mem_insertSorted, ih]

theorem insertSorted_pairwise {α : Type} (cmp : α → α → Int)
    (total : ∀ a b, cmp a b ≤ 0 ∨ cmp b a ≤ 0)
    (trans : ∀ a b c, cmp a b ≤ 0 → cmp b c ≤ 0 → cmp a c ≤ 0) (a : α) (l : List α)
    (h : l.Pairwise (fun x y => cmp x y ≤ 0)) :
    (insertSorted cmp a l).Pairwise (fun x y => cmp x y ≤ 0) := by
  induction l with
  | nil => simp [insertSorted]
  | cons b l ih =>
    rw [List.pairwise_cons] at h
    unfold insertSorted
    split_ifs with hab
    · refine List.Pairwise.cons ?_ (List.Pairwise.cons h.1 h.2)
      intro y hy
      rcases List.mem_cons.1 hy with rfl | hy
      · exact hab
      · exact trans a b y hab (h.1 y hy)
    · refine List.Pairwise.cons ?_ (ih h.2)
      intro y hy
      rcases (mem_insertSorted cmp a y l).1 hy with rfl | hy
      · rcases total y b with h1 | h1
        · exact absurd h1 hab
        · exact h1
      · exact h.1 y hy

/-- The result of `sort` is ordered by a comparator that is a total preorder. -/
theorem sort_pairwise {α : Type} (cmp : α → α → Int)
    (total : ∀ a b, cmp a b ≤ 0 ∨ cmp b a ≤ 0)
    (trans : ∀ a b c, cmp a b ≤ 0 → cmp b c ≤ 0 → cmp a c ≤ 0) (l : List α) :
    (sort cmp l).Pairwise (fun x y => cmp x y ≤ 0) := by
  induction l with
  | nil => simp [sort]
  | cons a l ih => exact insertSorted_pairwise cmp total trans a _ ih

theorem pinCompare_le_iff (a b : Note) :
    pinCompare a b ≤ 0 ↔ ¬ (a.is_pinned = false ∧ b.is_pinned = true) := by
  unfold pinCompare
  cases a.is_pinned <;> cases b.is_pinned <;> simp

theorem notesOrder_le_iff (a b : Note) :
    notesOrder a b ≤ 0 ↔
      (a.is_pinned = true ∧ b.is_pinned = false) ∨
        (a.is_pinned = b.is_pinned ∧ b.updated_at.rank ≤ a.updated_at.rank) := by
  unfold notesOrder
  cases a.is_pinned <;> cases b.is_pinned <;> simp

theorem sort_pinCompare_pinnedFirst (l : List Note) : pinnedFirst (sort pinCompare l) := by
  have h := sort_pairwise pinCompare
    (by
      intro a b
      rw [pinCompare_le_iff, pinCompare_le_iff]
      cases a.is_pinned <;> cases b.is_pinned <;> simp)
    (by
      intro a b c
      rw [pinCompare_le_iff, pinCompare_le_iff, pinCompare_le_iff]
      cases a.is_pinned <;> cases b.is_pinned <;> cases c.is_pinned <;> simp)
    l
  exact h.imp (fun hab => (pinCompare_le_iff _ _).1 hab)

theorem getNotes_pairwise (rows : List Note) (userId : Nat) :
    (getNotes rows userId).Pairwise (fun a b => notesOrder a b ≤ 0) := by
  apply sort_pairwise
  · intro a b
    rw [notesOrder_le_iff, notesOrder_le_iff]
    cases a.is_pinned <;> cases b.is_pinned <;> simp <;> omega
  · intro a b c
    rw [notesOrder_le_iff, notesOrder_le_iff, notesOrder_le_iff]
    cases a.is_pinned <;> cases b.is_pinned <;> cases c.is_pinned <;> simp <;> omega

/-- The list served by `GET /api/notes` has pinned notes first. -/
theorem getNotes_pinnedFirst (rows : List Note) (userId : Nat) :
    pinnedFirst (getNotes rows userId) := by
  refine (getNotes_pairwise rows userId).imp ?_
  intro a b hab
  rw [notesOrder_le_iff] at hab
  rcases hab with ⟨h1, h2⟩ | ⟨h1, _⟩
  · simp [h1, h2]
  · rw [h1]
    cases b.is_pinned <;> simp

/-- The list served by `GET /api/notes` has later updates first within each pin
status. -/
theorem getNotes_recentFirst (rows : List Note) (userId : Nat) :
    recentFirst (getNotes rows userId) := by
  refine (getNotes_pairwise rows userId).imp ?_
  intro a b hab hpin
  rw [notesOrder_le_iff] at hab
  rcases hab with ⟨h1, h2⟩ | ⟨_, h2⟩
  · rw [h1, h2] at hpin
    exact absurd hpin (by decide)
  · exact h2

theorem splice1_sublist {α : Type} (l : List α) (index : Nat) :
    (splice1 l index).2.Sublist l := by
  unfold splice1
  simp only
  rw [← List.eraseIdx_eq_take_drop_succ]
  exact List.eraseIdx_sublist l index

/-- The notes `deleteNote` leaves are a sublist of the notes before. -/
theorem deleteNote_sublist (st : Notes) (id : Nat) (confirmed : Bool) (resp : Except String Unit) :
    (deleteNote st id confirmed resp).notes.Sublist st.notes := by
  unfold deleteNote
  cases confirmed with
  | false => simp
  | true =>
    cases resp with
    | error e => simp [Notes.showToast]
    | ok u =>
      simp only [Bool.not_true, Bool.false_eq_true, if_false, Notes.showToast]
      cases findIndex (fun n => n.id == id) st.notes with
      | none => exact List.Sublist.refl _
      | some index => exact splice1_sublist _ _

theorem findIndex_getElem? {α : Type} (p : α → Bool) :
    ∀ (l : List α) (i : Nat), findIndex p l = some i → ∃ x, l[i]? = some x ∧ p x = true := by
  intro l
  induction l with
  | nil => intro i h; simp [findIndex] at h
  | cons a l ih =>
    intro i h
    unfold findIndex at h
    split_ifs at h with ha
    · simp only [Option.some.injEq] at h
      subst h
      exact ⟨a, by simp, ha⟩
    · cases hf : findIndex p l with
      | none => simp [hf] at h
      | some j =>
        simp only [hf, Option.map_some', Option.some.injEq] at h
        subst h
        obtain ⟨x, hx, hpx⟩ := ih j hf
        exact ⟨x, by simpa using hx, hpx⟩

theorem set_eq_self_of_getElem? {β : Type} (l : List β) (i : Nat) (b : β)
    (h : ∀ x, l[i]? = some x → x = b) : l.set i b = l := by
  apply List.ext_getElem?
  intro j
  rw [List.getElem?_set]
  split_ifs with hij hlen
  · subst hij
    have hx : l[i]? = some l[i] := List.getElem?_eq_getElem hlen
    rw [hx, h _ hx]
  · subst hij
    exact (List.getElem?_eq_none (by omega)).symm
  · rfl

theorem insertSorted_pinCompare_unpinned (a : Note) (ha : a.is_pinned = false) :
    ∀ (P U : List Note), (∀ n ∈ P, n.is_pinned = true) → (∀ n ∈ U, n.is_pinned = false) →
      insertSorted pinCompare a (P ++ U) = P ++ a :: U := by
  intro P
  induction P with
  | nil =>
    intro U _ hU
    cases U with
    | nil => rfl
    | cons b U =>
      have hb : b.is_pinned = false := hU b (by simp)
      simp [insertSorted, pinCompare, ha, hb]
  | cons p P ih =>
    intro U hP hU
    have hp : p.is_pinned = true := hP p (by simp)
    have := ih U (fun n hn => hP n (by simp [hn])) hU
    simp [insertSorted, pinCompare, ha, hp, this]

theorem insertSorted_pinCompare_pinned (a : Note) (ha : a.is_pinned = true) (l : List Note) :
    insertSorted pinCompare a l = a :: l := by
  cases l with
  | nil => rfl
  | cons b l =>
    have : pinCompare a b ≤ 0 := by
      unfold pinCompare
      cases b.is_pinned <;> simp [ha]
    simp [insertSorted, this]

/-- Sorting with the comparator of `togglePin` is the stable partition into the
pinned notes followed by the unpinned notes. -/
theorem sort_pinCompare_eq (l : List Note) :
    sort pinCompare l =
      l.filter (fun n => n.is_pinned) ++ l.filter (fun n => !n.is_pinned) := by
  induction l with
  | nil => rfl
  | cons a l ih =>
    unfold sort
    rw [ih]
    cases ha : a.is_pinned with
    | true =>
      rw [insertSorted_pinCompare_pinned a ha]
      simp [ha]
    | false =>
      rw [insertSorted_pinCompare_unpinned a ha _ _ (by simp) (by simp)]
      simp [ha]

/-! ## C9: pinned notes first -/

/-- After `loadNotes` has fetched the list served by `GET /api/notes`, pinned
notes are first. -/
theorem loadNotes_pinnedFirst (st : Notes) (rows : List Note) (userId : Nat) :
    pinnedFirst (loadNotes st (.ok (getNotes rows userId))).notes :=
  getNotes_pinnedFirst rows userId

/-- The function `deleteNote` keeps pinned notes first. -/
theorem deleteNote_pinnedFirst (st : Notes) (id : Nat) (confirmed : Bool)
    (resp : Except String Unit) (h : pinnedFirst st.notes) :
    pinnedFirst (deleteNote st id confirmed resp).notes :=
  List.Pairwise.sublist (deleteNote_sublist st id confirmed resp) h

/-- The function `togglePin` keeps pinned notes first: it sorts the list again. -/
theorem togglePin_pinnedFirst (st : Notes) (id : Nat) (resp : Except String Bool)
    (h : pinnedFirst st.notes) : pinnedFirst (togglePin st id resp).notes := by
  unfold togglePin
  cases resp with
  | error e => exact h
  | ok isPinned =>
    simp only [Notes.showToast]
    cases findIndex (fun n => n.id == id) st.notes with
    | none => exact h
    | some index => exact sort_pinCompare_pinnedFirst _

/-- An edit through the note form keeps pinned notes first when the note the
server returns has the pin status of the listed note it replaces. -/
theorem submitNoteForm_edit_pinnedFirst (st : Notes) (id : Nat) (note : Note)
    (hpin : ∀ n ∈ st.notes, n.id = id → n.is_pinned = note.is_pinned)
    (h : pinnedFirst st.notes) :
    pinnedFirst (submitNoteForm st (some id) (.ok note)).notes := by
  simp only [submitNoteForm, Notes.showToast]
  cases hidx : findIndex (fun n => n.id == id) st.notes with
  | none => exact h
  | some index =>
    simp only
    have key : (st.notes.set index note).map Note.is_pinned = st.notes.map Note.is_pinned := by
      rw [List.map_set]
      apply set_eq_self_of_getElem?
      intro x hx
      obtain ⟨y, hy, hpy⟩ := findIndex_getElem? _ _ _ hidx
      rw [List.getElem?_map, hy] at hx
      simp only [Option.map_some', Option.some.injEq] at hx
      rw [← hx]
      exact (hpin y (List.mem_iff_getElem?.2 ⟨_, hy⟩) (by simpa using hpy))
    have h1 : (st.notes.map Note.is_pinned).Pairwise (fun a b => ¬ (a = false ∧ b = true)) :=
      List.pairwise_map.2 h
    rw [← key] at h1
    exact List.pairwise_map.1 h1

/-- C9, the code at the failing input. The list holds one pinned note and satisfies
the invariant. A note is created through the note form; the server returns it
unpinned and the handler puts it in front of the list: the unpinned note now
precedes the pinned one. The list `GET /api/notes` serves for the same two rows
has the pinned note first. -/
theorem submitNoteForm_create_breaks_pinnedFirst :
    pinnedFirst [sampleNote 1 true 1] ∧
    (submitNoteForm ⟨[sampleNote 1 true 1], []⟩ none (.ok (sampleNote 2 false 2))).notes =
      [sampleNote 2 false 2, sampleNote 1 true 1] ∧
    ¬ pinnedFirst
      (submitNoteForm ⟨[sampleNote 1 true 1], []⟩ none (.ok (sampleNote 2 false 2))).notes ∧
    getNotes [sampleNote 1 true 1, sampleNote 2 false 2] 1 =
      [sampleNote 1 true 1, sampleNote 2 false 2] := by
  refine ⟨?_, rfl, ?_, ?_⟩
  · simp [pinnedFirst]
  · simp [pinnedFirst, submitNoteForm, Notes.showToast, sampleNote]
  · decide

/-! ## C10: later updates first -/

/-- The operations that keep, among notes of equal pin status, later updates first:
`loadNotes` (for the list `GET /api/notes` serves, and when the request fails),
`deleteNote`, and the creation of a note through the note form when the
`updated_at` of the created note is not earlier than that of any listed note. -/
theorem recentFirst_kept (st : Notes) (h : recentFirst st.notes) :
    (∀ (rows : List Note) (userId : Nat),
      recentFirst (loadNotes st (.ok (getNotes rows userId))).notes) ∧
    (∀ err : String, recentFirst (loadNotes st (.error err)).notes) ∧
    (∀ (id : Nat) (confirmed : Bool) (resp : Except String Unit),
      recentFirst (deleteNote st id confirmed resp).notes) ∧
    (∀ note : Note, (∀ n ∈ st.notes, n.updated_at.rank ≤ note.updated_at.rank) →
      recentFirst (submitNoteForm st none (.ok note)).notes) := by
  refine ⟨?_, ?_, ?_, ?_⟩
  · intro rows userId
    exact getNotes_recentFirst rows userId
  · intro err
    exact h
  · intro id confirmed resp
    exact List.Pairwise.sublist (deleteNote_sublist st id confirmed resp) h
  · intro note hnote
    simp only [submitNoteForm, Notes.showToast]
    exact List.Pairwise.cons (fun n hn _ => hnote n hn) h

/-- The sort of `togglePin` orders by pin status only: its result is the pinned
notes followed by the unpinned notes, each group in the order the list had
before. -/
theorem togglePin_groups (st : Notes) (id index : Nat) (isPinned : Bool)
    (hidx : findIndex (fun n => n.id == id) st.notes = some index) :
    (togglePin st id (.ok isPinned)).notes =
      (st.notes.modify (fun note => { note with is_pinned := isPinned }) index).filter
          (fun n => n.is_pinned) ++
        (st.notes.modify (fun note => { note with is_pinned := isPinned }) index).filter
          (fun n => !n.is_pinned) := by
  simp only [togglePin, Notes.showToast, hidx]
  exact sort_pinCompare_eq _

/-- An edit through the note form puts the note the server returns at the index
of the first listed note with the id, and leaves the list alone when there is
none. -/
theorem submitNoteForm_edit_in_place (st : Notes) (id : Nat) (note : Note) :
    (submitNoteForm st (some id) (.ok note)).notes =
      match findIndex (fun n => n.id == id) st.notes with
      | some index => st.notes.set index note
      | none => st.notes := by
  simp only [submitNoteForm, Notes.showToast]

/-- C10, the code at the failing input. The list holds a pinned note updated on
day 1 followed by an unpinned note updated on day 3, so it satisfies both
orderings. Pinning the second note sorts by pin status only and keeps it behind
the first: two pinned notes, the later update last. The list `GET /api/notes`
serves for the same two rows has the later update first. Likewise for an edit:
the list holds two unpinned notes updated on days 3 and 1; the second is edited
on day 5 and the handler puts the returned note at the old index, behind the
note updated on day 3, where `GET /api/notes` serves it first. -/
theorem togglePin_breaks_recentFirst :
    recentFirst [sampleNote 1 true 1, sampleNote 2 false 3] ∧
    pinnedFirst [sampleNote 1 true 1, sampleNote 2 false 3] ∧
    (togglePin ⟨[sampleNote 1 true 1, sampleNote 2 false 3], []⟩ 2 (.ok true)).notes =
      [sampleNote 1 true 1, sampleNote 2 true 3] ∧
    ¬ recentFirst
      (togglePin ⟨[sampleNote 1 true 1, sampleNote 2 false 3], []⟩ 2 (.ok true)).notes ∧
    getNotes [sampleNote 1 true 1, sampleNote 2 true 3] 1 =
      [sampleNote 2 true 3, sampleNote 1 true 1] ∧
    recentFirst [sampleNote 1 false 3, sampleNote 2 false 1] ∧
    (submitNoteForm ⟨[sampleNote 1 false 3, sampleNote 2 false 1], []⟩ (some 2)
      (.ok { sampleNote 2 false 1 with updated_at := ⟨2024, 3, 5, 0, 0, 0, 0⟩ })).notes =
      [sampleNote 1 false 3,
        { sampleNote 2 false 1 with updated_at := ⟨2024, 3, 5, 0, 0, 0, 0⟩ }] ∧
    ¬ recentFirst
      (submitNoteForm ⟨[sampleNote 1 false 3, sampleNote 2 false 1], []⟩ (some 2)
        (.ok { sampleNote 2 false 1 with updated_at := ⟨2024, 3, 5, 0, 0, 0, 0⟩ })).notes ∧
    getNotes [sampleNote 1 false 3,
        { sampleNote 2 false 1 with updated_at := ⟨2024, 3, 5, 0, 0, 0, 0⟩ }] 1 =
      [{ sampleNote 2 false 1 with updated_at := ⟨2024, 3, 5, 0, 0, 0, 0⟩ },
        sampleNote 1 false 3] := by
  refine ⟨?_, ?_, ?_, ?_, ?_, ?_, ?_, ?_, ?_⟩
  · simp [recentFirst, sampleNote]
  · simp [pinnedFirst, sampleNote]
  · decide
  · have h : (togglePin ⟨[sampleNote 1 true 1, sampleNote 2 false 3], []⟩ 2 (.ok true)).notes =
        [sampleNote 1 true 1, sampleNote 2 true 3] := by decide
    rw [h]
    simp [recentFirst, sampleNote, Timestamp.rank]
  · decide
  · simp [recentFirst, sampleNote, Timestamp.rank]
  · decide
  · have h : (submitNoteForm ⟨[sampleNote 1 false 3, sampleNote 2 false 1], []⟩ (some 2)
        (.ok { sampleNote 2 false 1 with updated_at := ⟨2024, 3, 5, 0, 0, 0, 0⟩ })).notes =
        [sampleNote 1 false 3,
          { sampleNote 2 false 1 with updated_at := ⟨2024, 3, 5, 0, 0, 0, 0⟩ }] := by decide
    rw [h]
    simp [recentFirst, sampleNote, Timestamp.rank]
  · decide

/-! ## C11: the columns served by `GET /api/tasks` -/

theorem insertSorted_perm {α : Type} (cmp : α → α → Int) (a : α) (l : List α) :
    (insertSorted cmp a l).Perm (a :: l) := by
  induction l with
  | nil => exact List.Perm.refl _
  | cons b l ih =>
    unfold insertSorted
    split_ifs
    · exact List.Perm.refl _
    · exact (List.Perm.cons b ih).trans (List.Perm.swap a b l)

/-- The function `sort` rearranges its argument. -/
theorem sort_perm {α : Type} (cmp : α → α → Int) (l : List α) : (sort cmp l).Perm l := by
  induction l with
  | nil => exact List.Perm.refl _
  | cons a l ih => exact (insertSorted_perm cmp a _).trans (List.Perm.cons a ih)

theorem tasksOrder_le_iff {κ : Type} [LinearOrder κ] (statusKey : String → κ) (a b : TaskRow) :
    tasksOrder statusKey a b ≤ 0 ↔
      statusKey a.status < statusKey b.status ∨
        (statusKey a.status = statusKey b.status ∧
          (a.position < b.position ∨
            (a.position = b.position ∧ b.created_at.rank ≤ a.created_at.rank))) := by
  unfold tasksOrder
  split_ifs with h1 h2 h3 h4
  · simp [h1]
  · have : statusKey a.status ≠ statusKey b.status := fun h => by rw [h] at h2; exact lt_irrefl _ h2
    simp [h1, this]
  · have : statusKey a.status = statusKey b.status := le_antisymm (not_lt.1 h2) (not_lt.1 h1)
    simp [this, h3]
  · have : statusKey a.status = statusKey b.status := le_antisymm (not_lt.1 h2) (not_lt.1 h1)
    have hne : a.position ≠ b.position := by omega
    have hnlt : ¬ a.position < b.position := h3
    simp [this, hnlt, hne]
  · have : statusKey a.status = statusKey b.status := le_antisymm (not_lt.1 h2) (not_lt.1 h1)
    have hp : a.position = b.position := by omega
    simp [this, hp]

theorem tasksOrder_total {κ : Type} [LinearOrder κ] (statusKey : String → κ) (a b : TaskRow) :
    tasksOrder statusKey a b ≤ 0 ∨ tasksOrder statusKey b a ≤ 0 := by
  rw [tasksOrder_le_iff, tasksOrder_le_iff]
  rcases lt_trichotomy (statusKey a.status) (statusKey b.status) with h | h | h
  · exact Or.inl (Or.inl h)
  · rcases lt_trichotomy a.position b.position with hp | hp | hp
    · exact Or.inl (Or.inr ⟨h, Or.inl hp⟩)
    · rcases le_total b.created_at.rank a.created_at.rank with hr | hr
      · exact Or.inl (Or.inr ⟨h, Or.inr ⟨hp, hr⟩⟩)
      · exact Or.inr (Or.inr ⟨h.symm, Or.inr ⟨hp.symm, hr⟩⟩)
    · exact Or.inr (Or.inr ⟨h.symm, Or.inl hp⟩)
  · exact Or.inr (Or.inl h)

theorem tasksOrder_trans {κ : Type} [LinearOrder κ] (statusKey : String → κ) (a b c : TaskRow)
    (hab : tasksOrder statusKey a b ≤ 0) (hbc : tasksOrder statusKey b c ≤ 0) :
    tasksOrder statusKey a c ≤ 0 := by
  rw [tasksOrder_le_iff] at hab hbc ⊢
  rcases hab with h1 | ⟨h1, h1p⟩
  · rcases hbc with h2 | ⟨h2, _⟩
    · exact Or.inl (lt_trans h1 h2)
    · exact Or.inl (h2 ▸ h1)
  · rcases hbc with h2 | ⟨h2, h2p⟩
    · exact Or.inl (h1 ▸ h2)
    · refine Or.inr ⟨h1.trans h2, ?_⟩
      omega

theorem mapIndexed_map_id (l : List Task) :
    ∀ start, (mapIndexed createTaskCard start l).map TaskCard.id = l.map Task.id := by
  induction l with
  | nil => intro start; rfl
  | cons a l ih =>
    intro start
    simp only [mapIndexed, List.map_cons, ih]
    rfl

theorem mapIndexed_length {α β : Type} (f : α → Nat → β) (l : List α) :
    ∀ start, (mapIndexed f start l).length = l.length := by
  induction l with
  | nil => intro start; rfl
  | cons a l ih =>
    intro start
    simp only [mapIndexed, List.length_cons, ih]

/-- The column of `status` served by `GET /api/tasks`, as rows. -/
theorem getTasks_get {κ : Type} [LinearOrder κ] (statusKey : String → κ) (rows : List TaskRow)
    (userId : Nat) (status : Status) :
    (getTasks statusKey rows userId).get status =
      ((sort (tasksOrder statusKey) (rows.filter (fun t => t.user_id == userId))).filter
        (fun t => t.status == status.key)).map (TaskRow.toTask status) := by
  cases status <;> rfl

/-- C11. For every set of task rows and every user, each column that
`GET /api/tasks` returns consists of exactly the rows of the user whose status is
the status of the column, in ascending `position`, rows of equal position with the
most recent `created_at` first. The client renders a column in its list order:
the cards of `renderColumn` are the cards of the tasks of the column, one after
the other, and the count is the length of the column. -/
theorem getTasks_columns {κ : Type} [LinearOrder κ] (statusKey : String → κ)
    (rows : List TaskRow) (userId : Nat) (status : Status) :
    (∃ l : List TaskRow,
      (getTasks statusKey rows userId).get status = l.map (TaskRow.toTask status) ∧
      l.Perm (rows.filter (fun t => t.user_id == userId && t.status == status.key)) ∧
      l.Pairwise (fun a b => a.position < b.position ∨
        (a.position = b.position ∧ b.created_at.rank ≤ a.created_at.rank))) ∧
    (∀ tasks : Board,
      (renderColumn tasks status).cards = mapIndexed createTaskCard 0 (tasks.get status) ∧
      (renderColumn tasks status).cards.map TaskCard.id = (tasks.get status).map Task.id ∧
      (renderColumn tasks status).count = (tasks.get status).length) := by
  constructor
  · refine ⟨_, getTasks_get statusKey rows userId status, ?_, ?_⟩
    · refine ((sort_perm _ _).filter _).trans ?_
      rw [List.filter_filter]
      apply List.Perm.of_eq
      apply List.filter_congr
      intro t _
      exact Bool.and_comm _ _
    · have hs := sort_pairwise (tasksOrder statusKey) (tasksOrder_total statusKey)
        (tasksOrder_trans statusKey) (rows.filter (fun t => t.user_id == userId))
      have hf := List.Pairwise.sublist (List.filter_sublist
        (sort (tasksOrder statusKey) (rows.filter (fun t => t.user_id == userId)))
        (p := fun t => t.status == status.key)) hs
      refine (List.Pairwise.and_mem.1 hf).imp ?_
      rintro a b ⟨ha, hb, hab⟩
      have hsa : a.status = status.key := by simpa using (List.mem_filter.1 ha).2
      have hsb : b.status = status.key := by simpa using (List.mem_filter.1 hb).2
      rw [tasksOrder_le_iff, hsa, hsb] at hab
      rcases hab with h | ⟨_, h⟩
      · exact absurd h (lt_irrefl _)
      · exact h
  · intro tasks
    exact ⟨rfl, mapIndexed_map_id _ 0, rfl⟩

/-! ## C12: the position of the moved task -/

/-- C12, counterexample. The task dragged from `todo` has position 5 and the
destination column `in_progress` is empty, so the next position value of the
destination is 1; after the move the task is in `in_progress` with position 5. -/
theorem handleDrop_position_counterexample :
    (optimisticUpdate ⟨[sampleTask 7 .todo 5], [], []⟩ 7 .todo .in_progress).get .in_progress =
      [sampleTask 7 .in_progress 5] ∧
    positions ((optimisticUpdate ⟨[sampleTask 7 .todo 5], [], []⟩ 7 .todo
      .in_progress).get .in_progress) = [5] ∧
    maxPosition (positions (Board.get ⟨[sampleTask 7 .todo 5], [], []⟩ .in_progress)) + 1 = 1 := by
  refine ⟨by decide, by decide, by decide⟩

/-- C12, amended. After a move via `handleDrop` the moved task has, in local
state, the position it had before the move: the handler sets its status and
appends it to the destination column and assigns no position. It is gone from
the source column (ids unique there). So a task with id 7 and position 1 dragged
from `todo` leaves `todo` without id 7 and is in the destination column with
id 7 and position 1. -/
theorem handleDrop_position_amended (tasks : Board) (taskId : Nat)
    (oldStatus newStatus : Status) (hne : oldStatus ≠ newStatus)
    (hmem : ∃ t ∈ tasks.get oldStatus, t.id = taskId)
    (hnodup : ((tasks.get oldStatus).map Task.id).Nodup) :
    (∃ task ∈ tasks.get oldStatus, task.id = taskId ∧
      (optimisticUpdate tasks taskId oldStatus newStatus).get newStatus =
        tasks.get newStatus ++ [{ task with status := newStatus }] ∧
      ({ task with status := newStatus } : Task).position = task.position) ∧
    (∀ t ∈ (optimisticUpdate tasks taskId oldStatus newStatus).get oldStatus, t.id ≠ taskId) ∧
    ((∀ t ∈ tasks.get oldStatus, t.id = taskId → t.position = 1) →
      ∃ t ∈ (optimisticUpdate tasks taskId oldStatus newStatus).get newStatus,
        t.id = taskId ∧ t.status = newStatus ∧ t.position = 1) := by
  obtain ⟨pre, task, post, hl, hid, _, hupd⟩ :=
    optimisticUpdate_found tasks taskId oldStatus newStatus hne hmem
  have hget : (optimisticUpdate tasks taskId oldStatus newStatus).get newStatus =
      tasks.get newStatus ++ [{ task with status := newStatus }] := by
    rw [hupd, Board.get_set_same]
  have htask : task ∈ tasks.get oldStatus := by simp [hl]
  refine ⟨⟨task, htask, hid, hget, rfl⟩, ?_, ?_⟩
  · rw [hupd, Board.get_set_other _ _ _ _ (Ne.symm hne), Board.get_set_same]
    intro t ht hcontra
    rw [hl] at hnodup
    simp only [List.map_append, List.map_cons] at hnodup
    have hnd := List.nodup_middle.1 hnodup
    have hnotin : task.id ∉ (pre ++ post).map Task.id := by
      simpa using (List.nodup_cons.1 hnd).1
    apply hnotin
    rw [hid, ← hcontra]
    exact List.mem_map_of_mem _ ht
  · intro hpos
    refine ⟨{ task with status := newStatus }, ?_, hid, rfl, hpos task htask hid⟩
    rw [hget]
    simp

/-- Witness for the amended C12: the task with id 7 and position 1 is dragged from
`todo` to `in_progress`. -/
theorem handleDrop_position_amended_witness :
    (∀ t ∈ (optimisticUpdate ⟨[sampleTask 7 .todo 1, sampleTask 8 .todo 2], [], []⟩ 7 .todo
        .in_progress).get .todo, t.id ≠ 7) ∧
    ∃ t ∈ (optimisticUpdate ⟨[sampleTask 7 .todo 1, sampleTask 8 .todo 2], [], []⟩ 7 .todo
        .in_progress).get .in_progress, t.id = 7 ∧ t.status = .in_progress ∧ t.position = 1 := by
  have h := handleDrop_position_amended ⟨[sampleTask 7 .todo 1, sampleTask 8 .todo 2], [], []⟩
    7 .todo .in_progress (by decide) ⟨sampleTask 7 .todo 1, by simp [Board.get], rfl⟩
    (by decide)
  refine ⟨h.2.1, h.2.2 ?_⟩
  intro t ht hid
  simp only [Board.get, List.mem_cons, List.mem_singleton, List.not_mem_nil, or_false] at ht
  rcases ht with rfl | rfl
  · rfl
  · exact absurd hid (by decide)

/-! ## C13: a drop on the column of the card -/

/-- C13. For every state of the board, a drop whose source status equals its
destination status changes nothing: `handleDrop` returns the state it was given,
with the three columns, the toasts and the list of issued requests as before, so
no reorder request is sent. -/
theorem handleDrop_same_status (st : Kanban) (taskId : Nat) (status : Status)
    (reorderResp : Except String Unit) (reloadResp : Except String Board) :
    handleDrop st (some ⟨taskId, status⟩) status reorderResp reloadResp = st ∧
    (handleDrop st (some ⟨taskId, status⟩) status reorderResp reloadResp).tasks = st.tasks ∧
    (handleDrop st (some ⟨taskId, status⟩) status reorderResp reloadResp).requests =
      st.requests := by
  have h : handleDrop st (some ⟨taskId, status⟩) status reorderResp reloadResp = st := by
    simp [handleDrop]
  exact ⟨h, by rw [h], by rw [h]⟩

/-! ## C14: `loadTasks` -/

/-- C14. The function `loadTasks` replaces or keeps: when the request succeeds the
local tasks are exactly the fetched grouping and no toast is shown; when it fails
the local tasks are the ones before the call and the toast `Failed to load tasks`
is shown. In both cases one request for `/api/tasks` is issued. -/
theorem loadTasks_replace_or_keep (st : Kanban) :
    (∀ data : Board,
      (loadTasks st (.ok data)).tasks = data ∧
      (loadTasks st (.ok data)).toasts = st.toasts ∧
      (loadTasks st (.ok data)).requests = st.requests ++ [.getTasks]) ∧
    (∀ err : String,
      (loadTasks st (.error err)).tasks = st.tasks ∧
      (loadTasks st (.error err)).toasts = st.toasts ++ [⟨"Failed to load tasks", "error"⟩] ∧
      (loadTasks st (.error err)).requests = st.requests ++ [.getTasks]) := by
  constructor
  · intro data
    exact ⟨rfl, rfl, rfl⟩
  · intro err
    exact ⟨rfl, rfl, rfl⟩

/-! ## C15: month navigation with a failed fetch -/

theorem loadCalendarData_failed (st : Calendar) (eventsResp : Except String (List CalendarEvent))
    (tasksResp : Except String Board) (notesResp : Except String (List Note))
    (hfail : (∃ err, eventsResp = .error err) ∨ (∃ err, tasksResp = .error err) ∨
      (∃ err, notesResp = .error err)) :
    loadCalendarData st eventsResp tasksResp notesResp =
      { st with toasts := st.toasts ++ [⟨"Failed to load calendar data", "error"⟩] } := by
  rcases hfail with ⟨err, rfl⟩ | ⟨err, rfl⟩ | ⟨err, rfl⟩
  · rfl
  · cases eventsResp <;> rfl
  · cases eventsResp <;> cases tasksResp <;> rfl

/-- C15, counterexample. The calendar views March 2024 and holds an event of March.
The user goes to the next month and the events request fails: the collections are
those of March, but the cursor is in April 2024, not in the month that was last
rendered. The same happens with `prevMonth`, which leaves the cursor in February. -/
theorem nextMonth_failed_counterexample :
    (nextMonth
      (sampleCalendar [sampleEvent 1 ⟨2024, 3, 5, 9, 0, 0, 0⟩ ⟨2024, 3, 5, 10, 0, 0, 0⟩] [] [])
      (.error "Failed to get events") (.ok ⟨[], [], []⟩) (.ok [])).currentDate = ⟨2024, 3, 1⟩ ∧
    (nextMonth
      (sampleCalendar [sampleEvent 1 ⟨2024, 3, 5, 9, 0, 0, 0⟩ ⟨2024, 3, 5, 10, 0, 0, 0⟩] [] [])
      (.error "Failed to get events") (.ok ⟨[], [], []⟩) (.ok [])).currentDate ≠
      (sampleCalendar [sampleEvent 1 ⟨2024, 3, 5, 9, 0, 0, 0⟩ ⟨2024, 3, 5, 10, 0, 0, 0⟩]
        [] []).currentDate ∧
    (nextMonth
      (sampleCalendar [sampleEvent 1 ⟨2024, 3, 5, 9, 0, 0, 0⟩ ⟨2024, 3, 5, 10, 0, 0, 0⟩] [] [])
      (.error "Failed to get events") (.ok ⟨[], [], []⟩) (.ok [])).events =
      [sampleEvent 1 ⟨2024, 3, 5, 9, 0, 0, 0⟩ ⟨2024, 3, 5, 10, 0, 0, 0⟩] ∧
    (prevMonth
      (sampleCalendar [sampleEvent 1 ⟨2024, 3, 5, 9, 0, 0, 0⟩ ⟨2024, 3, 5, 10, 0, 0, 0⟩] [] [])
      (.error "Failed to get events") (.ok ⟨[], [], []⟩) (.ok [])).currentDate = ⟨2024, 1, 1⟩ := by
  refine ⟨by decide, by decide, by decide, by decide⟩

/-- C15, amended. After a month navigation (`prevMonth` or `nextMonth`) in which any
of the three fetches fails, the events, tasks and notes collections are those
before the navigation and one toast `Failed to load calendar data` is shown, while
the viewed-month cursor is where the navigation has moved it: what `setMonth`
yields for the month before or after. -/
theorem month_navigation_failed_amended (st : Calendar)
    (eventsResp : Except String (List CalendarEvent)) (tasksResp : Except String Board)
    (notesResp : Except String (List Note))
    (hfail : (∃ err, eventsResp = .error err) ∨ (∃ err, tasksResp = .error err) ∨
      (∃ err, notesResp = .error err)) :
    ((nextMonth st eventsResp tasksResp notesResp).events = st.events ∧
      (nextMonth st eventsResp tasksResp notesResp).calendarTasks = st.calendarTasks ∧
      (nextMonth st eventsResp tasksResp notesResp).calendarNotes = st.calendarNotes ∧
      (nextMonth st eventsResp tasksResp notesResp).toasts =
        st.toasts ++ [⟨"Failed to load calendar data", "error"⟩] ∧
      (nextMonth st eventsResp tasksResp notesResp).currentDate =
        st.currentDate.setMonth ((st.currentDate.month : Int) + 1)) ∧
    ((prevMonth st eventsResp tasksResp notesResp).events = st.events ∧
      (prevMonth st eventsResp tasksResp notesResp).calendarTasks = st.calendarTasks ∧
      (prevMonth st eventsResp tasksResp notesResp).calendarNotes = st.calendarNotes ∧
      (prevMonth st eventsResp tasksResp notesResp).toasts =
        st.toasts ++ [⟨"Failed to load calendar data", "error"⟩] ∧
      (prevMonth st eventsResp tasksResp notesResp).currentDate =
        st.currentDate.setMonth ((st.currentDate.month : Int) - 1)) := by
  unfold nextMonth prevMonth
  rw [loadCalendarData_failed _ _ _ _ hfail, loadCalendarData_failed _ _ _ _ hfail]
  exact ⟨⟨rfl, rfl, rfl, rfl, rfl⟩, ⟨rfl, rfl, rfl, rfl, rfl⟩⟩

/-- Witness for the amended C15: the notes request fails after `nextMonth`. -/
theorem month_navigation_failed_amended_witness :
    (nextMonth (sampleCalendar [] [] [sampleNote 4 false 9]) (.ok []) (.ok ⟨[], [], []⟩)
      (.error "Failed to get notes")).calendarNotes = [sampleNote 4 false 9] ∧
    (nextMonth (sampleCalendar [] [] [sampleNote 4 false 9]) (.ok []) (.ok ⟨[], [], []⟩)
      (.error "Failed to get notes")).currentDate =
      (sampleCalendar [] [] [sampleNote 4 false 9]).currentDate.setMonth (2 + 1) := by
  have h := (month_navigation_failed_amended (sampleCalendar [] [] [sampleNote 4 false 9])
    (.ok []) (.ok ⟨[], [], []⟩) (.error "Failed to get notes")
    (Or.inr (Or.inr ⟨_, rfl⟩))).1
  exact ⟨h.2.2.1, h.2.2.2.2⟩

/-! ## C16: start and end of stored events -/

/-- The route `POST /api/calendar` keeps every stored event ordered: it checks the
times before it inserts. -/
theorem postCalendar_eventsOrdered (db : Store) (userId : Nat) (body : EventBody)
    (h : db.eventsOrdered) : (postCalendar db userId body).2.eventsOrdered := by
  unfold postCalendar
  split
  · split_ifs with hlt
    · exact h
    · intro e he
      simp only [List.mem_append, List.mem_singleton] at he
      rcases he with he | rfl
      · exact h e he
      · exact Nat.le_of_not_lt hlt
  · exact h

/-- The route `DELETE /api/calendar/:id` keeps every stored event ordered. -/
theorem deleteCalendarId_eventsOrdered (db : Store) (userId id : Nat)
    (h : db.eventsOrdered) : (deleteCalendarId db userId id).2.eventsOrdered := by
  unfold deleteCalendarId
  simp only
  split_ifs
  · exact h
  · intro e he
    exact h e (List.mem_filter.1 he).1

/-- C16, the code at the failing input. The store holds one event of user 1, from
2024-03-05 09:00 to 10:00. The user sends `PUT /api/calendar/1` with only `endTime`,
2024-03-01 00:00. The route answers 200 and stores the end before the start. The
route `POST /api/calendar` rejects the same pair of times with status 400. -/
theorem putCalendarId_breaks_eventsOrdered :
    (sampleStore [] []
      [sampleEventRow 1 1 ⟨2024, 3, 5, 9, 0, 0, 0⟩ ⟨2024, 3, 5, 10, 0, 0, 0⟩]).eventsOrdered ∧
    (putCalendarId
      (sampleStore [] [] [sampleEventRow 1 1 ⟨2024, 3, 5, 9, 0, 0, 0⟩ ⟨2024, 3, 5, 10, 0, 0, 0⟩])
      1 1 ⟨none, none, none, some ⟨2024, 3, 1, 0, 0, 0, 0⟩, none, none⟩).1.status = 200 ∧
    (putCalendarId
      (sampleStore [] [] [sampleEventRow 1 1 ⟨2024, 3, 5, 9, 0, 0, 0⟩ ⟨2024, 3, 5, 10, 0, 0, 0⟩])
      1 1 ⟨none, none, none, some ⟨2024, 3, 1, 0, 0, 0, 0⟩, none, none⟩).2.calendar_events =
      [sampleEventRow 1 1 ⟨2024, 3, 5, 9, 0, 0, 0⟩ ⟨2024, 3, 1, 0, 0, 0, 0⟩] ∧
    ¬ (putCalendarId
      (sampleStore [] [] [sampleEventRow 1 1 ⟨2024, 3, 5, 9, 0, 0, 0⟩ ⟨2024, 3, 5, 10, 0, 0, 0⟩])
      1 1 ⟨none, none, none, some ⟨2024, 3, 1, 0, 0, 0, 0⟩, none, none⟩).2.eventsOrdered ∧
    (postCalendar
      (sampleStore [] [] [sampleEventRow 1 1 ⟨2024, 3, 5, 9, 0, 0, 0⟩ ⟨2024, 3, 5, 10, 0, 0, 0⟩])
      1 ⟨some "event", none, some ⟨2024, 3, 5, 9, 0, 0, 0⟩, some ⟨2024, 3, 1, 0, 0, 0, 0⟩,
        none, none⟩).1.status = 400 := by
  refine ⟨?_, by decide, by decide, ?_, by decide⟩
  · intro e he
    simp only [sampleStore, List.mem_singleton] at he
    subst he
    decide
  · intro h
    have := h (sampleEventRow 1 1 ⟨2024, 3, 5, 9, 0, 0, 0⟩ ⟨2024, 3, 1, 0, 0, 0, 0⟩) (by decide)
    exact absurd this (by decide)

/-! ## C17: rows of other users -/

theorem filter_eq_nil_of_any_false {α : Type} (p : α → Bool) (l : List α)
    (h : l.any p = false) : l.filter p = [] := by
  rw [List.filter_eq_nil_iff]
  intro a ha hp
  have := List.any_eq_true.2 ⟨a, ha, hp⟩
  rw [h] at this
  exact absurd this (by decide)

/-- With unique keys, a row of the user with the key `id` makes every row with that
key a row of the user. -/
theorem owned_of_existing {α : Type} (key owner : α → Nat) (userId id : Nat) (rows : List α)
    (hnd : (rows.map key).Nodup)
    (hex : rows.filter (fun r => key r == id && owner r == userId) ≠ []) :
    ∀ r ∈ rows, key r = id → owner r = userId := by
  obtain ⟨r0, hr0⟩ := List.exists_mem_of_ne_nil _ hex
  rw [List.mem_filter] at hr0
  obtain ⟨hmem0, hp0⟩ := hr0
  simp only [Bool.and_eq_true, beq_iff_eq] at hp0
  intro r hr hid
  have : r = r0 := List.inj_on_of_nodup_map hnd hr hmem0 (by rw [hid, hp0.1])
  rw [this]
  exact hp0.2

/-- An `UPDATE .. WHERE id = ?` that touches only rows of the user and keeps the
owner column leaves the rows of the other users as they are. -/
theorem others_map_update {α : Type} (key owner : α → Nat) (userId id : Nat) (g : α → α)
    (hg : ∀ r, owner (g r) = owner r) (rows : List α)
    (h : ∀ r ∈ rows, key r = id → owner r = userId) :
    (rows.map (fun r => if key r == id then g r else r)).filter
        (fun r => !(owner r == userId)) =
      rows.filter (fun r => !(owner r == userId)) := by
  induction rows with
  | nil => rfl
  | cons a l ih =>
    have ih2 := ih (fun r hr => h r (by simp [hr]))
    by_cases hk : key a = id
    · have ho : owner a = userId := h a (by simp) hk
      simp only [List.map_cons, hk, beq_self_eq_true, if_true]
      rw [List.filter_cons, List.filter_cons]
      simp only [hg, ho, beq_self_eq_true, Bool.not_true, Bool.false_eq_true, if_false]
      simpa [hk] using ih2
    · have hk2 : (key a == id) = false := by simpa using hk
      simp only [List.map_cons, hk2, Bool.false_eq_true, if_false]
      rw [List.filter_cons, List.filter_cons, ih2]

/-- A `DELETE .. WHERE id = ?` that removes only rows of the user leaves the rows
of the other users as they are. -/
theorem others_delete {α : Type} (key owner : α → Nat) (userId id : Nat) (rows : List α)
    (h : ∀ r ∈ rows, key r = id → owner r = userId) :
    (rows.filter (fun r => !(key r == id))).filter (fun r => !(owner r == userId)) =
      rows.filter (fun r => !(owner r == userId)) := by
  rw [List.filter_filter]
  apply List.filter_congr
  intro r hr
  by_cases hk : key r = id
  · have ho : owner r = userId := h r hr hk
    simp [hk, ho]
  · have hk2 : (key r == id) = false := by simpa using hk
    simp [hk2]

/-- An `INSERT` of a row of the user leaves the rows of the other users as they
are. -/
theorem others_insert {α : Type} (owner : α → Nat) (userId : Nat) (rows : List α) (row : α)
    (h : owner row = userId) :
    (rows ++ [row]).filter (fun r => !(owner r == userId)) =
      rows.filter (fun r => !(owner r == userId)) := by
  rw [List.filter_append]
  simp [h]

theorem putTasksId_others (db : Store) (userId id : Nat) (body : TaskBody)
    (h : (db.tasks.map TaskRow.id).Nodup) :
    (putTasksId db userId id body).2.rowsOfOthers userId = db.rowsOfOthers userId := by
  unfold putTasksId
  simp only
  split_ifs with h1 h2
  · rfl
  · rfl
  · have hown := owned_of_existing TaskRow.id TaskRow.user_id userId id db.tasks h
      (fun hnil => h1 (by rw [hnil]; rfl))
    unfold Store.rowsOfOthers
    simp only
    rw [others_map_update TaskRow.id TaskRow.user_id userId id body.apply (fun _ => rfl)
      db.tasks hown]

theorem putTasksReorderId_others (db : Store) (userId id : Nat) (status : Option String)
    (position : Option Int) (h : (db.tasks.map TaskRow.id).Nodup) :
    (putTasksReorderId db userId id status position).2.rowsOfOthers userId =
      db.rowsOfOthers userId := by
  unfold putTasksReorderId
  simp only
  split_ifs with h1
  · rfl
  · have hown := owned_of_existing TaskRow.id TaskRow.user_id userId id db.tasks h
      (fun hnil => h1 (by rw [hnil]; rfl))
    cases status with
    | none => rfl
    | some s =>
      cases position with
      | none => rfl
      | some p =>
        unfold Store.rowsOfOthers
        simp only
        rw [others_map_update TaskRow.id TaskRow.user_id userId id
          (fun t => { t with status := s, position := p }) (fun _ => rfl) db.tasks hown]

theorem deleteTasksId_others (db : Store) (userId id : Nat)
    (h : (db.tasks.map TaskRow.id).Nodup) :
    (deleteTasksId db userId id).2.rowsOfOthers userId = db.rowsOfOthers userId := by
  unfold deleteTasksId
  simp only
  split_ifs with h1
  · rfl
  · have hown := owned_of_existing TaskRow.id TaskRow.user_id userId id db.tasks h
      (fun hnil => h1 (by rw [hnil]; rfl))
    unfold Store.rowsOfOthers
    simp only
    rw [others_delete TaskRow.id TaskRow.user_id userId id db.tasks hown]

theorem postTasks_others (db : Store) (now : Timestamp) (userId : Nat) (body : TaskBody) :
    (postTasks db now userId body).2.rowsOfOthers userId = db.rowsOfOthers userId := by
  unfold postTasks
  split
  · rfl
  · unfold Store.rowsOfOthers
    simp only
    rw [others_insert TaskRow.user_id userId db.tasks _ rfl]

theorem putNotesId_others (db : Store) (now : Timestamp) (userId id : Nat) (body : NoteBody)
    (h : (db.notes.map Note.id).Nodup) :
    (putNotesId db now userId id body).2.rowsOfOthers userId = db.rowsOfOthers userId := by
  unfold putNotesId
  simp only
  split_ifs with h1 h2
  · rfl
  · rfl
  · have hown := owned_of_existing Note.id Note.user_id userId id db.notes h
      (fun hnil => h1 (by rw [hnil]; rfl))
    unfold Store.rowsOfOthers
    simp only
    rw [others_map_update Note.id Note.user_id userId id (body.apply now) (fun _ => rfl)
      db.notes hown]

theorem patchNotesIdPin_others (db : Store) (now : Timestamp) (userId id : Nat)
    (h : (db.notes.map Note.id).Nodup) :
    (patchNotesIdPin db now userId id).2.rowsOfOthers userId = db.rowsOfOthers userId := by
  unfold patchNotesIdPin
  simp only
  cases hex : db.notes.filter (fun n => n.id == id && n.user_id == userId) with
  | nil => rfl
  | cons first rest =>
    have hown := owned_of_existing Note.id Note.user_id userId id db.notes h
      (fun hnil => by rw [hnil] at hex; exact absurd hex (by simp))
    unfold Store.rowsOfOthers
    simp only
    rw [others_map_update Note.id Note.user_id userId id
      (fun n => { n with is_pinned := !first.is_pinned, updated_at := now }) (fun _ => rfl)
      db.notes hown]

theorem deleteNotesId_others (db : Store) (userId id : Nat)
    (h : (db.notes.map Note.id).Nodup) :
    (deleteNotesId db userId id).2.rowsOfOthers userId = db.rowsOfOthers userId := by
  unfold deleteNotesId
  simp only
  split_ifs with h1
  · rfl
  · have hown := owned_of_existing Note.id Note.user_id userId id db.notes h
      (fun hnil => h1 (by rw [hnil]; rfl))
    unfold Store.rowsOfOthers
    simp only
    rw [others_delete Note.id Note.user_id userId id db.notes hown]

theorem postNotes_others (db : Store) (now : Timestamp) (userId : Nat) (body : NoteBody) :
    (postNotes db now userId body).2.rowsOfOthers userId = db.rowsOfOthers userId := by
  unfold postNotes
  split
  · rfl
  · unfold Store.rowsOfOthers
    simp only
    rw [others_insert Note.user_id userId db.notes _ rfl]

theorem putCalendarId_others (db : Store) (userId id : Nat) (body : EventBody)
    (h : (db.calendar_events.map (fun e => e.id)).Nodup) :
    (putCalendarId db userId id body).2.rowsOfOthers userId = db.rowsOfOthers userId := by
  unfold putCalendarId
  simp only
  split_ifs with h1 h2
  · rfl
  · rfl
  · have hown := owned_of_existing (fun e : EventRow => e.id) EventRow.user_id userId id
      db.calendar_events h (fun hnil => h1 (by rw [hnil]; rfl))
    unfold Store.rowsOfOthers
    simp only
    rw [others_map_update (fun e : EventRow => e.id) EventRow.user_id userId id body.apply
      (fun _ => rfl) db.calendar_events hown]

theorem deleteCalendarId_others (db : Store) (userId id : Nat)
    (h : (db.calendar_events.map (fun e => e.id)).Nodup) :
    (deleteCalendarId db userId id).2.rowsOfOthers userId = db.rowsOfOthers userId := by
  unfold deleteCalendarId
  simp only
  split_ifs with h1
  · rfl
  · have hown := owned_of_existing (fun e : EventRow => e.id) EventRow.user_id userId id
      db.calendar_events h (fun hnil => h1 (by rw [hnil]; rfl))
    unfold Store.rowsOfOthers
    simp only
    rw [others_delete (fun e : EventRow => e.id) EventRow.user_id userId id
      db.calendar_events hown]

theorem postCalendar_others (db : Store) (userId : Nat) (body : EventBody) :
    (postCalendar db userId body).2.rowsOfOthers userId = db.rowsOfOthers userId := by
  unfold postCalendar
  split
  · split_ifs
    · rfl
    · unfold Store.rowsOfOthers
      simp only
      rw [others_insert EventRow.user_id userId db.calendar_events _ rfl]
  · rfl

/-- C17. For every user and every update, reorder, pin or delete request of that
user for a task, note or event id that is absent from the table or belongs to
another user, the route answers 404 and the store is the one before. Hence, and
because a request for an id of the user touches only rows with that id, no
request of a user changes or removes a row of another user (row ids unique within
each table). -/
theorem foreign_rows_protected (db : Store) (now : Timestamp) (userId : Nat) (call : ApiCall) :
    (∀ (table : Table) (id : Nat), call.target? = some (table, id) →
      db.owns table userId id = false →
      (handle db now userId call).1.status = 404 ∧ (handle db now userId call).2 = db) ∧
    (db.UniqueIds →
      (handle db now userId call).2.rowsOfOthers userId = db.rowsOfOthers userId) := by
  constructor
  · intro table id htarget hown
    cases call with
    | postTasks body => simp [ApiCall.target?] at htarget
    | postNotes body => simp [ApiCall.target?] at htarget
    | postCalendar body => simp [ApiCall.target?] at htarget
    | putTasksId id2 body =>
      simp only [ApiCall.target?, Option.some.injEq, Prod.mk.injEq] at htarget
      obtain ⟨rfl, rfl⟩ := htarget
      have := filter_eq_nil_of_any_false _ _ hown
      simp [handle, putTasksId, this]
    | putTasksReorderId id2 status position =>
      simp only [ApiCall.target?, Option.some.injEq, Prod.mk.injEq] at htarget
      obtain ⟨rfl, rfl⟩ := htarget
      have := filter_eq_nil_of_any_false _ _ hown
      simp [handle, putTasksReorderId, this]
    | deleteTasksId id2 =>
      simp only [ApiCall.target?, Option.some.injEq, Prod.mk.injEq] at htarget
      obtain ⟨rfl, rfl⟩ := htarget
      have := filter_eq_nil_of_any_false _ _ hown
      simp [handle, deleteTasksId, this]
    | putNotesId id2 body =>
      simp only [ApiCall.target?, Option.some.injEq, Prod.mk.injEq] at htarget
      obtain ⟨rfl, rfl⟩ := htarget
      have := filter_eq_nil_of_any_false _ _ hown
      simp [handle, putNotesId, this]
    | patchNotesIdPin id2 =>
      simp only [ApiCall.target?, Option.some.injEq, Prod.mk.injEq] at htarget
      obtain ⟨rfl, rfl⟩ := htarget
      have := filter_eq_nil_of_any_false _ _ hown
      simp [handle, patchNotesIdPin, this]
    | deleteNotesId id2 =>
      simp only [ApiCall.target?, Option.some.injEq, Prod.mk.injEq] at htarget
      obtain ⟨rfl, rfl⟩ := htarget
      have := filter_eq_nil_of_any_false _ _ hown
      simp [handle, deleteNotesId, this]
    | putCalendarId id2 body =>
      simp only [ApiCall.target?, Option.some.injEq, Prod.mk.injEq] at htarget
      obtain ⟨rfl, rfl⟩ := htarget
      have := filter_eq_nil_of_any_false _ _ hown
      simp [handle, putCalendarId, this]
    | deleteCalendarId id2 =>
      simp only [ApiCall.target?, Option.some.injEq, Prod.mk.injEq] at htarget
      obtain ⟨rfl, rfl⟩ := htarget
      have := filter_eq_nil_of_any_false _ _ hown
      simp [handle, deleteCalendarId, this]
  · rintro ⟨ht, hn, he⟩
    cases call with
    | postTasks body => exact postTasks_others db now userId body
    | putTasksId id body => exact putTasksId_others db userId id body ht
    | putTasksReorderId id status position =>
      exact putTasksReorderId_others db userId id status position ht
    | deleteTasksId id => exact deleteTasksId_others db userId id ht
    | postNotes body => exact postNotes_others db now userId body
    | putNotesId id body => exact putNotesId_others db now userId id body hn
    | patchNotesIdPin id => exact patchNotesIdPin_others db now userId id hn
    | deleteNotesId id => exact deleteNotesId_others db userId id hn
    | postCalendar body => exact postCalendar_others db userId body
    | putCalendarId id body => exact putCalendarId_others db userId id body he
    | deleteCalendarId id => exact deleteCalendarId_others db userId id he

/-- Witness for C17: user 2 asks to delete task 5 of user 1 and to reorder it. -/
theorem foreign_rows_protected_witness :
    ((handle (sampleStore [sampleTaskRow 5 1 "todo" 1] [] []) ⟨2024, 3, 1, 0, 0, 0, 0⟩ 2
        (.deleteTasksId 5)).1.status = 404 ∧
      (handle (sampleStore [sampleTaskRow 5 1 "todo" 1] [] []) ⟨2024, 3, 1, 0, 0, 0, 0⟩ 2
        (.deleteTasksId 5)).2 = sampleStore [sampleTaskRow 5 1 "todo" 1] [] []) ∧
    (handle (sampleStore [sampleTaskRow 5 1 "todo" 1] [] []) ⟨2024, 3, 1, 0, 0, 0, 0⟩ 2
        (.putTasksReorderId 5 (some "done") (some 3))).2.rowsOfOthers 2 =
      ([sampleTaskRow 5 1 "todo" 1], [], []) :=
  ⟨(foreign_rows_protected (sampleStore [sampleTaskRow 5 1 "todo" 1] [] [])
      ⟨2024, 3, 1, 0, 0, 0, 0⟩ 2 (.deleteTasksId 5)).1 .tasks 5 rfl (by decide),
    (foreign_rows_protected (sampleStore [sampleTaskRow 5 1 "todo" 1] [] [])
      ⟨2024, 3, 1, 0, 0, 0, 0⟩ 2 (.putTasksReorderId 5 (some "done") (some 3))).2
      (by simp [Store.UniqueIds, sampleStore])⟩

/-! ## C18: missing required fields -/

/-- The route `POST /api/tasks` answers 400 without a title and leaves the store
as it is. -/
theorem postTasks_without_title (db : Store) (now : Timestamp) (userId : Nat) (body : TaskBody)
    (h : truthy body.title = none) :
    postTasks db now userId body = (⟨400, .error "Title is required"⟩, db) := by
  unfold postTasks
  rw [h]

/-- The route `POST /api/calendar` answers 400 without a title, start time or end
time and leaves the store as it is. -/
theorem postCalendar_without_required (db : Store) (userId : Nat) (body : EventBody)
    (h : truthy body.title = none ∨ body.startTime = none ∨ body.endTime = none) :
    postCalendar db userId body =
      (⟨400, .error "Title, start time, and end time are required"⟩, db) := by
  unfold postCalendar
  rcases h with h | h | h
  · rw [h]
  · rw [h]
    cases truthy body.title <;> rfl
  · rw [h]
    cases truthy body.title <;> cases body.startTime <;> rfl

/-- C18, the code at the failing input. User 1 owns task 5 and sends
`PUT /api/tasks/reorder/5` without `status`, and again without `position`. The
route has no check of the body: it answers 500 after the failed `UPDATE`, not
400. For no store, user, id and body does this route answer 400. -/
theorem putTasksReorderId_missing_fields :
    putTasksReorderId (sampleStore [sampleTaskRow 5 1 "todo" 1] [] []) 1 5 none (some 2) =
      (⟨500, .error "Failed to reorder task"⟩, sampleStore [sampleTaskRow 5 1 "todo" 1] [] []) ∧
    putTasksReorderId (sampleStore [sampleTaskRow 5 1 "todo" 1] [] []) 1 5 (some "done") none =
      (⟨500, .error "Failed to reorder task"⟩, sampleStore [sampleTaskRow 5 1 "todo" 1] [] []) ∧
    (∀ (db : Store) (userId id : Nat) (status : Option String) (position : Option Int),
      (putTasksReorderId db userId id status position).1.status ≠ 400) := by
  refine ⟨by decide, by decide, ?_⟩
  intro db userId id status position
  unfold putTasksReorderId
  simp only
  split_ifs
  · simp
  · cases status <;> cases position <;> simp

/-! ## C19: `apiRequest` -/

/-- The read `data.error` throws exactly for the body `null`. -/
theorem Json.error_eq_typeError_iff (data : Json) :
    data.error = .error .typeError ↔ data = .null := by
  cases data <;> simp [Json.error]

/-- The values that `||` takes for false. -/
theorem Json.truthy_eq_false_iff (v : Json) :
    v.truthy = false ↔
      v = .null ∨ v = .bool false ∨ (∃ n, v = .number n ∧ n.isZero = true) ∨ v = .string "" := by
  cases v <;> simp [Json.truthy]

/-- The property `response.ok` in terms of the status. -/
theorem FetchResponse.ok_iff (status : Nat) (json : Except String Json) :
    (⟨status, json⟩ : FetchResponse).ok = true ↔ 200 ≤ status ∧ status ≤ 299 := by
  simp [FetchResponse.ok]

/-- C19, counterexample. A response with status 500 whose JSON body is `null`: the
body has no `error` field, and the call throws the `TypeError` of the read
`data.error`, not an error with the message `Request failed`. A response with
status 500 and the body with `error: false` has an `error` field that is neither
absent nor empty, and the message is `Request failed`, not that field. -/
theorem apiRequest_null_body_counterexample :
    (apiRequest "/api/tasks" (.ok ⟨500, .ok .null⟩)).result = .error .typeError ∧
    (apiRequest "/api/tasks" (.ok ⟨500, .ok .null⟩)).result ≠
      .error (.error "Request failed") ∧
    (apiRequest "/api/tasks" (.ok ⟨500, .ok (.object [("error", .bool false)])⟩)).result =
      .error (.error "Request failed") := by
  refine ⟨rfl, ?_, rfl⟩
  intro h
  cases h

/-- C19, amended. For every response with a JSON body, `apiRequest` returns the
parsed body if and only if the status is in the range 200 to 299. For every other
status and a body that is not `null` it throws an error whose message is
`Request failed` when the body has no `error` property or one that is `null`,
`false`, zero or the empty string, is that property when it is a string that is
not empty, and is its conversion to a string for any other value; for the body
`null` it throws the `TypeError` of the read `data.error`. Every call passes its
URL to `fetch` exactly once, whatever the outcome. -/
theorem apiRequest_contract (url : String) :
    (∀ (status : Nat) (data : Json),
      ((apiRequest url (.ok ⟨status, .ok data⟩)).result = .ok data ↔
        200 ≤ status ∧ status ≤ 299)) ∧
    (∀ (status : Nat) (data : Json), ¬ (200 ≤ status ∧ status ≤ 299) →
      (data.error = .ok none →
        (apiRequest url (.ok ⟨status, .ok data⟩)).result = .error (.error "Request failed")) ∧
      (∀ v, data.error = .ok (some v) →
        (v = .null ∨ v = .bool false ∨ (∃ n, v = .number n ∧ n.isZero = true) ∨
          v = .string "") →
        (apiRequest url (.ok ⟨status, .ok data⟩)).result = .error (.error "Request failed")) ∧
      (∀ message : String, data.error = .ok (some (.string message)) → message ≠ "" →
        (apiRequest url (.ok ⟨status, .ok data⟩)).result = .error (.error message)) ∧
      (∀ v, data.error = .ok (some v) →
        ¬ (v = .null ∨ v = .bool false ∨ (∃ n, v = .number n ∧ n.isZero = true) ∨
          v = .string "") →
        (apiRequest url (.ok ⟨status, .ok data⟩)).result = .error (.error v.toJsString)) ∧
      (data = .null →
        (apiRequest url (.ok ⟨status, .ok data⟩)).result = .error .typeError) ∧
      (data ≠ .null → ∃ error, data.error = .ok error)) ∧
    (∀ fetchResult : Except String FetchResponse,
      (apiRequest url fetchResult).fetched = [url]) := by
  refine ⟨?_, ?_, ?_⟩
  · intro status data
    by_cases h : 200 ≤ status ∧ status ≤ 299
    · have hok : (⟨status, .ok data⟩ : FetchResponse).ok = true :=
        (FetchResponse.ok_iff _ _).2 h
      simp [apiRequest, hok, h]
    · have hok : (⟨status, .ok data⟩ : FetchResponse).ok = false := by
        rw [← Bool.not_eq_true, FetchResponse.ok_iff]
        exact h
      simp only [apiRequest, hok, Bool.not_false, if_true, h, iff_false]
      cases data.error <;> simp
  · intro status data h
    have hok : (⟨status, .ok data⟩ : FetchResponse).ok = false := by
      rw [← Bool.not_eq_true, FetchResponse.ok_iff]
      exact h
    refine ⟨?_, ?_, ?_, ?_, ?_, ?_⟩
    · intro herr
      simp [apiRequest, hok, herr, errorMessage]
    · intro v herr hv
      have hfalse := (Json.truthy_eq_false_iff v).2 hv
      simp [apiRequest, hok, herr, errorMessage, hfalse]
    · intro message herr hne
      simp [apiRequest, hok, herr, errorMessage, Json.truthy, Json.toJsString, hne]
    · intro v herr hv
      have htrue : v.truthy = true := by
        rw [← Bool.not_eq_false, Json.truthy_eq_false_iff]
        exact hv
      simp [apiRequest, hok, herr, errorMessage, htrue]
    · intro hnull
      subst hnull
      simp [apiRequest, hok, Json.error]
    · intro hnull
      cases data <;> simp [Json.error] at hnull ⊢
  · intro fetchResult
    unfold apiRequest
    cases fetchResult with
    | error e => rfl
    | ok response =>
      simp only
      cases response.json with
      | error e => rfl
      | ok data =>
        simp only
        split_ifs
        · cases data.error <;> rfl
        · rfl

/-- Witness for the amended C19: a 404 response with `error: "Task not found"`, and
a 500 response whose `error` is the number 42. -/
theorem apiRequest_contract_witness :
    (apiRequest "/api/tasks/5"
      (.ok ⟨404, .ok (.object [("error", .string "Task not found")])⟩)).result =
      .error (.error "Task not found") ∧
    (apiRequest "/api/tasks/5"
      (.ok ⟨500, .ok (.object [("error", .number ⟨false, "42"⟩)])⟩)).result =
      .error (.error "42") :=
  ⟨((apiRequest_contract "/api/tasks/5").2.1 404
      (.object [("error", .string "Task not found")]) (by decide)).2.2.1
      "Task not found" rfl (by decide),
    ((apiRequest_contract "/api/tasks/5").2.1 500
      (.object [("error", .number ⟨false, "42"⟩)]) (by decide)).2.2.2.1
      (.number ⟨false, "42"⟩) rfl (by simp)⟩

/-! ## C20: creating a note and loading the notes -/

theorem orDefault_some_of_ne (s fallback : String) (h : s ≠ "") :
    orDefault (some s) fallback = s := by
  simp [orDefault, h]

theorem orDefault_some_empty (s : String) : orDefault (some s) "" = s := by
  by_cases h : s = ""
  · simp [orDefault, h]
  · simp [orDefault, h]

theorem truthy_some_of_ne (s : String) (h : s ≠ "") : truthy (some s) = some s := by
  simp [truthy, h]

/-- C20, counterexample. A note is created with title `title`, content `content`
and the empty string as color. The server accepts the request with status 201
and stores the color `#ffffff`; the following `GET /api/notes` returns the note
with that color, not with the supplied one. -/
theorem postNotes_empty_color_counterexample :
    (postNotes (sampleStore [] [] []) ⟨2024, 3, 1, 0, 0, 0, 0⟩ 1
      ⟨some "title", some "content", some "", none⟩).1.status = 201 ∧
    getNotes (postNotes (sampleStore [] [] []) ⟨2024, 3, 1, 0, 0, 0, 0⟩ 1
      ⟨some "title", some "content", some "", none⟩).2.notes 1 =
      [{ id := 100
         user_id := 1
         title := "title"
         content := "content"
         color := "#ffffff"
         is_pinned := false
         created_at := ⟨2024, 3, 1, 0, 0, 0, 0⟩
         updated_at := ⟨2024, 3, 1, 0, 0, 0, 0⟩ }] ∧
    ("#ffffff" : String) ≠ "" := by
  refine ⟨by decide, by decide, by decide⟩

/-- C20, amended. For every note creation request with a title, a content and a
non-empty color that the server accepts (the title is not empty), the route
answers 201 and a following `GET /api/notes` of the same user returns a note with
the server-assigned id whose title, content and color are the supplied values and
whose `is_pinned` is false; when the id is new in the table, every returned note
with that id is such a note. An empty color is replaced by `#ffffff`. -/
theorem postNotes_roundtrip (db : Store) (now : Timestamp) (userId : Nat)
    (title content color : String) (isPinned : Option Bool)
    (htitle : title ≠ "") (hcolor : color ≠ "") :
    (postNotes db now userId ⟨some title, some content, some color, isPinned⟩).1.status = 201 ∧
    (∃ n ∈ getNotes
        (postNotes db now userId ⟨some title, some content, some color, isPinned⟩).2.notes userId,
      n.id = db.nextNoteId ∧ n.title = title ∧ n.content = content ∧ n.color = color ∧
        n.is_pinned = false) ∧
    ((∀ n ∈ db.notes, n.id ≠ db.nextNoteId) →
      ∀ n ∈ getNotes
          (postNotes db now userId ⟨some title, some content, some color, isPinned⟩).2.notes
          userId,
        n.id = db.nextNoteId →
          n.title = title ∧ n.content = content ∧ n.color = color ∧ n.is_pinned = false) ∧
    (postNotes db now userId ⟨some title, some content, some "", isPinned⟩).2.notes =
      db.notes ++ [{ id := db.nextNoteId
                     user_id := userId
                     title := title
                     content := content
                     color := "#ffffff"
                     is_pinned := false
                     created_at := now
                     updated_at := now }] := by
  have hpost : ∃ row : Note, row.id = db.nextNoteId ∧ row.title = title ∧
      row.content = content ∧ row.color = color ∧ row.is_pinned = false ∧
      row.user_id = userId ∧
      postNotes db now userId ⟨some title, some content, some color, isPinned⟩ =
        (⟨201, .note ((db.notes ++ [row]).find? (fun n => n.id == db.nextNoteId))⟩,
          { db with notes := db.notes ++ [row], nextNoteId := db.nextNoteId + 1 }) := by
    refine ⟨{ id := db.nextNoteId
              user_id := userId
              title := title
              content := content
              color := color
              is_pinned := false
              created_at := now
              updated_at := now }, rfl, rfl, rfl, rfl, rfl, rfl, ?_⟩
    unfold postNotes
    simp only [truthy_some_of_ne title htitle, orDefault_some_empty,
      orDefault_some_of_ne color _ hcolor, notesIsPinnedDefault]
  obtain ⟨row, hid, ht, hc, hcol, hpin, huser, hpost⟩ := hpost
  rw [hpost]
  refine ⟨rfl, ?_, ?_, ?_⟩
  · refine ⟨row, ?_, hid, ht, hc, hcol, hpin⟩
    unfold getNotes
    rw [mem_sort]
    simp [huser]
  · intro hnew n hn hnid
    unfold getNotes at hn
    rw [mem_sort] at hn
    simp only [List.mem_filter, List.mem_append, List.mem_singleton] at hn
    rcases hn.1 with hold | rfl
    · exact absurd hnid (hnew n hold)
    · exact ⟨ht, hc, hcol, hpin⟩
  · unfold postNotes
    simp only [truthy_some_of_ne title htitle, orDefault_some_empty, notesIsPinnedDefault]
    rfl

/-- Witness for the amended C20: a yellow note is created in a store that holds a
note of the same user. -/
theorem postNotes_roundtrip_witness :
    ∃ n ∈ getNotes
        (postNotes (sampleStore [] [sampleNote 4 true 9] []) ⟨2024, 3, 10, 0, 0, 0, 0⟩ 1
          ⟨some "title", some "content", some "yellow", none⟩).2.notes 1,
      n.id = 100 ∧ n.title = "title" ∧ n.content = "content" ∧ n.color = "yellow" ∧
        n.is_pinned = false :=
  (postNotes_roundtrip (sampleStore [] [sampleNote 4 true 9] []) ⟨2024, 3, 10, 0, 0, 0, 0⟩ 1
    "title" "content" "yellow" none (by decide) (by decide)).2.1

/-! ## C21: status and priority of stored tasks -/

theorem orDefault_eq_truthy (x : Option String) (fallback : String) :
    orDefault x fallback = (truthy x).getD fallback := by
  cases x with
  | none => rfl
  | some s =>
    by_cases h : s = ""
    · simp [orDefault, truthy, h]
    · simp [orDefault, truthy, h]

theorem valid_orDefault (p : String → Bool) (x : Option String) (fallback : String)
    (hx : (truthy x).all p = true) (hf : p fallback = true) :
    p (orDefault x fallback) = true := by
  rw [orDefault_eq_truthy]
  cases h : truthy x with
  | none => simpa using hf
  | some s =>
    rw [h] at hx
    simpa using hx

theorem valid_getD (p : String → Bool) (x : Option String) (old : String)
    (hx : x.all p = true) (ho : p old = true) : p (x.getD old) = true := by
  cases x with
  | none => simpa using ho
  | some s => simpa using hx

/-- A request whose status and priority values are values of the data model keeps
every stored task valid. -/
theorem handle_tasksValid (db : Store) (now : Timestamp) (userId : Nat) (call : ApiCall)
    (h : db.tasksValid) (hv : call.valuesValid = true) :
    (handle db now userId call).2.tasksValid := by
  cases call with
  | postTasks body =>
    simp only [ApiCall.valuesValid, Bool.and_eq_true] at hv
    simp only [handle, postTasks]
    split
    · exact h
    · intro t ht
      simp only [List.mem_append, List.mem_singleton] at ht
      rcases ht with ht | rfl
      · exact h t ht
      · exact ⟨valid_orDefault validStatus _ _ hv.1 (by decide),
          valid_orDefault validPriority _ _ hv.2 (by decide)⟩
  | putTasksId id body =>
    simp only [ApiCall.valuesValid, Bool.and_eq_true] at hv
    simp only [handle, putTasksId]
    split_ifs
    · exact h
    · exact h
    · intro t ht
      simp only [List.mem_map] at ht
      obtain ⟨r, hr, rfl⟩ := ht
      split_ifs
      · exact ⟨valid_getD validStatus _ _ hv.1 (h r hr).1,
          valid_getD validPriority _ _ hv.2 (h r hr).2⟩
      · exact h r hr
  | putTasksReorderId id status position =>
    simp only [ApiCall.valuesValid] at hv
    simp only [handle, putTasksReorderId]
    split_ifs
    · exact h
    · cases status with
      | none => exact h
      | some s =>
        cases position with
        | none => exact h
        | some p =>
          intro t ht
          simp only [List.mem_map] at ht
          obtain ⟨r, hr, rfl⟩ := ht
          split_ifs
          · exact ⟨by simpa using hv, (h r hr).2⟩
          · exact h r hr
  | deleteTasksId id =>
    simp only [handle, deleteTasksId]
    split_ifs
    · exact h
    · intro t ht
      exact h t (List.mem_filter.1 ht).1
  | postNotes body =>
    simp only [handle, postNotes]
    split <;> exact h
  | putNotesId id body =>
    simp only [handle, putNotesId]
    split_ifs <;> exact h
  | patchNotesIdPin id =>
    simp only [handle, patchNotesIdPin]
    split <;> exact h
  | deleteNotesId id =>
    simp only [handle, deleteNotesId]
    split_ifs <;> exact h
  | postCalendar body =>
    simp only [handle, postCalendar]
    split
    · split_ifs <;> exact h
    · exact h
  | putCalendarId id body =>
    simp only [handle, putCalendarId]
    split_ifs <;> exact h
  | deleteCalendarId id =>
    simp only [handle, deleteCalendarId]
    split_ifs <;> exact h

/-- C21, counterexample. The store holds one valid task of user 1. The user sends
`PUT /api/tasks/reorder/5` with status `archived`: the route answers 200 and the
task is stored with that status. With `POST /api/tasks` and priority `urgent` the
route answers 201 and stores a task of that priority. With the empty string as
status `PUT /api/tasks/reorder/5` answers 200 and stores the empty string. -/
theorem reorder_status_counterexample :
    (sampleStore [sampleTaskRow 5 1 "todo" 1] [] []).tasksValid ∧
    (putTasksReorderId (sampleStore [sampleTaskRow 5 1 "todo" 1] [] []) 1 5
      (some "archived") (some 1)).1.status = 200 ∧
    (putTasksReorderId (sampleStore [sampleTaskRow 5 1 "todo" 1] [] []) 1 5
      (some "archived") (some 1)).2.tasks = [sampleTaskRow 5 1 "archived" 1] ∧
    ¬ (putTasksReorderId (sampleStore [sampleTaskRow 5 1 "todo" 1] [] []) 1 5
      (some "archived") (some 1)).2.tasksValid ∧
    (postTasks (sampleStore [] [] []) ⟨2024, 3, 1, 0, 0, 0, 0⟩ 1
      ⟨some "task", none, none, some "urgent", none, none⟩).1.status = 201 ∧
    ¬ (postTasks (sampleStore [] [] []) ⟨2024, 3, 1, 0, 0, 0, 0⟩ 1
      ⟨some "task", none, none, some "urgent", none, none⟩).2.tasksValid ∧
    (putTasksReorderId (sampleStore [sampleTaskRow 5 1 "todo" 1] [] []) 1 5
      (some "") (some 1)).1.status = 200 ∧
    (putTasksReorderId (sampleStore [sampleTaskRow 5 1 "todo" 1] [] []) 1 5
      (some "") (some 1)).2.tasks = [sampleTaskRow 5 1 "" 1] ∧
    ¬ (putTasksReorderId (sampleStore [sampleTaskRow 5 1 "todo" 1] [] []) 1 5
      (some "") (some 1)).2.tasksValid := by
  refine ⟨?_, by decide, by decide, ?_, by decide, ?_, by decide, by decide, ?_⟩
  · intro t ht
    simp only [sampleStore, List.mem_singleton] at ht
    subst ht
    decide
  · intro h
    have := (h (sampleTaskRow 5 1 "archived" 1) (by decide)).1
    exact absurd this (by decide)
  · intro h
    have := (h { sampleTaskRow 100 1 "todo" 1 with priority := "urgent" } (by decide)).2
    exact absurd this (by decide)
  · intro h
    have := (h (sampleTaskRow 5 1 "" 1) (by decide)).1
    exact absurd this (by decide)

/-- C21, amended. Every task in the store has a status in `todo`, `in_progress`,
`done` and a priority in `low`, `medium`, `high` after any sequence of requests
whose bodies meet this condition, starting from a store in which every task
satisfies it: on `POST /api/tasks` a supplied status or priority that is not
empty is a value of these sets (for a missing or empty one the route stores
`todo` or `medium`); on `PUT /api/tasks/:id` and `PUT /api/tasks/reorder/:id`
every supplied status or priority, the empty string included, is a value of
these sets. The routes do not check the values and store any other value as
supplied. -/
theorem runRequests_tasksValid (db : Store) (requests : List ServerRequest)
    (h : db.tasksValid) (hv : ∀ r ∈ requests, r.call.valuesValid = true) :
    (runRequests db requests).tasksValid := by
  induction requests generalizing db with
  | nil => exact h
  | cons r rest ih =>
    exact ih _ (handle_tasksValid db r.now r.userId r.call h (hv r (by simp)))
      (fun r2 hr2 => hv r2 (by simp [hr2]))

/-- Witness for the amended C21: a task is created without status and priority and
then moved to `done`. -/
theorem runRequests_tasksValid_witness :
    (runRequests (sampleStore [sampleTaskRow 5 1 "todo" 1] [] [])
      [⟨⟨2024, 3, 1, 0, 0, 0, 0⟩, 1, .postTasks ⟨some "task", none, none, none, none, none⟩⟩,
        ⟨⟨2024, 3, 2, 0, 0, 0, 0⟩, 1, .putTasksReorderId 100 (some "done") (some 1)⟩]).tasksValid :=
  runRequests_tasksValid _ _
    (by
      intro t ht
      simp only [sampleStore, List.mem_singleton] at ht
      subst ht
      decide)
    (by
      intro r hr
      simp only [List.mem_cons, List.mem_singleton, List.not_mem_nil, or_false] at hr
      rcases hr with rfl | rfl <;> decide)

/-! ## C22: failed edit, creation and deletion of a task -/

/-- C22. For every state of the board, when the request of a task edit, of a task
creation or of a task deletion is rejected or fails, the local tasks after the
operation are the local tasks before it: the handlers change the board only
after the awaited request has succeeded. A deletion that is not confirmed changes
nothing either. -/
theorem task_mutation_failed_keeps_board (st : Kanban) (id : Nat) (err : String) :
    (submitTaskForm st (some id) (.error err)).tasks = st.tasks ∧
    (submitTaskForm st none (.error err)).tasks = st.tasks ∧
    (deleteTask st id true (.error err)).tasks = st.tasks ∧
    (∀ resp, (deleteTask st id false resp).tasks = st.tasks) ∧
    (submitTaskForm st (some id) (.error err)).toasts =
      st.toasts ++ [⟨if err = "" then "Failed to save task" else err, "error"⟩] ∧
    (deleteTask st id true (.error err)).toasts =
      st.toasts ++ [⟨"Failed to delete task", "error"⟩] := by
  refine ⟨rfl, rfl, rfl, ?_, rfl, rfl⟩
  intro resp
  rfl

/-! ## C23: month navigation -/

/-- From a day of the month of at most 28 the cursor moves into the following
month and keeps its day. -/
theorem setMonth_next_of_le_28 (d : LocalDate) (hm : d.month ≤ 11) (hd : d.date ≤ 28) :
    d.setMonth ((d.month : Int) + 1) =
      (if d.month = 11 then ⟨d.year + 1, 0, d.date⟩ else ⟨d.year, d.month + 1, d.date⟩) := by
  have hdays : ∀ y m, 28 ≤ daysInMonth y m := by
    intro y m
    unfold daysInMonth
    split <;> try decide
    split_ifs <;> decide
  unfold LocalDate.setMonth
  by_cases h11 : d.month = 11
  · have e1 : (((d.year : Int) * 12 + ((d.month : Int) + 1)) / 12).toNat = d.year + 1 := by
      omega
    have e2 : (((d.year : Int) * 12 + ((d.month : Int) + 1)) % 12).toNat = 0 := by omega
    simp only [e1, e2]
    rw [if_pos (le_trans hd (hdays _ _)), if_pos h11]
  · have e1 : (((d.year : Int) * 12 + ((d.month : Int) + 1)) / 12).toNat = d.year := by omega
    have e2 : (((d.year : Int) * 12 + ((d.month : Int) + 1)) % 12).toNat = d.month + 1 := by
      omega
    simp only [e1, e2]
    rw [if_pos (le_trans hd (hdays _ _)), if_neg h11]

/-- From a day of the month of at most 28 the cursor moves into the preceding
month and keeps its day. -/
theorem setMonth_prev_of_le_28 (d : LocalDate) (hm : d.month ≤ 11) (hd : d.date ≤ 28) :
    d.setMonth ((d.month : Int) - 1) =
      (if d.month = 0 then ⟨d.year - 1, 11, d.date⟩ else ⟨d.year, d.month - 1, d.date⟩) := by
  have hdays : ∀ y m, 28 ≤ daysInMonth y m := by
    intro y m
    unfold daysInMonth
    split <;> try decide
    split_ifs <;> decide
  unfold LocalDate.setMonth
  by_cases h0 : d.month = 0
  · have e1 : (((d.year : Int) * 12 + ((d.month : Int) - 1)) / 12).toNat = d.year - 1 := by
      omega
    have e2 : (((d.year : Int) * 12 + ((d.month : Int) - 1)) % 12).toNat = 11 := by omega
    simp only [e1, e2]
    rw [if_pos (le_trans hd (hdays _ _)), if_pos h0]
  · have e1 : (((d.year : Int) * 12 + ((d.month : Int) - 1)) / 12).toNat = d.year := by omega
    have e2 : (((d.year : Int) * 12 + ((d.month : Int) - 1)) % 12).toNat = d.month - 1 := by
      omega
    simp only [e1, e2]
    rw [if_pos (le_trans hd (hdays _ _)), if_neg h0]

theorem loadCalendarData_currentDate (st : Calendar)
    (eventsResp : Except String (List CalendarEvent)) (tasksResp : Except String Board)
    (notesResp : Except String (List Note)) :
    (loadCalendarData st eventsResp tasksResp notesResp).currentDate = st.currentDate := by
  cases eventsResp <;> cases tasksResp <;> cases notesResp <;> rfl

/-- From a day of the month of at most 28 (and a year from 1 on), `nextMonth` moves
the cursor into the following month, `prevMonth` into the preceding month, and
`prevMonth` after `nextMonth` gives back the cursor. -/
theorem month_navigation_of_le_28 (st : Calendar) (hm : st.currentDate.month ≤ 11)
    (hd : st.currentDate.date ≤ 28) (_hy : 1 ≤ st.currentDate.year)
    (e1 e2 : Except String (List CalendarEvent)) (t1 t2 : Except String Board)
    (n1 n2 : Except String (List Note)) :
    (nextMonth st e1 t1 n1).currentDate =
      (if st.currentDate.month = 11 then ⟨st.currentDate.year + 1, 0, st.currentDate.date⟩
        else ⟨st.currentDate.year, st.currentDate.month + 1, st.currentDate.date⟩) ∧
    (prevMonth st e1 t1 n1).currentDate =
      (if st.currentDate.month = 0 then ⟨st.currentDate.year - 1, 11, st.currentDate.date⟩
        else ⟨st.currentDate.year, st.currentDate.month - 1, st.currentDate.date⟩) ∧
    (prevMonth (nextMonth st e1 t1 n1) e2 t2 n2).currentDate = st.currentDate := by
  have hnext : (nextMonth st e1 t1 n1).currentDate =
      (if st.currentDate.month = 11 then ⟨st.currentDate.year + 1, 0, st.currentDate.date⟩
        else ⟨st.currentDate.year, st.currentDate.month + 1, st.currentDate.date⟩) := by
    unfold nextMonth
    rw [loadCalendarData_currentDate]
    exact setMonth_next_of_le_28 _ hm hd
  refine ⟨hnext, ?_, ?_⟩
  · unfold prevMonth
    rw [loadCalendarData_currentDate]
    exact setMonth_prev_of_le_28 _ hm hd
  · unfold prevMonth
    rw [loadCalendarData_currentDate]
    simp only
    rw [hnext]
    by_cases h11 : st.currentDate.month = 11
    · rw [if_pos h11]
      have key := setMonth_prev_of_le_28 ⟨st.currentDate.year + 1, 0, st.currentDate.date⟩
        (by simp) hd
      rw [key]
      simp only [if_true, Nat.add_sub_cancel]
      cases hcd : st.currentDate with
      | mk y m d =>
        rw [hcd] at h11
        simp only at h11
        rw [h11]
    · rw [if_neg h11]
      have key := setMonth_prev_of_le_28
        ⟨st.currentDate.year, st.currentDate.month + 1, st.currentDate.date⟩
        (by simp only; omega) hd
      rw [key]
      simp only [Nat.add_one_ne_zero, if_false, Nat.add_sub_cancel]

/-- C23, the code at the failing input. The cursor is 31 January 2024. `nextMonth`
calls `setMonth(1)`: 31 February runs over into 2 March, so the cursor is in March
and the request asks for month 3, not for February. `prevMonth` after it gives
2 February, not the original month. From 31 March `prevMonth` calls
`setMonth(1)` and lands on 2 March, the month it started from. -/
theorem nextMonth_skips_february :
    (nextMonth { sampleCalendar [] [] [] with currentDate := ⟨2024, 0, 31⟩ }
      (.ok []) (.ok ⟨[], [], []⟩) (.ok [])).currentDate = ⟨2024, 2, 2⟩ ∧
    calendarRequest (nextMonth { sampleCalendar [] [] [] with currentDate := ⟨2024, 0, 31⟩ }
      (.ok []) (.ok ⟨[], [], []⟩) (.ok [])).currentDate = (3, 2024) ∧
    (prevMonth (nextMonth { sampleCalendar [] [] [] with currentDate := ⟨2024, 0, 31⟩ }
      (.ok []) (.ok ⟨[], [], []⟩) (.ok [])) (.ok []) (.ok ⟨[], [], []⟩) (.ok [])).currentDate =
      ⟨2024, 1, 2⟩ ∧
    (prevMonth { sampleCalendar [] [] [] with currentDate := ⟨2024, 2, 31⟩ }
      (.ok []) (.ok ⟨[], [], []⟩) (.ok [])).currentDate = ⟨2024, 2, 2⟩ := by
  refine ⟨by decide, by decide, by decide, by decide⟩

/-! ## C24: acceptance of `POST /api/calendar` -/

/-- C24. The route `POST /api/calendar` accepts a request with status 201 if and
only if the title is present and not empty, the start and end time are present
and the end is not before the start. An accepted request inserts one event of
the user with the supplied title, start and end. Every other request is answered
with status 400 and the store stays as it is. -/
theorem postCalendar_accepts_iff (db : Store) (userId : Nat) (body : EventBody) :
    ((postCalendar db userId body).1.status = 201 ↔
      ∃ title startTime endTime, body.title = some title ∧ title ≠ "" ∧
        body.startTime = some startTime ∧ body.endTime = some endTime ∧
        startTime.rank ≤ endTime.rank) ∧
    (∀ title startTime endTime, body.title = some title → title ≠ "" →
      body.startTime = some startTime → body.endTime = some endTime →
      startTime.rank ≤ endTime.rank →
      ∃ row : EventRow, (postCalendar db userId body).2.calendar_events =
          db.calendar_events ++ [row] ∧
        row.id = db.nextEventId ∧ row.user_id = userId ∧ row.title = title ∧
        row.start_time = startTime ∧ row.end_time = endTime ∧
        (postCalendar db userId body).2.tasks = db.tasks ∧
        (postCalendar db userId body).2.notes = db.notes) ∧
    ((postCalendar db userId body).1.status ≠ 201 →
      (postCalendar db userId body).1.status = 400 ∧ (postCalendar db userId body).2 = db) := by
  have htruthy : ∀ t : String, truthy body.title = some t ↔ body.title = some t ∧ t ≠ "" := by
    intro t
    cases hb : body.title with
    | none => simp [truthy]
    | some s =>
      by_cases hs : s = ""
      · subst hs
        simp only [truthy, if_true, Option.some.injEq]
        constructor
        · intro h
          exact absurd h (by simp)
        · rintro ⟨h1, h2⟩
          exact absurd h1.symm h2
      · simp only [truthy, hs, if_false, Option.some.injEq]
        constructor
        · rintro rfl
          exact ⟨rfl, hs⟩
        · rintro ⟨h1, _⟩
          exact h1
  refine ⟨?_, ?_, ?_⟩
  · unfold postCalendar
    constructor
    · intro h
      split at h
      · rename_i title startTime endTime ht hs he
        split_ifs at h with hlt
        · simp at h
        · exact ⟨title, startTime, endTime, ((htruthy title).1 ht).1, ((htruthy title).1 ht).2,
            hs, he, Nat.le_of_not_lt hlt⟩
      · simp at h
    · rintro ⟨title, startTime, endTime, ht, hne, hs, he, hle⟩
      rw [(htruthy title).2 ⟨ht, hne⟩, hs, he]
      simp only
      rw [if_neg (Nat.not_lt.2 hle)]
  · intro title startTime endTime ht hne hs he hle
    unfold postCalendar
    rw [(htruthy title).2 ⟨ht, hne⟩, hs, he]
    simp only
    rw [if_neg (Nat.not_lt.2 hle)]
    exact ⟨_, rfl, rfl, rfl, rfl, rfl, rfl, rfl, rfl⟩
  · intro h
    unfold postCalendar at h ⊢
    split
    · split_ifs with hlt
      · exact ⟨rfl, rfl⟩
      · rename_i title startTime endTime ht hs he
        rw [ht, hs, he] at h
        simp only at h
        rw [if_neg hlt] at h
        exact absurd rfl h
    · exact ⟨rfl, rfl⟩

/-- Witness for C24: an event from 09:00 to 10:00 is accepted, and the same event
with the times exchanged is answered with 400. -/
theorem postCalendar_accepts_iff_witness :
    (postCalendar (sampleStore [] [] []) 1
      ⟨some "event", none, some ⟨2024, 3, 5, 9, 0, 0, 0⟩, some ⟨2024, 3, 5, 10, 0, 0, 0⟩,
        none, none⟩).1.status = 201 ∧
    (postCalendar (sampleStore [] [] []) 1
      ⟨some "event", none, some ⟨2024, 3, 5, 10, 0, 0, 0⟩, some ⟨2024, 3, 5, 9, 0, 0, 0⟩,
        none, none⟩).1.status = 400 :=
  ⟨(postCalendar_accepts_iff (sampleStore [] [] []) 1
      ⟨some "event", none, some ⟨2024, 3, 5, 9, 0, 0, 0⟩, some ⟨2024, 3, 5, 10, 0, 0, 0⟩,
        none, none⟩).1.2 ⟨_, _, _, rfl, by decide, rfl, rfl, by decide⟩,
    ((postCalendar_accepts_iff (sampleStore [] [] []) 1
      ⟨some "event", none, some ⟨2024, 3, 5, 10, 0, 0, 0⟩, some ⟨2024, 3, 5, 9, 0, 0, 0⟩,
        none, none⟩).2.2 (by decide)).1⟩

/-! ## C25: `loadCalendarData` -/

/-- C25. The function `loadCalendarData` replaces its three collections all or
nothing. If one of the three requests fails, `events`, `calendarTasks` and
`calendarNotes` are what they were before the call and exactly one toast,
`Failed to load calendar data`, is added. If all three succeed, the three
collections are the fetched data (the tasks flattened column after column) and no
toast is added. -/
theorem loadCalendarData_all_or_nothing (st : Calendar) :
    (∀ (eventsResp : Except String (List CalendarEvent)) (tasksResp : Except String Board)
      (notesResp : Except String (List Note)),
      ((∃ err, eventsResp = .error err) ∨ (∃ err, tasksResp = .error err) ∨
        (∃ err, notesResp = .error err)) →
      (loadCalendarData st eventsResp tasksResp notesResp).events = st.events ∧
      (loadCalendarData st eventsResp tasksResp notesResp).calendarTasks = st.calendarTasks ∧
      (loadCalendarData st eventsResp tasksResp notesResp).calendarNotes = st.calendarNotes ∧
      (loadCalendarData st eventsResp tasksResp notesResp).toasts =
        st.toasts ++ [⟨"Failed to load calendar data", "error"⟩]) ∧
    (∀ (eventsData : List CalendarEvent) (tasksData : Board) (notesData : List Note),
      (loadCalendarData st (.ok eventsData) (.ok tasksData) (.ok notesData)).events =
        eventsData ∧
      (loadCalendarData st (.ok eventsData) (.ok tasksData) (.ok notesData)).calendarTasks =
        tasksData.todo ++ tasksData.in_progress ++ tasksData.done ∧
      (loadCalendarData st (.ok eventsData) (.ok tasksData) (.ok notesData)).calendarNotes =
        notesData ∧
      (loadCalendarData st (.ok eventsData) (.ok tasksData) (.ok notesData)).toasts =
        st.toasts) := by
  constructor
  · intro eventsResp tasksResp notesResp hfail
    rw [loadCalendarData_failed st eventsResp tasksResp notesResp hfail]
    exact ⟨rfl, rfl, rfl, rfl⟩
  · intro eventsData tasksData notesData
    exact ⟨rfl, rfl, rfl, rfl⟩

/-- Witness for C25: the tasks request fails while the other two succeed. -/
theorem loadCalendarData_all_or_nothing_witness :
    (loadCalendarData (sampleCalendar [] [sampleTask 7 .todo 1] [sampleNote 4 false 9])
      (.ok [sampleEvent 1 ⟨2024, 3, 5, 9, 0, 0, 0⟩ ⟨2024, 3, 5, 10, 0, 0, 0⟩])
      (.error "Failed to get tasks") (.ok [])).events = [] ∧
    (loadCalendarData (sampleCalendar [] [sampleTask 7 .todo 1] [sampleNote 4 false 9])
      (.ok [sampleEvent 1 ⟨2024, 3, 5, 9, 0, 0, 0⟩ ⟨2024, 3, 5, 10, 0, 0, 0⟩])
      (.error "Failed to get tasks") (.ok [])).calendarNotes = [sampleNote 4 false 9] := by
  have h := (loadCalendarData_all_or_nothing
    (sampleCalendar [] [sampleTask 7 .todo 1] [sampleNote 4 false 9])).1
    (.ok [sampleEvent 1 ⟨2024, 3, 5, 9, 0, 0, 0⟩ ⟨2024, 3, 5, 10, 0, 0, 0⟩])
    (.error "Failed to get tasks") (.ok []) (Or.inr (Or.inl ⟨_, rfl⟩))
  exact ⟨h.1, h.2.2.1⟩

/-! ## C26: deleting a task -/

theorem findIndex_of_filter_nil {α : Type} (p : α → Bool) (l : List α)
    (h : (l.filter p).length = 0) :
    findIndex p l = none ∧ l.filter (fun x => !p x) = l := by
  have hnil : l.filter p = [] := List.length_eq_zero.1 h
  have hall : ∀ x ∈ l, p x = false := by
    intro x hx
    cases hp : p x with
    | false => rfl
    | true =>
      have : x ∈ l.filter p := List.mem_filter.2 ⟨hx, hp⟩
      rw [hnil] at this
      exact absurd this (List.not_mem_nil x)
  refine ⟨findIndex_eq_none p l hall, ?_⟩
  rw [List.filter_eq_self]
  intro x hx
  simp [hall x hx]

theorem splice1_findIndex_unique {α : Type} (p : α → Bool) (l : List α)
    (h : (l.filter p).length = 1) :
    ∃ i, findIndex p l = some i ∧
      (splice1 l i).2 = l.filter (fun x => !p x) ∧ (splice1 l i).2.length + 1 = l.length := by
  have hex : ∃ x ∈ l, p x = true := by
    cases hf : l.filter p with
    | nil => rw [hf] at h; simp at h
    | cons x rest =>
      have hx : x ∈ l.filter p := by rw [hf]; simp
      exact ⟨x, (List.mem_filter.1 hx).1, (List.mem_filter.1 hx).2⟩
  obtain ⟨pre, x, post, hl, hpx, hpre, hidx⟩ := findIndex_split p l hex
  have hfpre : pre.filter p = [] := by
    rw [List.filter_eq_nil_iff]
    intro a ha
    simp [hpre a ha]
  have hfpost : post.filter p = [] := by
    rw [hl, List.filter_append, hfpre, List.filter_cons, if_pos hpx] at h
    simp only [List.nil_append, List.length_cons, Nat.add_eq_right] at h
    exact List.length_eq_zero.1 h
  have hnpre : pre.filter (fun x => !p x) = pre := by
    rw [List.filter_eq_self]
    intro a ha
    simp [hpre a ha]
  have hnpost : post.filter (fun x => !p x) = post := by
    rw [List.filter_eq_self]
    intro a ha
    have : p a = false := by
      cases hp : p a with
      | false => rfl
      | true =>
        have hmem : a ∈ post.filter p := List.mem_filter.2 ⟨ha, hp⟩
        rw [hfpost] at hmem
        exact absurd hmem (List.not_mem_nil a)
    simp [this]
  refine ⟨pre.length, hidx, ?_, ?_⟩
  · rw [hl, splice1_append, List.filter_append, List.filter_cons, hnpre, hnpost]
    simp [hpx]
  · rw [hl, splice1_append]
    simp only [List.length_append, List.length_cons]
    omega

theorem Board.all_filter_length (b : Board) (p : Task → Bool) :
    (b.all.filter p).length =
      (b.todo.filter p).length + (b.in_progress.filter p).length + (b.done.filter p).length := by
  simp only [Board.all, List.filter_append, List.length_append]

/-- C26. For every state of the board in which exactly one task has the id, a
confirmed and successful `deleteTask(id)` removes exactly that task: every column
is the column before without the tasks of that id, so the other tasks stay in
their columns in their order, no task with the id remains and the number of tasks
is one less. When no task has the id the three columns are unchanged. -/
theorem deleteTask_removes_exactly (st : Kanban) (id : Nat) :
    ((st.tasks.all.filter (fun t => t.id == id)).length = 1 →
      (∀ status : Status, (deleteTask st id true (.ok ())).tasks.get status =
        (st.tasks.get status).filter (fun t => !(t.id == id))) ∧
      (∀ t ∈ (deleteTask st id true (.ok ())).tasks.all, t.id ≠ id) ∧
      (deleteTask st id true (.ok ())).tasks.all.length + 1 = st.tasks.all.length) ∧
    ((∀ t ∈ st.tasks.all, t.id ≠ id) → (deleteTask st id true (.ok ())).tasks = st.tasks) := by
  have hdel : (deleteTask st id true (.ok ())).tasks =
      removeFromBoard st.tasks id [.todo, .in_progress, .done] := rfl
  rw [hdel]
  constructor
  · intro hone
    rw [Board.all_filter_length] at hone
    have hcols : ∀ status : Status,
        (removeFromBoard st.tasks id [.todo, .in_progress, .done]).get status =
          (st.tasks.get status).filter (fun t => !(t.id == id)) ∧
        ((removeFromBoard st.tasks id [.todo, .in_progress, .done]).todo.length +
          (removeFromBoard st.tasks id [.todo, .in_progress, .done]).in_progress.length +
          (removeFromBoard st.tasks id [.todo, .in_progress, .done]).done.length) + 1 =
          st.tasks.todo.length + st.tasks.in_progress.length + st.tasks.done.length := by
      by_cases h1 : (st.tasks.todo.filter (fun t => t.id == id)).length = 0
      · obtain ⟨hn1, hf1⟩ := findIndex_of_filter_nil _ _ h1
        by_cases h2 : (st.tasks.in_progress.filter (fun t => t.id == id)).length = 0
        · obtain ⟨hn2, hf2⟩ := findIndex_of_filter_nil _ _ h2
          have h3 : (st.tasks.done.filter (fun t => t.id == id)).length = 1 := by omega
          obtain ⟨i, hi, hs, hlen⟩ := splice1_findIndex_unique _ _ h3
          have hrem : removeFromBoard st.tasks id [.todo, .in_progress, .done] =
              st.tasks.set .done (splice1 st.tasks.done i).2 := by
            simp only [removeFromBoard, Board.get, hn1, hn2, hi]
          rw [hrem]
          intro status
          refine ⟨?_, ?_⟩
          · cases status
            · simpa [Board.set, Board.get] using hf1.symm
            · simpa [Board.set, Board.get] using hf2.symm
            · simpa [Board.set, Board.get] using hs
          · simp only [Board.set]
            omega
        · have h2one : (st.tasks.in_progress.filter (fun t => t.id == id)).length = 1 := by
            omega
          have h3 : (st.tasks.done.filter (fun t => t.id == id)).length = 0 := by omega
          obtain ⟨_, hf3⟩ := findIndex_of_filter_nil _ _ h3
          obtain ⟨i, hi, hs, hlen⟩ := splice1_findIndex_unique _ _ h2one
          have hrem : removeFromBoard st.tasks id [.todo, .in_progress, .done] =
              st.tasks.set .in_progress (splice1 st.tasks.in_progress i).2 := by
            simp only [removeFromBoard, Board.get, hn1, hi]
          rw [hrem]
          intro status
          refine ⟨?_, ?_⟩
          · cases status
            · simpa [Board.set, Board.get] using hf1.symm
            · simpa [Board.set, Board.get] using hs
            · simpa [Board.set, Board.get] using hf3.symm
          · simp only [Board.set]
            omega
      · have h1one : (st.tasks.todo.filter (fun t => t.id == id)).length = 1 := by omega
        have h2 : (st.tasks.in_progress.filter (fun t => t.id == id)).length = 0 := by omega
        have h3 : (st.tasks.done.filter (fun t => t.id == id)).length = 0 := by omega
        obtain ⟨_, hf2⟩ := findIndex_of_filter_nil _ _ h2
        obtain ⟨_, hf3⟩ := findIndex_of_filter_nil _ _ h3
        obtain ⟨i, hi, hs, hlen⟩ := splice1_findIndex_unique _ _ h1one
        have hrem : removeFromBoard st.tasks id [.todo, .in_progress, .done] =
            st.tasks.set .todo (splice1 st.tasks.todo i).2 := by
          simp only [removeFromBoard, Board.get, hi]
        rw [hrem]
        intro status
        refine ⟨?_, ?_⟩
        · cases status
          · simpa [Board.set, Board.get] using hs
          · simpa [Board.set, Board.get] using hf2.symm
          · simpa [Board.set, Board.get] using hf3.symm
        · simp only [Board.set]
          omega
    refine ⟨fun status => (hcols status).1, ?_, ?_⟩
    · intro t ht hid
      simp only [Board.all, List.mem_append] at ht
      have hmem : ∀ status : Status,
          t ∈ (removeFromBoard st.tasks id [.todo, .in_progress, .done]).get status → False := by
        intro status hin
        rw [(hcols status).1] at hin
        have := (List.mem_filter.1 hin).2
        simp [hid] at this
      rcases ht with (ht | ht) | ht
      · exact hmem .todo ht
      · exact hmem .in_progress ht
      · exact hmem .done ht
    · have := (hcols .todo).2
      simp only [Board.all, List.length_append]
      omega
  · intro hnone
    have hcol : ∀ status : Status,
        findIndex (fun t : Task => t.id == id) (st.tasks.get status) = none := by
      intro status
      apply findIndex_eq_none
      intro t ht
      have hall : t ∈ st.tasks.all := by
        simp only [Board.all, List.mem_append]
        cases status
        · exact Or.inl (Or.inl ht)
        · exact Or.inl (Or.inr ht)
        · exact Or.inr ht
      simpa using hnone t hall
    simp only [removeFromBoard, hcol]

/-- Witness for C26: task 8 is deleted from a board with three tasks. -/
theorem deleteTask_removes_exactly_witness :
    (deleteTask ⟨⟨[sampleTask 7 .todo 1, sampleTask 8 .todo 2], [sampleTask 3 .in_progress 1],
        []⟩, [], []⟩ 8 true (.ok ())).tasks.get .todo =
      [sampleTask 7 .todo 1, sampleTask 8 .todo 2].filter (fun t => !(t.id == 8)) :=
  ((deleteTask_removes_exactly ⟨⟨[sampleTask 7 .todo 1, sampleTask 8 .todo 2],
      [sampleTask 3 .in_progress 1], []⟩, [], []⟩ 8).1 (by decide)).1 .todo

/-! ## C27: the position sent with a reorder request -/

/-- C27. For every move handled by `handleDrop` with different source and
destination status, one reorder request is sent and its position is the number
of tasks in the local destination column at that time: the length before plus
one when the task is found in the source column, and the unchanged length when it
is not found; in that case the board is unchanged and the request is sent all the
same. -/
theorem handleDrop_request_position (st : Kanban) (taskId : Nat) (oldStatus newStatus : Status)
    (hne : oldStatus ≠ newStatus) (reloadResp : Except String Board) :
    (handleDrop st (some ⟨taskId, oldStatus⟩) newStatus (.ok ()) reloadResp).requests =
      st.requests ++ [.reorder taskId newStatus
        ((optimisticUpdate st.tasks taskId oldStatus newStatus).get newStatus).length] ∧
    (∀ err, (handleDrop st (some ⟨taskId, oldStatus⟩) newStatus (.error err) reloadResp).requests =
      st.requests ++ [.reorder taskId newStatus
        ((optimisticUpdate st.tasks taskId oldStatus newStatus).get newStatus).length,
        .getTasks]) ∧
    ((∃ t ∈ st.tasks.get oldStatus, t.id = taskId) →
      ((optimisticUpdate st.tasks taskId oldStatus newStatus).get newStatus).length =
        (st.tasks.get newStatus).length + 1) ∧
    ((∀ t ∈ st.tasks.get oldStatus, t.id ≠ taskId) →
      ((optimisticUpdate st.tasks taskId oldStatus newStatus).get newStatus).length =
        (st.tasks.get newStatus).length ∧
      (handleDrop st (some ⟨taskId, oldStatus⟩) newStatus (.ok ()) reloadResp).tasks = st.tasks ∧
      (handleDrop st (some ⟨taskId, oldStatus⟩) newStatus (.ok ()) reloadResp).requests =
        st.requests ++ [.reorder taskId newStatus (st.tasks.get newStatus).length]) := by
  have hok : (handleDrop st (some ⟨taskId, oldStatus⟩) newStatus (.ok ()) reloadResp).requests =
      st.requests ++ [.reorder taskId newStatus
        ((optimisticUpdate st.tasks taskId oldStatus newStatus).get newStatus).length] := by
    simp [handleDrop, hne, Kanban.showToast]
  have htasks : (handleDrop st (some ⟨taskId, oldStatus⟩) newStatus (.ok ()) reloadResp).tasks =
      optimisticUpdate st.tasks taskId oldStatus newStatus := by
    simp [handleDrop, hne, Kanban.showToast]
  refine ⟨hok, ?_, ?_, ?_⟩
  · intro err
    cases reloadResp <;> simp [handleDrop, hne, Kanban.showToast, loadTasksResume]
  · intro hmem
    obtain ⟨pre, task, post, _, _, _, hupd⟩ :=
      optimisticUpdate_found st.tasks taskId oldStatus newStatus hne hmem
    rw [hupd, Board.get_set_same]
    simp
  · intro hnone
    have hupd := optimisticUpdate_not_found st.tasks taskId oldStatus newStatus hnone
    rw [htasks, hok, hupd]
    exact ⟨rfl, rfl, rfl⟩

/-- Witness for C27: task 7 is dragged from `todo` to a column with one task, so
position 2 is sent. -/
theorem handleDrop_request_position_witness :
    (handleDrop ⟨⟨[sampleTask 7 .todo 1], [sampleTask 3 .in_progress 1], []⟩, [], []⟩
      (some ⟨7, .todo⟩) .in_progress (.ok ()) (.ok ⟨[], [], []⟩)).requests =
      [.reorder 7 .in_progress 2] := by
  have h := (handleDrop_request_position
    ⟨⟨[sampleTask 7 .todo 1], [sampleTask 3 .in_progress 1], []⟩, [], []⟩ 7 .todo .in_progress
    (by decide) (.ok ⟨[], [], []⟩)).1
  rw [h]
  rfl

/-! ## C28: the position of a created task -/

theorem foldl_max_le (l : List Int) :
    ∀ init : Int, init ≤ l.foldl max init ∧ ∀ p ∈ l, p ≤ l.foldl max init := by
  induction l with
  | nil =>
    intro init
    exact ⟨le_refl _, fun p hp => absurd hp (List.not_mem_nil p)⟩
  | cons a l ih =>
    intro init
    obtain ⟨h1, h2⟩ := ih (max init a)
    refine ⟨le_trans (le_max_left _ _) h1, ?_⟩
    intro p hp
    rcases List.mem_cons.1 hp with rfl | hp
    · exact le_trans (le_max_right _ _) h1
    · exact h2 p hp

/-- Every selected position is at most `MAX(position)`. -/
theorem le_maxPosition (l : List Int) : ∀ p ∈ l, p ≤ maxPosition l := by
  cases l with
  | nil => intro p hp; exact absurd hp (List.not_mem_nil p)
  | cons a l =>
    intro p hp
    obtain ⟨h1, h2⟩ := foldl_max_le l a
    rcases List.mem_cons.1 hp with rfl | hp
    · exact h1
    · exact h2 p hp

/-- In a list ordered by a key, an element that occurs once and whose key is above
the key of every other element is the last one. -/
theorem getLast?_of_greatest {α : Type} [DecidableEq α] (key : α → Int) (l : List α) (x : α)
    (hsorted : l.Pairwise (fun a b => key a ≤ key b)) (hx : x ∈ l)
    (hmax : ∀ y ∈ l, y ≠ x → key y < key x) (hcount : l.count x = 1) :
    l.getLast? = some x := by
  obtain ⟨pre, post, rfl⟩ := List.append_of_mem hx
  have hpost : post = [] := by
    cases post with
    | nil => rfl
    | cons b rest =>
      exfalso
      rw [List.count_append, List.count_cons_self] at hcount
      have hc0 : List.count x (b :: rest) = 0 := by omega
      have hbx : b ≠ x := by
        intro h
        rw [h, List.count_cons_self] at hc0
        omega
      have h1 : key b < key x := hmax b (by simp) hbx
      have h2 : key x ≤ key b := by
        have := (List.pairwise_append.1 hsorted).2.1
        exact (List.pairwise_cons.1 this).1 b (by simp)
      omega
  rw [hpost]
  exact List.getLast?_concat pre

/-- The rows of a column served by `GET /api/tasks` are a rearrangement of the rows
of the user with that status and ascend in position. -/
theorem getTasks_column_rows {κ : Type} [LinearOrder κ] (statusKey : String → κ)
    (rows : List TaskRow) (userId : Nat) (status : Status) :
    ((sort (tasksOrder statusKey) (rows.filter (fun t => t.user_id == userId))).filter
        (fun t => t.status == status.key)).Perm
      (rows.filter (fun t => t.user_id == userId && t.status == status.key)) ∧
    ((sort (tasksOrder statusKey) (rows.filter (fun t => t.user_id == userId))).filter
        (fun t => t.status == status.key)).Pairwise (fun a b => a.position ≤ b.position) := by
  constructor
  · refine ((sort_perm _ _).filter _).trans ?_
    rw [List.filter_filter]
    apply List.Perm.of_eq
    apply List.filter_congr
    intro t _
    exact Bool.and_comm _ _
  · have hs := sort_pairwise (tasksOrder statusKey) (tasksOrder_total statusKey)
      (tasksOrder_trans statusKey) (rows.filter (fun t => t.user_id == userId))
    have hf := List.Pairwise.sublist (List.filter_sublist
      (sort (tasksOrder statusKey) (rows.filter (fun t => t.user_id == userId)))
      (p := fun t => t.status == status.key)) hs
    refine (List.Pairwise.and_mem.1 hf).imp ?_
    rintro a b ⟨ha, hb, hab⟩
    have hsa : a.status = status.key := by simpa using (List.mem_filter.1 ha).2
    have hsb : b.status = status.key := by simpa using (List.mem_filter.1 hb).2
    rw [tasksOrder_le_iff, hsa, hsb] at hab
    rcases hab with h | ⟨_, h⟩
    · exact absurd h (lt_irrefl _)
    · omega

/-- What an accepted `POST /api/tasks` inserts. -/
theorem postTasks_accepted (db : Store) (now : Timestamp) (userId : Nat) (body : TaskBody)
    (title : String) (htitle : truthy body.title = some title) :
    ∃ row : TaskRow,
      (postTasks db now userId body).1.status = 201 ∧
      (postTasks db now userId body).2.tasks = db.tasks ++ [row] ∧
      row.id = db.nextTaskId ∧ row.user_id = userId ∧ row.title = title ∧
      row.status = orDefault body.status "todo" ∧
      row.priority = orDefault body.priority "medium" ∧
      row.position = maxPosition ((db.tasks.filter
        (fun t => t.user_id == userId && t.status == orDefault body.status "todo")).map
          TaskRow.position) + 1 := by
  unfold postTasks
  rw [htitle]
  exact ⟨_, rfl, rfl, rfl, rfl, rfl, rfl, rfl, rfl⟩

/-- C28. For every store and every accepted `POST /api/tasks`, the position of the
created task is greater than the position of every existing task of the same user
with the same status, and it is 1 when there is no such task; so in the column
that `GET /api/tasks` serves for its status the created task is the last one. Its
status is `todo` and its priority `medium` when the request supplies none. -/
theorem postTasks_position (db : Store) (now : Timestamp) (userId : Nat) (body : TaskBody)
    (title : String) (htitle : truthy body.title = some title) :
    ∃ row : TaskRow,
      (postTasks db now userId body).1.status = 201 ∧
      (postTasks db now userId body).2.tasks = db.tasks ++ [row] ∧
      row.user_id = userId ∧
      (∀ t ∈ db.tasks, t.user_id = userId → t.status = row.status →
        t.position < row.position) ∧
      ((∀ t ∈ db.tasks, t.user_id = userId → t.status ≠ row.status) → row.position = 1) ∧
      (truthy body.status = none → row.status = "todo") ∧
      (truthy body.priority = none → row.priority = "medium") ∧
      (∀ (κ : Type) [LinearOrder κ] (statusKey : String → κ) (status : Status),
        row.status = status.key →
        ((getTasks statusKey (postTasks db now userId body).2.tasks userId).get
          status).getLast? = some (row.toTask status)) := by
  obtain ⟨row, hstatus, htasks, _, huser, _, hrs, hrp, hpos⟩ :=
    postTasks_accepted db now userId body title htitle
  have hgreater : ∀ t ∈ db.tasks, t.user_id = userId → t.status = row.status →
      t.position < row.position := by
    intro t ht hu hs
    have hmem : t.position ∈ (db.tasks.filter
        (fun t => t.user_id == userId && t.status == orDefault body.status "todo")).map
          TaskRow.position := by
      apply List.mem_map_of_mem
      rw [List.mem_filter]
      refine ⟨ht, ?_⟩
      rw [← hrs]
      simp [hu, hs]
    have := le_maxPosition _ _ hmem
    omega
  refine ⟨row, hstatus, htasks, huser, hgreater, ?_, ?_, ?_, ?_⟩
  · intro hnone
    have hnil : db.tasks.filter
        (fun t => t.user_id == userId && t.status == orDefault body.status "todo") = [] := by
      rw [List.filter_eq_nil_iff]
      intro t ht hp
      simp only [Bool.and_eq_true, beq_iff_eq] at hp
      exact hnone t ht hp.1 (by rw [hrs]; exact hp.2)
    rw [hpos, hnil]
    rfl
  · intro hnone
    rw [hrs, orDefault_eq_truthy, hnone]
    rfl
  · intro hnone
    rw [hrp, orDefault_eq_truthy, hnone]
    rfl
  · intro κ _ statusKey status hkey
    rw [getTasks_get, List.getLast?_map, htasks]
    obtain ⟨hperm, hsorted⟩ := getTasks_column_rows statusKey (db.tasks ++ [row]) userId status
    have hfilter : (db.tasks ++ [row]).filter
        (fun t => t.user_id == userId && t.status == status.key) =
        db.tasks.filter (fun t => t.user_id == userId && t.status == status.key) ++ [row] := by
      rw [List.filter_append]
      simp [huser, hkey]
    rw [hfilter] at hperm
    have hold : ∀ y ∈ db.tasks.filter (fun t => t.user_id == userId && t.status == status.key),
        y.position < row.position := by
      intro y hy
      rw [List.mem_filter] at hy
      simp only [Bool.and_eq_true, beq_iff_eq] at hy
      exact hgreater y hy.1 hy.2.1 (by rw [hkey]; exact hy.2.2)
    have hnotin : row ∉ db.tasks.filter
        (fun t => t.user_id == userId && t.status == status.key) := by
      intro hin
      have := hold row hin
      omega
    have hlast := getLast?_of_greatest TaskRow.position _ row hsorted
      (hperm.mem_iff.2 (by simp))
      (by
        intro y hy hne
        have hy2 := hperm.mem_iff.1 hy
        simp only [List.mem_append, List.mem_singleton] at hy2
        rcases hy2 with hy2 | hy2
        · exact hold y hy2
        · exact absurd hy2 hne)
      (by
        rw [hperm.count_eq, List.count_append, List.count_eq_zero.2 hnotin]
        simp)
    rw [hlast]
    rfl

/-- Witness for C28: user 1 has tasks at positions 1 and 4 in `todo` and creates a
task without status: it gets position 5 and is the last task of the column. -/
theorem postTasks_position_witness :
    ∃ row : TaskRow,
      (postTasks (sampleStore [sampleTaskRow 5 1 "todo" 1, sampleTaskRow 6 1 "todo" 4] [] [])
        ⟨2024, 3, 2, 0, 0, 0, 0⟩ 1 ⟨some "task", none, none, none, none, none⟩).2.tasks =
        [sampleTaskRow 5 1 "todo" 1, sampleTaskRow 6 1 "todo" 4] ++ [row] ∧
      (∀ t ∈ [sampleTaskRow 5 1 "todo" 1, sampleTaskRow 6 1 "todo" 4],
        t.user_id = 1 → t.status = row.status → t.position < row.position) ∧
      row.status = "todo" := by
  obtain ⟨row, _, htasks, _, hgreater, _, hs, _, _⟩ := postTasks_position
    (sampleStore [sampleTaskRow 5 1 "todo" 1, sampleTaskRow 6 1 "todo" 4] [] [])
    ⟨2024, 3, 2, 0, 0, 0, 0⟩ 1 ⟨some "task", none, none, none, none, none⟩ "task" (by decide)
  exact ⟨row, htasks, hgreater, hs (by decide)⟩

/-! ## C29: the month filter of `GET /api/calendar` and interval overlap -/

/-- One year later is later. -/
theorem rank_lt_next_year (t : Timestamp) :
    t.rank < (⟨t.year + 1, t.month, t.day, t.hour, t.minute, t.second, t.ms⟩ : Timestamp).rank := by
  simp only [Timestamp.rank]
  omega

/-- With the filter of the month branch, `GET /api/calendar` answers the rows of the
user that satisfy `monthFilter` for the bounds of the month. -/
theorem mem_getCalendar_month (db : Store) (userId month year : Nat) (e : EventRow) :
    e ∈ getCalendar db userId ⟨none, none, some month, some year⟩ ↔
      e ∈ db.calendar_events ∧ e.user_id = userId ∧
        monthFilter (startOfMonth year month) (endOfMonth year month) e = true := by
  simp only [getCalendar]
  rw [mem_sort]
  simp only [List.mem_filter, beq_iff_eq, and_assoc]

/-- C29: for bounds `S <= E` and an event with `start_time <= end_time`, the month
filter of `GET /api/calendar`, `(S <= start <= E) or (S <= end <= E) or
(start <= S and end >= E)`, holds exactly when the interval-overlap condition
`start <= E and end >= S` holds; and for the same bounds there is an event, whose
start is after its end, that the month filter selects although the overlap
condition fails. -/
theorem monthFilter_iff_intervalOverlap (S E : Timestamp) (e : EventRow)
    (hSE : S.rank ≤ E.rank) (he : e.start_time.rank ≤ e.end_time.rank) :
    (monthFilter S E e = true ↔ intervalOverlap S E e) ∧
      ∃ e2 : EventRow, e2.end_time.rank < e2.start_time.rank ∧
        monthFilter S E e2 = true ∧ ¬ intervalOverlap S E e2 := by
  constructor
  · simp only [monthFilter, intervalOverlap, Bool.or_eq_true, Bool.and_eq_true,
      decide_eq_true_eq]
    constructor
    · rintro ((⟨h1, h2⟩ | ⟨h1, h2⟩) | ⟨h1, h2⟩)
      · exact ⟨h2, le_trans h1 he⟩
      · exact ⟨le_trans he h2, h1⟩
      · exact ⟨le_trans h1 hSE, le_trans hSE h2⟩
    · rintro ⟨h1, h2⟩
      by_cases hs : S.rank ≤ e.start_time.rank
      · exact Or.inl (Or.inl ⟨hs, h1⟩)
      · by_cases hE : e.end_time.rank ≤ E.rank
        · exact Or.inl (Or.inr ⟨h2, hE⟩)
        · exact Or.inr ⟨by omega, by omega⟩
  · have hlt := rank_lt_next_year E
    refine ⟨{ e with
        start_time := ⟨E.year + 1, E.month, E.day, E.hour, E.minute, E.second, E.ms⟩
        end_time := S }, ?_, ?_, ?_⟩
    · exact lt_of_le_of_lt hSE hlt
    · simp only [monthFilter, Bool.or_eq_true, Bool.and_eq_true, decide_eq_true_eq]
      exact Or.inl (Or.inr ⟨le_refl _, hSE⟩)
    · simp only [intervalOverlap, not_and]
      intro h
      exact absurd h (not_le.2 hlt)

/-- Witness for C29: March 2024 and an event from 28 February to 2 March 2024,
which the filter selects and which overlaps the month. -/
theorem monthFilter_iff_intervalOverlap_witness :
    (startOfMonth 2024 3).rank ≤ (endOfMonth 2024 3).rank ∧
      (sampleEventRow 1 1 ⟨2024, 2, 28, 9, 0, 0, 0⟩ ⟨2024, 3, 2, 9, 0, 0, 0⟩).start_time.rank ≤
        (sampleEventRow 1 1 ⟨2024, 2, 28, 9, 0, 0, 0⟩ ⟨2024, 3, 2, 9, 0, 0, 0⟩).end_time.rank ∧
      monthFilter (startOfMonth 2024 3) (endOfMonth 2024 3)
        (sampleEventRow 1 1 ⟨2024, 2, 28, 9, 0, 0, 0⟩ ⟨2024, 3, 2, 9, 0, 0, 0⟩) = true ∧
      intervalOverlap (startOfMonth 2024 3) (endOfMonth 2024 3)
        (sampleEventRow 1 1 ⟨2024, 2, 28, 9, 0, 0, 0⟩ ⟨2024, 3, 2, 9, 0, 0, 0⟩) :=
  have h := (monthFilter_iff_intervalOverlap (startOfMonth 2024 3) (endOfMonth 2024 3)
    (sampleEventRow 1 1 ⟨2024, 2, 28, 9, 0, 0, 0⟩ ⟨2024, 3, 2, 9, 0, 0, 0⟩)
    (by decide) (by decide)).1
  ⟨by decide, by decide, by decide, h.1 (by decide)⟩

/-! ## C30: the grid of `renderCalendar` -/

/-- The countdown loop `for (i = n - 1; i >= 0; i--)` writing `p - i` writes the
last `n` numbers up to `p` in ascending order. -/
theorem map_reverse_range_sub (n : Nat) (p : Int) :
    (List.range n).reverse.map (fun (i : Nat) => Cell.otherMonth (p - (i : Int))) =
      (List.range n).map (fun (k : Nat) => Cell.otherMonth (p - (n : Int) + 1 + (k : Int))) := by
  have h := List.reverse_range' 0 n
  rw [← List.range_eq_range'] at h
  rw [h, List.map_map]
  apply List.map_congr_left
  intro k hk
  have hk2 : k < n := List.mem_range.1 hk
  simp only [Function.comp]
  congr 1
  omega

/-- C30: for `startDay` in 0..6 and `daysInMonth` in 28..31 the grid built by
`renderCalendar` is the seven headers, then `startDay` filler cells showing the
last `startDay` day numbers of the previous month in ascending order, then
`daysInMonth` cells of the month, then `r` filler cells numbered from 1 with
`r` in 0..6, and the number of day cells `startDay + daysInMonth + r` is the
smallest multiple of 7 that is at least `startDay + daysInMonth`, which is 28, 35
or 42. -/
theorem renderCalendar_grid (st : Calendar) (today : LocalDate)
    (startDay daysInMonth prevMonthLastDay : Nat)
    (hs : startDay ≤ 6) (hd1 : 28 ≤ daysInMonth) (hd2 : daysInMonth ≤ 31) :
    ∃ r : Nat, r ≤ 6 ∧
      renderCalendar st today startDay daysInMonth prevMonthLastDay =
        ["Sun", "Mon", "Tue", "Wed", "Thu", "Fri", "Sat"].map Cell.header ++
        (List.range startDay).map (fun (k : Nat) =>
          Cell.otherMonth ((prevMonthLastDay : Int) - (startDay : Int) + 1 + (k : Int))) ++
        (List.range daysInMonth).map (fun k =>
          Cell.currentMonth (renderDay st today (k + 1))) ++
        (List.range r).map (fun (k : Nat) => Cell.otherMonth ((k : Int) + 1)) ∧
      (renderCalendar st today startDay daysInMonth prevMonthLastDay).length =
        7 + (startDay + daysInMonth + r) ∧
      7 ∣ startDay + daysInMonth + r ∧
      (∀ m : Nat, 7 ∣ m → startDay + daysInMonth ≤ m → startDay + daysInMonth + r ≤ m) ∧
      (startDay + daysInMonth + r = 28 ∨ startDay + daysInMonth + r = 35 ∨
        startDay + daysInMonth + r = 42) := by
  have hgrid : renderCalendar st today startDay daysInMonth prevMonthLastDay =
      ["Sun", "Mon", "Tue", "Wed", "Thu", "Fri", "Sat"].map Cell.header ++
      (List.range startDay).map (fun (k : Nat) =>
        Cell.otherMonth ((prevMonthLastDay : Int) - (startDay : Int) + 1 + (k : Int))) ++
      (List.range daysInMonth).map (fun k =>
        Cell.currentMonth (renderDay st today (k + 1))) ++
      (List.range ((startDay + daysInMonth + 6) / 7 * 7 - (startDay + daysInMonth))).map
        (fun (k : Nat) => Cell.otherMonth ((k : Int) + 1)) := by
    simp only [renderCalendar]
    rw [map_reverse_range_sub]
  refine ⟨(startDay + daysInMonth + 6) / 7 * 7 - (startDay + daysInMonth), ?_, hgrid, ?_,
    ?_, ?_, ?_⟩
  · omega
  · rw [hgrid]
    simp only [List.length_append, List.length_map, List.length_range, List.length_cons,
      List.length_nil]
    omega
  · exact ⟨(startDay + daysInMonth + 6) / 7, by omega⟩
  · rintro m ⟨c, rfl⟩ hle
    omega
  · omega

/-- Witness for C30: a month of 30 days that starts on a Saturday after a month of
31 days has six leading fillers 26..31, no trailing filler and 42 day cells. -/
theorem renderCalendar_grid_witness :
    ∃ r : Nat, r ≤ 6 ∧
      renderCalendar (sampleCalendar [] [] []) ⟨2024, 5, 15⟩ 6 30 31 =
        ["Sun", "Mon", "Tue", "Wed", "Thu", "Fri", "Sat"].map Cell.header ++
        [Cell.otherMonth 26, Cell.otherMonth 27, Cell.otherMonth 28, Cell.otherMonth 29,
          Cell.otherMonth 30, Cell.otherMonth 31] ++
        (List.range 30).map (fun k =>
          Cell.currentMonth (renderDay (sampleCalendar [] [] []) ⟨2024, 5, 15⟩ (k + 1))) ++
        (List.range r).map (fun (k : Nat) => Cell.otherMonth ((k : Int) + 1)) ∧
      6 + 30 + r = 42 := by
  obtain ⟨r, hr, hgrid, _, _, _, h⟩ := renderCalendar_grid (sampleCalendar [] [] [])
    ⟨2024, 5, 15⟩ 6 30 31 (by decide) (by decide) (by decide)
  refine ⟨r, hr, ?_, by omega⟩
  rw [hgrid]
  rfl

end Todolist
